import Mathlib

/-!
# Verification of the goal-tracker core (frontmatter codec, activity rules, calendar builder)

Shallow embedding of the TypeScript sources of the goal-tracker repository:

* the hand-rolled YAML-subset frontmatter parser and serializer
  (fileSystem service: parseFrontmatter, parseValue, serializeFrontmatter,
  frontmatterToGoal),
* the goal activity / completion predicates (goal.utils),
* the day/week/month status derivation and the calendar month builder
  (calendar.utils),
* the monthly-progress store update (app.store).

Modelling conventions:

* JavaScript strings are modelled as `List Char` (abbreviated `Str`).
* JavaScript numbers that the code stores in goals are integral counts and
  dates; they are modelled as `Int`.  The classifier for the JS
  `Number(string)` coercion (`jsNumericOk`) implements the full
  StringNumericLiteral grammar (decimal with fraction/exponent, hex, octal,
  binary, Infinity); the numeric *value* (`jsIntVal`) is only modelled for
  optional-sign integer decimal strings, which are the only numeric strings
  the serializer emits — on other numeric strings (for example "2.5") the
  value is not meaningful.
* JavaScript `Date` values are modelled by `Civil` (a normalized
  year / 0-based month / day triple); an invalid date (NaN timestamp) is
  `Option.none` at use sites that can produce one.  All dates the app builds
  are at local midnight, so timestamp comparison is day-number comparison.
* The ambient clock (`new Date()` inside isToday / isFutureDate) is made an
  explicit `today : Civil` parameter.
* While-loops with a mutable cursor are modelled as fuel recursion; the
  top-level entry points pass fuel that provably suffices (claim C10).
-/

set_option maxHeartbeats 1000000
set_option linter.unnecessarySeqFocus false

namespace GoalTracker

/-- JavaScript strings, modelled as lists of characters. -/
abbrev Str := List Char

/-- Whitespace characters recognised by JS regexp \s and String.trim
(the subset that can occur in this code's inputs). -/
def isWsChar (c : Char) : Bool :=
  c == ' ' || c == '\t' || c == '\n' || c == '\r' || c == '\x0b' || c == '\x0c'

/-- JS String.trim: drop whitespace from both ends. -/
def trim (s : Str) : Str :=
  ((s.dropWhile isWsChar).reverse.dropWhile isWsChar).reverse

/-- JS String.startsWith: s starts with p. -/
def strStarts : Str → Str → Bool
  | _, [] => true
  | [], _ :: _ => false
  | c :: s, p :: ps => c == p && strStarts s ps

/-- JS String.endsWith: s ends with p. -/
def strEnds (s p : Str) : Bool := strStarts s.reverse p.reverse

/-- JS String.split(sep) for a one-character separator. -/
def splitOnChar (sep : Char) : Str → List Str
  | [] => [[]]
  | c :: rest =>
    if c == sep then [] :: splitOnChar sep rest
    else
      match splitOnChar sep rest with
      | [] => [[c]]
      | r :: rs => (c :: r) :: rs

/-- JS Array.join(sep). -/
def joinSep (sep : Str) : List Str → Str
  | [] => []
  | [s] => s
  | s :: rest => s ++ sep ++ joinSep sep rest

/-- The character of a decimal digit value (0-9). -/
def digitCh (n : Nat) : Char := Char.ofNat (48 + n)

/-- Decimal digits of a natural number, least significant first, with fuel. -/
def natDigitsRevF : Nat → Nat → List Char
  | 0, _ => []
  | f + 1, n => if n < 10 then [digitCh n] else digitCh (n % 10) :: natDigitsRevF f (n / 10)

/-- Decimal representation of a natural number (JS String(n) for integral n). -/
def natToStr (n : Nat) : Str := (natDigitsRevF (n + 1) n).reverse

/-- JS String(i) for an integral number. -/
def intToStr (i : Int) : Str := if i < 0 then '-' :: natToStr i.natAbs else natToStr i.natAbs

/-- Numeric value of a decimal digit character. -/
def digitVal (c : Char) : Nat := c.toNat - 48

/-- Value of a nonempty string of decimal digits. -/
def decDigitsVal (s : Str) : Int := s.foldl (fun a c => a * 10 + (digitVal c : Int)) 0

/-- Hex digit as in the JS numeric literal grammar. -/
def jsIsHexDigit (c : Char) : Bool :=
  c.isDigit || ('a' ≤ c && c ≤ 'f') || ('A' ≤ c && c ≤ 'F')

/-- Optional ExponentPart of the JS StrDecimalLiteral grammar; the empty
string means the part is absent. -/
def jsExpOk (s : Str) : Bool :=
  match s with
  | [] => true
  | c :: rest =>
    (c == 'e' || c == 'E') &&
    (let rest2 :=
      match rest with
      | d :: ds => if d == '+' || d == '-' then ds else rest
      | [] => []
     !rest2.isEmpty && rest2.all Char.isDigit)

/-- StrUnsignedDecimalLiteral of the JS Number(string) grammar. -/
def jsUnsignedDecOk (s : Str) : Bool :=
  s == "Infinity".data ||
  (let d1 := s.takeWhile Char.isDigit
   let r1 := s.dropWhile Char.isDigit
   match r1 with
   | '.' :: r2 =>
     let d2 := r2.takeWhile Char.isDigit
     let r3 := r2.dropWhile Char.isDigit
     (!d1.isEmpty || !d2.isEmpty) && jsExpOk r3
   | _ => !d1.isEmpty && jsExpOk r1)

/-- StrDecimalLiteral: optional sign then an unsigned decimal literal. -/
def jsSignedDecOk (s : Str) : Bool :=
  match s with
  | [] => false
  | c :: rest => if c == '+' || c == '-' then jsUnsignedDecOk rest else jsUnsignedDecOk s

/-- Whether JS Number(s) does NOT give NaN: the StringNumericLiteral grammar
(whitespace-trimmed; empty means 0; decimal / hex / octal / binary / Infinity). -/
def jsNumericOk (s : Str) : Bool :=
  let t := trim s
  t.isEmpty ||
  (match t with
   | '0' :: c :: rest =>
     if c == 'x' || c == 'X' then !rest.isEmpty && rest.all jsIsHexDigit
     else if c == 'o' || c == 'O' then !rest.isEmpty && rest.all (fun d => '0' ≤ d && d ≤ '7')
     else if c == 'b' || c == 'B' then !rest.isEmpty && rest.all (fun d => d == '0' || d == '1')
     else jsSignedDecOk t
   | _ => jsSignedDecOk t)

/-- Value of JS Number(s) for the optional-sign integer decimal strings the
serializer emits (and 0 for the empty/whitespace string).  For other numeric
strings (fractions, exponents, hex, Infinity) the JS value is a float that
this embedding does not model; those cases return 0 and are never reached in
the theorems below. -/
def jsIntVal (s : Str) : Int :=
  let t := trim s
  match t with
  | [] => 0
  | '-' :: rest => if !rest.isEmpty && rest.all Char.isDigit then -(decDigitsVal rest) else 0
  | '+' :: rest => if !rest.isEmpty && rest.all Char.isDigit then decDigitsVal rest else 0
  | _ => if t.all Char.isDigit then decDigitsVal t else 0

/-- The dynamic values the frontmatter parser produces (JS primitives plus
arrays and plain objects; an object is its insertion-ordered field list). -/
inductive Value where
  | str (s : Str)
  | num (n : Int)
  | bool (b : Bool)
  | null
  | arr (items : List Value)
  | obj (fields : List (Str × Value))

/-- parseValue of the fileSystem service: scalar coercion for YAML values. -/
def parseValue (v : Str) : Value :=
  if v == "true".data then .bool true
  else if v == "false".data then .bool false
  else if v == "null".data || v == "~".data then .null
  else if v.isEmpty then .str []
  else if jsNumericOk v then .num (jsIntVal v)
  else .str v

/-- JS object property assignment obj[k] = v on an insertion-ordered field
list: replace the value in place if the key exists, else append. -/
def jsSet : List (Str × Value) → Str → Value → List (Str × Value)
  | [], k, v => [(k, v)]
  | (k0, v0) :: t, k, v =>
    if k0 == k then (k0, v) :: t else (k0, v0) :: jsSet t k v

/-- JS object property read obj[k] (first matching key; none = undefined). -/
def jsGet : List (Str × Value) → Str → Option Value
  | [], _ => none
  | (k0, v0) :: t, k => if k0 == k then some v0 else jsGet t k

/-- Word characters of the JS regexp class \w. -/
def isWordChar (c : Char) : Bool := c.isAlpha || c.isDigit || c == '_'

/-- Characters of the key class [\w.-] used by the frontmatter key regexp. -/
def isKeyChar (c : Char) : Bool := isWordChar c || c == '.' || c == '-'

/-- The keyMatch regexp of parseFrontmatter applied to a trimmed line:
a [\w.-]+ key, a colon, optional whitespace, then the rest as the value. -/
def matchKeyVal (t : Str) : Option (Str × Str) :=
  let k := t.takeWhile isKeyChar
  if k.isEmpty then none
  else
    match t.dropWhile isKeyChar with
    | ':' :: r => some (k, r.dropWhile isWsChar)
    | _ => none

/-- The objectMatch regexp (dash, whitespace, \w+ key, colon, value) applied
to a trimmed array-item line. -/
def matchDashKeyVal (t : Str) : Option (Str × Str) :=
  match t with
  | '-' :: r =>
    if (r.takeWhile isWsChar).isEmpty then none
    else
      let r1 := r.dropWhile isWsChar
      let k := r1.takeWhile isWordChar
      if k.isEmpty then none
      else
        match r1.dropWhile isWordChar with
        | ':' :: r2 => some (k, r2.dropWhile isWsChar)
        | _ => none
  | _ => none

/-- The propMatch regexp (\w+ key, colon, value) of the nested-object loop. -/
def matchWordKeyVal (t : Str) : Option (Str × Str) :=
  let k := t.takeWhile isWordChar
  if k.isEmpty then none
  else
    match t.dropWhile isWordChar with
    | ':' :: r => some (k, r.dropWhile isWsChar)
    | _ => none

/-- value.slice(1, -1): drop the surrounding brackets of an inline array. -/
def dropOuter (v : Str) : Str := (v.drop 1).dropLast

/-- Inline array parsing: slice off the brackets, split on commas, trim each
element; the elements stay plain strings. -/
def parseInlineArr (v : Str) : Value :=
  .arr ((splitOnChar ',' (dropOuter v)).map (fun s => .str (trim s)))

/-- The inner loop of parseFrontmatter that reads the extra indented
properties of an object array item: lines indented by at least four spaces
and not starting with a dash.  The fuel bounds the number of consumed lines;
callers pass the length of the remaining line list, which suffices. -/
def objPropsF : Nat → List Str → List (Str × Value) → (List (Str × Value) × List Str)
  | 0, ls, obj => (obj, ls)
  | _ + 1, [], obj => (obj, [])
  | f + 1, propLine :: rest, obj =>
    if !(strStarts propLine "    ".data) || strStarts (trim propLine) "-".data then
      (obj, propLine :: rest)
    else
      let obj2 :=
        match matchWordKeyVal (trim propLine) with
        | some (pk, pv) => jsSet obj pk (parseValue pv)
        | none => obj
      objPropsF f rest obj2

/-- The block-array loop of parseFrontmatter: consumes consecutive lines
whose trimmed form starts with a dash, producing scalar items or objects. -/
def arrayItemsF : Nat → List Str → List Value → (List Value × List Str)
  | 0, ls, items => (items, ls)
  | _ + 1, [], items => (items, [])
  | f + 1, itemLine :: rest, items =>
    let it := trim itemLine
    if !(strStarts it "- ".data) then (items, itemLine :: rest)
    else
      match matchDashKeyVal it with
      | some (k1, v1) =>
        let p := objPropsF rest.length rest (jsSet [] k1 (parseValue v1))
        arrayItemsF f p.2 (items ++ [.obj p.1])
      | none => arrayItemsF f rest (items ++ [.str (it.drop 2)])

/-- The block-mapping loop of parseFrontmatter: consumes consecutive
two-space-indented lines that do not start with a dash, inline-array-aware. -/
def mapPropsF : Nat → List Str → List (Str × Value) → (List (Str × Value) × List Str)
  | 0, ls, obj => (obj, ls)
  | _ + 1, [], obj => (obj, [])
  | f + 1, propLine :: rest, obj =>
    if !(strStarts propLine "  ".data) || strStarts (trim propLine) "-".data then
      (obj, propLine :: rest)
    else
      let obj2 :=
        match matchKeyVal (trim propLine) with
        | some (pk, pv) =>
          if strStarts pv "[".data && strEnds pv "]".data then jsSet obj pk (parseInlineArr pv)
          else jsSet obj pk (parseValue pv)
        | none => obj
      mapPropsF f rest obj2

/-- The outer while-loop of parseFrontmatter over the frontmatter lines.
Every iteration consumes at least one line, so fuel equal to the number of
lines plus one always reaches the end of the list (claim C10). -/
def pfLoopF : Nat → List Str → List (Str × Value) → List (Str × Value)
  | 0, _, acc => acc
  | _ + 1, [], acc => acc
  | f + 1, line :: rest, acc =>
    let t := trim line
    if t.isEmpty then pfLoopF f rest acc
    else
      match matchKeyVal t with
      | none => pfLoopF f rest acc
      | some (k, v) =>
        if strStarts v "[".data && strEnds v "]".data then
          pfLoopF f rest (jsSet acc k (parseInlineArr v))
        else if v.isEmpty || v == "[]".data then
          match rest with
          | nextLine :: _ =>
            if strStarts (trim nextLine) "- ".data then
              let p := arrayItemsF rest.length rest []
              pfLoopF f p.2 (jsSet acc k (.arr p.1))
            else if strStarts nextLine "  ".data && !(strStarts (trim nextLine) "-".data) then
              let p := mapPropsF rest.length rest []
              pfLoopF f p.2 (jsSet acc k (.obj p.1))
            else pfLoopF f rest (jsSet acc k (.arr []))
          | [] => pfLoopF f rest (jsSet acc k (.arr []))
        else pfLoopF f rest (jsSet acc k (parseValue v))

/-- Index of the first occurrence of the closing marker, the four characters
newline dash dash dash, in a string (the lazy part of the frontmatter
regexp). -/
def findMarker (s : Str) : Option Nat :=
  match s with
  | [] => none
  | _ :: rest => if strStarts s "\n---".data then some 0 else (findMarker rest).map (· + 1)

/-- The frontmatter-extraction regexp: text between an opening dash-dash-dash
line at the start of the file and the first following line break followed by
dash dash dash; none when the file has no frontmatter block. -/
def extractFM (content : Str) : Option Str :=
  if strStarts content "---\n".data then
    match findMarker (content.drop 4) with
    | some i => some ((content.drop 4).take i)
    | none => none
  else none

/-- parseFrontmatter of the fileSystem service: extract the frontmatter
block, split it into lines, and run the line cursor loop. -/
def parseFrontmatter (content : Str) : List (Str × Value) :=
  match extractFM content with
  | none => []
  | some fmText =>
    let lines := splitOnChar '\n' fmText
    pfLoopF (lines.length + 1) lines []

/-! ## The Goal data model (goal.types) -/

/-- A subtask of a goal.  The completed flag is the template default. -/
structure Subtask where
  id : Str
  title : Str
  completed : Bool
deriving DecidableEq

/-- A recurrence rule.  The frequency / daysOfWeek string-union types of the
source are modelled as strings. -/
structure Recurrence where
  frequency : Str
  daysOfWeek : Option (List Str)
  dayOfMonth : Option Int
  targetCount : Option Int
  minimumCount : Option Int
deriving DecidableEq

/-- The Goal entity.  The string-union types (GoalType, GoalStatus,
Priority) are modelled as strings, matching their runtime representation;
date-keyed maps are insertion-ordered association lists, matching JS object
entry order. -/
structure Goal where
  id : Str
  title : Str
  description : Str
  type : Str
  status : Str
  startDate : Str
  endDate : Str
  recurrence : Option Recurrence
  priority : Str
  completions : List Str
  subtasks : Option (List Subtask)
  tags : List Str
  category : Str
  filePath : Str
  monthlyProgress : Option (List (Str × Int))
  dailySubtaskCompletions : Option (List (Str × List Str))
  weeklySubtaskCompletions : Option (List (Str × List Str))
deriving DecidableEq

/-! ## serializeFrontmatter -/

/-- The three lines the serializer emits for one subtask. -/
def subtaskLines (st : Subtask) : List Str :=
  ["  - id: ".data ++ st.id,
   "    title: ".data ++ st.title,
   "    completed: ".data ++ (if st.completed then "true".data else "false".data)]

/-- An inline array: a bracketed comma-space-joined element list. -/
def inlineArr (items : List Str) : Str :=
  "[".data ++ joinSep ", ".data items ++ "]".data

/-- The entry lines of a serialized daily/weekly subtask-completion map;
entries with an empty id list are skipped. -/
def completionMapLines (m : List (Str × List Str)) : List Str :=
  m.flatMap (fun p =>
    if p.2.length > 0 then ["  ".data ++ p.1 ++ ": ".data ++ inlineArr p.2] else [])

/-- The entry lines of a serialized monthlyProgress map. -/
def monthlyLines (m : List (Str × Int)) : List Str :=
  m.map (fun p => "  ".data ++ p.1 ++ ": ".data ++ intToStr p.2)

/-- The lines of a serialized recurrence block. -/
def recurrenceLines (r : Recurrence) : List Str :=
  ["recurrence:".data, "  frequency: ".data ++ r.frequency]
  ++ (match r.targetCount with
      | some n => ["  targetCount: ".data ++ intToStr n]
      | none => [])
  ++ (match r.minimumCount with
      | some n => ["  minimumCount: ".data ++ intToStr n]
      | none => [])
  ++ (match r.dayOfMonth with
      | some n => ["  dayOfMonth: ".data ++ intToStr n]
      | none => [])
  ++ (match r.daysOfWeek with
      | some l => if l.length > 0 then ["  daysOfWeek: ".data ++ inlineArr l] else []
      | none => [])

/-- The full ordered line list that serializeFrontmatter pushes for a goal. -/
def serializeLines (g : Goal) : List Str :=
  ["type: ".data ++ g.type,
   "status: ".data ++ g.status,
   "startDate: ".data ++ g.startDate,
   "endDate: ".data ++ g.endDate,
   "priority: ".data ++ g.priority,
   "completions: ".data ++ inlineArr g.completions]
  ++ (match g.subtasks with
      | some l =>
        if l.length > 0 then "subtasks:".data :: l.flatMap subtaskLines
        else ["subtasks: []".data]
      | none => ["subtasks: []".data])
  ++ (match g.dailySubtaskCompletions with
      | some m =>
        if m.length > 0 then "dailySubtaskCompletions:".data :: completionMapLines m
        else ["dailySubtaskCompletions: \x7b\x7d".data]
      | none => ["dailySubtaskCompletions: \x7b\x7d".data])
  ++ (match g.weeklySubtaskCompletions with
      | some m =>
        if m.length > 0 then "weeklySubtaskCompletions:".data :: completionMapLines m
        else ["weeklySubtaskCompletions: \x7b\x7d".data]
      | none => ["weeklySubtaskCompletions: \x7b\x7d".data])
  ++ (match g.monthlyProgress with
      | some m => if m.length > 0 then "monthlyProgress:".data :: monthlyLines m else []
      | none => [])
  ++ (match g.recurrence with
      | some r => recurrenceLines r
      | none => [])
  ++ [if g.tags.length > 0 then "tags: ".data ++ inlineArr g.tags else "tags: []".data]

/-- serializeFrontmatter of the fileSystem service: the pushed lines joined
with newlines. -/
def serializeFrontmatter (g : Goal) : Str :=
  joinSep "\n".data (serializeLines g)

/-! ## frontmatterToGoal (the goal model mapper) -/

/-- JS String(v), with fuel for nested arrays.  The parser only produces
values of depth at most three, so the fixed fuel below is exact on every
reachable value. -/
def jsStringOfValueF : Nat → Value → Str
  | _, .str s => s
  | _, .num n => intToStr n
  | _, .bool b => if b then "true".data else "false".data
  | _, .null => "null".data
  | 0, .arr _ => []
  | f + 1, .arr items => joinSep ",".data (items.map (jsStringOfValueF f))
  | _, .obj _ => "[object Object]".data

/-- JS String(v). -/
def jsStringOfValue (v : Value) : Str := jsStringOfValueF 8 v

/-- JS String(v) where v may be undefined. -/
def jsStringOfOpt : Option Value → Str
  | none => "undefined".data
  | some v => jsStringOfValue v

/-- JS truthiness of a value. -/
def jsTruthy : Value → Bool
  | .str s => !s.isEmpty
  | .num n => !(n == 0)
  | .bool b => b
  | .null => false
  | .arr _ => true
  | .obj _ => true

/-- JS Boolean(v) where v may be undefined. -/
def jsBoolOfOpt : Option Value → Bool
  | none => false
  | some v => jsTruthy v

/-- JS Number(v) for a parsed value.  NaN is not modelled (the NaN cases
return 0 and are unreachable in the theorems below). -/
def jsNumberOfValue : Value → Int
  | .num n => n
  | .str s => jsIntVal s
  | .bool b => if b then 1 else 0
  | .null => 0
  | .arr _ => 0
  | .obj _ => 0

/-- Object.entries(v): an object gives its field list, an array or string
gives index/element pairs, primitives give nothing. -/
def jsEntries : Value → List (Str × Value)
  | .obj fields => fields
  | .arr items => items.enum.map (fun p => (natToStr p.1, p.2))
  | .str s => s.enum.map (fun p => (natToStr p.1, .str [p.2]))
  | _ => []

/-- Property access v.k on a parsed value (undefined unless v is an object
with that key). -/
def getProp (v : Value) (k : Str) : Option Value :=
  match v with
  | .obj fields => jsGet fields k
  | _ => none

/-- The array elements of a value after the as-array TypeScript cast.  The
cast keeps non-array values unchanged at runtime; such values never occur in
the theorems below and are mapped to the empty list. -/
def valueItems : Value → List Value
  | .arr items => items
  | _ => []

/-- Array.isArray(v) ? v.map(String) : [] — used for the completion maps. -/
def valueArrToStrs : Value → List Str
  | .arr items => items.map jsStringOfValue
  | _ => []

/-- An optional value behind a nullish-coalescing default, as a string: the
?? operator falls through on undefined and null; non-string present values
are coerced with String (exact where the source wraps the expression in
String, best-effort for the unchecked as-casts, which never occur in the
theorems below). -/
def valueOrD (v? : Option Value) (d : Str) : Str :=
  match v? with
  | none => d
  | some .null => d
  | some (.str s) => s
  | some v => jsStringOfValue v

/-- The number behind an as-number cast when the parsed value is a number. -/
def valueToIntOpt : Value → Option Int
  | .num n => some n
  | _ => none

/-- The title-line regexp (hash, whitespace, rest) applied to one line,
including the regexp backtracking corner where the rest is whitespace. -/
def matchTitleLine (l : Str) : Option Str :=
  match l with
  | '#' :: rest =>
    let ws := rest.takeWhile isWsChar
    let r1 := rest.dropWhile isWsChar
    if ws.isEmpty then none
    else if !r1.isEmpty then some r1
    else if ws.length ≥ 2 then some [ws.getLastD ' ']
    else none
  | _ => none

/-- extractTitle: the first markdown heading line, trimmed; a fixed default
otherwise. -/
def extractTitle (content : Str) : Str :=
  match (splitOnChar '\n' content).findSome? matchTitleLine with
  | some t => trim t
  | none => "Untitled Goal".data

/-- Remove the frontmatter block (and one following newline) from the start
of the file, as the description extractor does. -/
def stripFrontmatter (content : Str) : Str :=
  match extractFM content with
  | some fm =>
    let r := content.drop (4 + fm.length + 4)
    match r with
    | '\n' :: r2 => r2
    | _ => r
  | none => content

/-- Remove a leading title line (hash, whitespace, rest of line, optional
newline) from the start of the remaining body. -/
def stripTitle (s : Str) : Str :=
  match s with
  | '#' :: rest =>
    let ws := rest.takeWhile isWsChar
    let r1 := rest.dropWhile isWsChar
    if ws.isEmpty || r1.isEmpty then s
    else
      let afterLine := r1.dropWhile (fun c => !(c == '\n'))
      match afterLine with
      | '\n' :: r2 => r2
      | _ => afterLine
  | _ => s

/-- Global replacement of double-star pairs (the bold markers). -/
def removeStarPairs : Str → Str
  | '*' :: '*' :: rest => removeStarPairs rest
  | c :: rest => c :: removeStarPairs rest
  | [] => []

/-- The first-paragraph loop of extractDescription. -/
def descLoop : List Str → List Str → List Str
  | [], acc => acc
  | l :: rest, acc =>
    if strStarts l "#".data then acc
    else
      let acc2 :=
        if strStarts l "**".data && l.any (fun c => c == ':') then
          acc ++ [trim (removeStarPairs l)]
        else if !(trim l).isEmpty && !(strStarts l "-".data) && !(strStarts l "[".data) then
          acc ++ [trim l]
        else acc
      if acc2.length > 0 && (trim l).isEmpty then acc2
      else descLoop rest acc2

/-- extractDescription: the first paragraph after the title, heuristically
cleaned, capped at 200 characters. -/
def extractDescription (content : Str) : Str :=
  let withoutTitle := trim (stripTitle (stripFrontmatter content))
  (joinSep " ".data (descLoop (splitOnChar '\n' withoutTitle) [])).take 200

/-- Auxiliary loop of first-occurrence string replacement. -/
def replaceFirstGo (target repl : Str) : Str → Str
  | [] => []
  | c :: rest =>
    if strStarts (c :: rest) target then repl ++ (c :: rest).drop target.length
    else c :: replaceFirstGo target repl rest

/-- JS String.replace with a plain-string pattern: first occurrence only. -/
def replaceFirst (s target repl : Str) : Str :=
  if target.isEmpty then repl ++ s else replaceFirstGo target repl s

/-- JS String.replace with the global whitespace-run regexp, replacing each
run with a dash; the flag tracks whether the previous character was part of
a run. -/
def wsRunsToDashGo : Bool → Str → Str
  | _, [] => []
  | inRun, c :: rest =>
    if isWsChar c then
      if inRun then wsRunsToDashGo true rest else '-' :: wsRunsToDashGo true rest
    else c :: wsRunsToDashGo false rest

/-- Replace every whitespace run with a dash. -/
def wsRunsToDash (s : Str) : Str := wsRunsToDashGo false s

/-- frontmatterToGoal of the fileSystem service.  The ambient clock used for
the startDate default (today's ISO date) is the explicit todayISO
parameter. -/
def frontmatterToGoal (fm : List (Str × Value)) (content : Str) (filePath : Str)
    (category : Str) (todayISO : Str) : Goal :=
  let fileName := ((splitOnChar '/' filePath).getLast?).getD filePath
  let id := (wsRunsToDash (replaceFirst fileName ".md".data [])).map Char.toLower
  let recurrence : Option Recurrence :=
    match jsGet fm "recurrence".data with
    | some rv =>
      if jsTruthy rv then
        some { frequency :=
                 (match getProp rv "frequency".data with
                  | some (.str s) => s
                  | _ => []),
               daysOfWeek := (getProp rv "daysOfWeek".data).map valueArrToStrs,
               dayOfMonth := (getProp rv "dayOfMonth".data).bind valueToIntOpt,
               targetCount := (getProp rv "targetCount".data).bind valueToIntOpt,
               minimumCount := (getProp rv "minimumCount".data).bind valueToIntOpt }
      else none
    | none => none
  let subtasks : Option (List Subtask) :=
    (jsGet fm "subtasks".data).map (fun v =>
      (valueItems v).map (fun st =>
        { id := jsStringOfOpt (getProp st "id".data),
          title := jsStringOfOpt (getProp st "title".data),
          completed := jsBoolOfOpt (getProp st "completed".data) }))
  let monthlyProgress : Option (List (Str × Int)) :=
    match jsGet fm "monthlyProgress".data with
    | some v =>
      if jsTruthy v then some ((jsEntries v).map (fun p => (p.1, jsNumberOfValue p.2)))
      else none
    | none => none
  let dailySubtaskCompletions : Option (List (Str × List Str)) :=
    match jsGet fm "dailySubtaskCompletions".data with
    | some v =>
      if jsTruthy v then some ((jsEntries v).map (fun p => (p.1, valueArrToStrs p.2)))
      else none
    | none => none
  let weeklySubtaskCompletions : Option (List (Str × List Str)) :=
    match jsGet fm "weeklySubtaskCompletions".data with
    | some v =>
      if jsTruthy v then some ((jsEntries v).map (fun p => (p.1, valueArrToStrs p.2)))
      else none
    | none => none
  { id := id,
    title := extractTitle content,
    description := extractDescription content,
    type := valueOrD (jsGet fm "type".data) "daily".data,
    status := valueOrD (jsGet fm "status".data) "active".data,
    startDate := valueOrD (jsGet fm "startDate".data) todayISO,
    endDate := valueOrD (jsGet fm "endDate".data) "2026-12-31".data,
    recurrence := recurrence,
    priority := valueOrD (jsGet fm "priority".data) "medium".data,
    completions :=
      (match jsGet fm "completions".data with
       | some v => valueArrToStrs v
       | none => []),
    subtasks := subtasks,
    tags :=
      (match jsGet fm "tags".data with
       | some v => valueArrToStrs v
       | none => []),
    category := category,
    filePath := filePath,
    monthlyProgress := monthlyProgress,
    dailySubtaskCompletions := dailySubtaskCompletions,
    weeklySubtaskCompletions := weeklySubtaskCompletions }

/-! ## The date layer (date.utils)

JS Date values at local midnight are modelled by a normalized civil date:
a year, a 0-based month and a 1-based day of month.  Timestamp order is
day-number order (`civilToDays`, the standard days-from-civil conversion).
An invalid date (NaN timestamp) is `Option.none`. -/

/-- A normalized calendar date: 0-based month as in JS getMonth. -/
structure Civil where
  year : Int
  month : Int
  day : Int
deriving DecidableEq

/-- Gregorian leap year. -/
def isLeapYear (y : Int) : Bool := (y % 4 == 0 && y % 100 != 0) || y % 400 == 0

/-- Length of a (0-based) month. -/
def monthLen (y m : Int) : Int :=
  if m == 0 then 31
  else if m == 1 then (if isLeapYear y then 29 else 28)
  else if m == 2 then 31
  else if m == 3 then 30
  else if m == 4 then 31
  else if m == 5 then 30
  else if m == 6 then 31
  else if m == 7 then 31
  else if m == 8 then 30
  else if m == 9 then 31
  else if m == 10 then 30
  else 31

/-- Normalization of an out-of-range day of month, as JS Date day overflow
does (month is assumed in range; each step moves at least 28 days, so the
fuel chosen by normDays always suffices). -/
def normDaysGo : Nat → Civil → Civil
  | 0, c => c
  | f + 1, c =>
    if c.day < 1 then
      (if c.month == 0 then normDaysGo f ⟨c.year - 1, 11, c.day + monthLen (c.year - 1) 11⟩
       else normDaysGo f ⟨c.year, c.month - 1, c.day + monthLen c.year (c.month - 1)⟩)
    else if c.day > monthLen c.year c.month then
      (if c.month == 11 then normDaysGo f ⟨c.year + 1, 0, c.day - monthLen c.year c.month⟩
       else normDaysGo f ⟨c.year, c.month + 1, c.day - monthLen c.year c.month⟩)
    else c

/-- Normalize the day-of-month component. -/
def normDays (c : Civil) : Civil := normDaysGo (c.day.natAbs + 2) c

/-- The JS Date constructor's year argument: 0 to 99 mean 1900 to 1999. -/
def jsYearArg (y : Int) : Int := if 0 ≤ y && y ≤ 99 then y + 1900 else y

/-- new Date(y, m, d): apply the two-digit-year rule, carry month overflow
into the year, and normalize the day. -/
def jsMkDate (y m d : Int) : Civil :=
  normDays ⟨jsYearArg y + m.fdiv 12, m % 12, d⟩

/-- Days since 1970-01-01 of a normalized civil date (the standard
days-from-civil computation). -/
def civilToDays (c : Civil) : Int :=
  let m := c.month + 1
  let y := if m ≤ 2 then c.year - 1 else c.year
  let era := y.fdiv 400
  let yoe := y - era * 400
  let doy := (153 * (if m > 2 then m - 3 else m + 9) + 2).fdiv 5 + c.day - 1
  let doe := yoe * 365 + yoe.fdiv 4 - yoe.fdiv 100 + doy
  era * 146097 + doe - 719468

/-- JS Date.getDay: 0 = Sunday (1970-01-01 was a Thursday). -/
def jsGetDay (c : Civil) : Int := (civilToDays c + 4) % 7

/-- date.setDate(d): replace the day of month and normalize. -/
def setDayOfMonth (c : Civil) (d : Int) : Civil := normDays ⟨c.year, c.month, d⟩

/-- The next calendar day (date.setDate(date.getDate() + 1)). -/
def addOneDay (c : Civil) : Civil := setDayOfMonth c (c.day + 1)

/-- A JS Date that may be invalid. -/
abbrev JSDate := Option Civil

/-- JS Number(string) as an optional integer: none is NaN. -/
def jsNumOfStrOpt (s : Str) : Option Int :=
  if jsNumericOk s then some (jsIntVal s) else none

/-- Component i of the dash-separated parts, JS-coerced to a number;
a missing component is undefined, hence NaN. -/
def partNum (parts : List Str) (i : Nat) : Option Int :=
  match parts.get? i with
  | some p => jsNumOfStrOpt p
  | none => none

/-- parseISODate of date.utils: split on dashes, coerce the first three
components, and build new Date(year, month - 1, day); none when any
component is NaN. -/
def parseISODate (s : Str) : JSDate :=
  let parts := splitOnChar '-' s
  match partNum parts 0, partNum parts 1, partNum parts 2 with
  | some y, some m, some d => some (jsMkDate y (m - 1) d)
  | _, _, _ => none

/-- Timestamp comparison of two midnight dates. -/
def civilLe (a b : Civil) : Bool := decide (civilToDays a ≤ civilToDays b)

/-- Strict timestamp comparison of two midnight dates. -/
def civilLt (a b : Civil) : Bool := decide (civilToDays a < civilToDays b)

/-- isDateInRange of date.utils, with possibly invalid bounds: a NaN bound
makes both comparisons false, so the range test fails. -/
def isDateInRange (date : Civil) (s e : JSDate) : Bool :=
  match s, e with
  | some s0, some e0 => civilLe s0 date && civilLe date e0
  | _, _ => false

/-- isSameDay of date.utils. -/
def isSameDay (a b : Civil) : Bool :=
  a.year == b.year && a.month == b.month && a.day == b.day

/-- isToday, with the ambient clock as the explicit today parameter. -/
def isToday (today d : Civil) : Bool := isSameDay d today

/-- isFutureDate, with the ambient clock as the explicit today parameter. -/
def isFutureDate (today d : Civil) : Bool := civilLt today d

/-- JS String(n).padStart(2, with zero). -/
def pad2 (n : Int) : Str :=
  let s := intToStr n
  if s.length < 2 then '0' :: s else s

/-- formatDateToISO of date.utils. -/
def formatDateToISO (c : Civil) : Str :=
  intToStr c.year ++ "-".data ++ pad2 (c.month + 1) ++ "-".data ++ pad2 c.day

/-- The weekday names indexed by getDay. -/
def dayNames : List Str :=
  ["sun".data, "mon".data, "tue".data, "wed".data, "thu".data, "fri".data, "sat".data]

/-- getDayOfWeek of date.utils. -/
def getDayOfWeek (c : Civil) : Str := dayNames.getD (jsGetDay c).toNat []

/-- getWeekNumber of date.utils (ISO week number, computed through the
Thursday of the week; the UTC mirror of a local midnight date is the same
civil date in this timezone-free model). -/
def getWeekNumber (c : Civil) : Int :=
  let d0 := normDays ⟨jsYearArg c.year, c.month, c.day⟩
  let w := jsGetDay d0
  let dayNum := if w == 0 then 7 else w
  let thu := setDayOfMonth d0 (d0.day + (4 - dayNum))
  let yearStart : Civil := ⟨jsYearArg thu.year, 0, 1⟩
  ((civilToDays thu - civilToDays yearStart + 1) + 6).fdiv 7

/-- WeekInfo of goal.types. -/
structure WeekInfo where
  weekNumber : Int
  year : Int
  startDate : Str
  endDate : Str
deriving DecidableEq

/-- getWeekInfo of date.utils: the Monday and Sunday of the week of a date.
-/
def getWeekInfo (c : Civil) : WeekInfo :=
  let weekNumber := getWeekNumber c
  let year := c.year
  let day := jsGetDay c
  let diff := c.day - day + (if day == 0 then -6 else 1)
  let monday := setDayOfMonth c diff
  let sunday := setDayOfMonth monday (monday.day + 6)
  ⟨weekNumber, year, formatDateToISO monday, formatDateToISO sunday⟩

/-- The collecting while-loop of getDaysInMonth: push days while the month
matches (a month is at most 31 days, so the fuel of getDaysInMonth
suffices). -/
def daysInMonthGo : Nat → Civil → Int → List Civil
  | 0, _, _ => []
  | f + 1, c, m => if c.month == m then c :: daysInMonthGo f (addOneDay c) m else []

/-- getDaysInMonth of date.utils: all days of a month in order. -/
def getDaysInMonth (y m : Int) : List Civil := daysInMonthGo 40 (jsMkDate y m 1) m

/-- getFirstDayOfMonth of date.utils: Monday-based offset 0-6 of the first
day of the month. -/
def getFirstDayOfMonth (y m : Int) : Int :=
  let day := jsGetDay (jsMkDate y m 1)
  if day == 0 then 6 else day - 1

/-! ## Goal utilities (goal.utils) -/

/-- JS Array.includes for string lists. -/
def strListHas (l : List Str) (x : Str) : Bool := l.any (fun y => y == x)

/-- Strict less-than of two JS dates: false when either is invalid (NaN). -/
def jsDateLt : JSDate → JSDate → Bool
  | some a, some b => civilLt a b
  | _, _ => false

/-- Greater-than of two JS dates. -/
def jsDateGt (a b : JSDate) : Bool := jsDateLt b a

/-- Less-or-equal of two JS dates: false when either is invalid (NaN). -/
def jsDateLe : JSDate → JSDate → Bool
  | some a, some b => civilLe a b
  | _, _ => false

/-- Greater-or-equal of two JS dates. -/
def jsDateGe (a b : JSDate) : Bool := jsDateLe b a

/-- isDailyGoalActiveOnDate of goal.utils. -/
def isDailyGoalActiveOnDate (goal : Goal) (date : Civil) : Bool :=
  if !(goal.type == "daily".data) then false
  else
    let startDate := parseISODate goal.startDate
    let endDate := parseISODate goal.endDate
    if !(isDateInRange date startDate endDate) then false
    else if goal.status == "paused".data || goal.status == "archived".data then false
    else
      match goal.recurrence with
      | some r =>
        (match r.daysOfWeek with
         | some l =>
           if l.length > 0 then strListHas l (getDayOfWeek date) else true
         | none => true)
      | none => true

/-- isWeeklyGoalActiveForWeek of goal.utils. -/
def isWeeklyGoalActiveForWeek (goal : Goal) (weekInfo : WeekInfo) : Bool :=
  if !(goal.type == "weekly".data) then false
  else
    let startDate := parseISODate goal.startDate
    let endDate := parseISODate goal.endDate
    let weekStart := parseISODate weekInfo.startDate
    let weekEnd := parseISODate weekInfo.endDate
    if jsDateLt weekEnd startDate || jsDateGt weekStart endDate then false
    else if goal.status == "paused".data || goal.status == "archived".data then false
    else true

/-- isMonthlyGoalActiveForMonth of goal.utils. -/
def isMonthlyGoalActiveForMonth (goal : Goal) (year month : Int) : Bool :=
  if !(goal.type == "monthly".data) then false
  else
    let startDate := parseISODate goal.startDate
    let endDate := parseISODate goal.endDate
    let monthStart := jsMkDate year month 1
    let monthEnd := jsMkDate year (month + 1) 0
    if jsDateLt (some monthEnd) startDate || jsDateGt (some monthStart) endDate then false
    else if goal.status == "paused".data || goal.status == "archived".data then false
    else true

/-- isGoalCompletedOnDate of goal.utils. -/
def isGoalCompletedOnDate (goal : Goal) (date : Civil) : Bool :=
  strListHas goal.completions (formatDateToISO date)

/-- A lookup in an optional completion map, defaulting to the empty list
(the source's optional chaining with an or-empty / nullish-coalescing
default). -/
def mapLookupD (m : Option (List (Str × List Str))) (k : Str) : List Str :=
  match m with
  | some entries => (((entries.find? (fun p => p.1 == k)).map (fun p => p.2)).getD [])
  | none => []

/-- isWeeklyGoalCompletedForWeek of goal.utils. -/
def isWeeklyGoalCompletedForWeek (goal : Goal) (weekInfo : WeekInfo) : Bool :=
  let weekKey := weekInfo.startDate
  if strListHas goal.completions weekKey then true
  else
    match goal.subtasks with
    | some sts =>
      if sts.length > 0 then
        let completedSubtasks := mapLookupD goal.weeklySubtaskCompletions weekKey
        if completedSubtasks.length < sts.length then false
        else sts.all (fun st => strListHas completedSubtasks st.id)
      else false
    | none => false

/-- The month key of a (0-based) month: year dash zero-padded month. -/
def monthKeyStr (year month : Int) : Str :=
  intToStr year ++ "-".data ++ pad2 (month + 1)

/-- getMonthlyGoalProgress of goal.utils. -/
def getMonthlyGoalProgress (goal : Goal) (year month : Int) : Int :=
  match goal.monthlyProgress with
  | some m =>
    (((m.find? (fun p => p.1 == monthKeyStr year month)).map (fun p => p.2)).getD 0)
  | none => 0

/-- getWeeklyGoalsForWeek of goal.utils. -/
def getWeeklyGoalsForWeek (goals : List Goal) (weekInfo : WeekInfo) : List Goal :=
  goals.filter (fun goal => isWeeklyGoalActiveForWeek goal weekInfo)

/-- getMonthlyGoalsForMonth of goal.utils. -/
def getMonthlyGoalsForMonth (goals : List Goal) (year month : Int) : List Goal :=
  goals.filter (fun goal => isMonthlyGoalActiveForMonth goal year month)

/-- The priority order map of sortGoalsByPriority (an unknown priority is
ranked last; in the source it yields NaN comparisons that also leave such
goals in place). -/
def priorityVal (p : Str) : Int :=
  if p == "high".data then 0
  else if p == "medium".data then 1
  else if p == "low".data then 2
  else 3

/-- sortGoalsByPriority of goal.utils: a stable ascending sort by the
priority rank (JS Array.sort is stable). -/
def sortGoalsByPriority (goals : List Goal) : List Goal :=
  goals.insertionSort (fun a b => priorityVal a.priority ≤ priorityVal b.priority)

/-! ## Calendar derivation (calendar.utils) -/

/-- DayTask of calendar.types. -/
structure DayTask where
  goalId : Str
  goal : Goal
  isCompleted : Bool
  isSubtask : Bool
  subtaskId : Option Str
  subtaskTitle : Option Str
deriving DecidableEq

/-- WeeklyGoalTask of calendar.types. -/
structure WeeklyGoalTask where
  goalId : Str
  goal : Goal
  isCompleted : Bool
  weekKey : Str
deriving DecidableEq

/-- MonthlyGoalTask of calendar.types. -/
structure MonthlyGoalTask where
  goalId : Str
  goal : Goal
  currentCount : Int
  targetCount : Int
  minimumCount : Int
  isCompleted : Bool
  monthKey : Str
deriving DecidableEq

/-- calculateDayStatus of calendar.utils.  The DayStatus string union is
modelled by the strings themselves. -/
def calculateDayStatus (tasks : List DayTask) (isFuture : Bool) (isCurrentDay : Bool) : Str :=
  if tasks.length == 0 then "none".data
  else if isFuture then "none".data
  else
    let completedCount := (tasks.filter (fun t => t.isCompleted)).length
    if completedCount == tasks.length then "complete".data
    else if isCurrentDay then
      (if completedCount > 0 then "partial".data else "none".data)
    else if completedCount > 0 then "partial".data
    else "incomplete".data

/-- calculateWeekStatus of calendar.utils, with the ambient clock explicit. -/
def calculateWeekStatus (today : Civil) (weeklyGoals : List WeeklyGoalTask)
    (weekInfo : WeekInfo) : Str :=
  if weeklyGoals.length == 0 then "none".data
  else
    let completedCount := (weeklyGoals.filter (fun g => g.isCompleted)).length
    if completedCount == weeklyGoals.length then "complete".data
    else
      let weekEnd := parseISODate weekInfo.endDate
      let isFut := match weekEnd with | some d => isFutureDate today d | none => false
      let isEndsToday := match weekEnd with | some d => isToday today d | none => false
      if isFut || isEndsToday then
        (if completedCount == weeklyGoals.length then "complete".data
         else if completedCount > 0 then "partial".data
         else "none".data)
      else if completedCount == 0 then "incomplete".data
      else "partial".data

/-- getTasksForDay of calendar.utils: one task per subtask of every active
daily goal (the source's push-and-continue loop, as a flat map). -/
def getTasksForDay (goals : List Goal) (date : Civil) : List DayTask :=
  let dailyGoals := goals.filter (fun g => g.type == "daily".data)
  let sortedGoals := sortGoalsByPriority dailyGoals
  sortedGoals.flatMap (fun goal =>
    if !(isDailyGoalActiveOnDate goal date) then []
    else
      match goal.subtasks with
      | some sts =>
        if sts.length > 0 then
          let dateStr := formatDateToISO date
          let completedSubtasksToday := mapLookupD goal.dailySubtaskCompletions dateStr
          sts.map (fun subtask =>
            { goalId := goal.id, goal := goal,
              isCompleted := strListHas completedSubtasksToday subtask.id,
              isSubtask := true,
              subtaskId := some subtask.id,
              subtaskTitle := some subtask.title })
        else []
      | none => [])

/-- getWeeklyGoalTasks of calendar.utils: weekly goals of the week, filtered
to those overlapping the displayed month. -/
def getWeeklyGoalTasks (goals : List Goal) (weekInfo : WeekInfo) (year month : Int) :
    List WeeklyGoalTask :=
  let weeklyGoals := getWeeklyGoalsForWeek goals weekInfo
  let weekKey := weekInfo.startDate
  let monthStart := jsMkDate year month 1
  let monthEnd := jsMkDate year (month + 1) 0
  let filteredGoals := weeklyGoals.filter (fun goal =>
    jsDateGe (parseISODate goal.endDate) (some monthStart) &&
    jsDateLe (parseISODate goal.startDate) (some monthEnd))
  (sortGoalsByPriority filteredGoals).map (fun goal =>
    { goalId := goal.id, goal := goal,
      isCompleted := isWeeklyGoalCompletedForWeek goal weekInfo,
      weekKey := weekKey })

/-- getMonthlyGoalTasks of calendar.utils. -/
def getMonthlyGoalTasks (goals : List Goal) (year month : Int) : List MonthlyGoalTask :=
  let monthlyGoals := getMonthlyGoalsForMonth goals year month
  let monthKey := monthKeyStr year month
  (sortGoalsByPriority monthlyGoals).map (fun goal =>
    let currentCount := getMonthlyGoalProgress goal year month
    let targetCount := (goal.recurrence.bind (fun r => r.targetCount)).getD 1
    let minimumCount := (goal.recurrence.bind (fun r => r.minimumCount)).getD 1
    { goalId := goal.id, goal := goal,
      currentCount := currentCount,
      targetCount := targetCount,
      minimumCount := minimumCount,
      isCompleted := decide (currentCount ≥ minimumCount),
      monthKey := monthKey })

/-- CalendarDay of calendar.types. -/
structure CalendarDay where
  date : Str
  dayOfMonth : Int
  isCurrentMonth : Bool
  isToday : Bool
  isFuture : Bool
  status : Str
  tasks : List DayTask
  completedCount : Nat
  totalCount : Nat
  weekNumber : Int
deriving DecidableEq

/-- buildCalendarDay of calendar.utils, with the ambient clock explicit. -/
def buildCalendarDay (today : Civil) (date : Civil) (goals : List Goal)
    (currentMonth : Int) : CalendarDay :=
  let tasks := getTasksForDay goals date
  let future := isFutureDate today date
  let todayFlag := isToday today date
  { date := formatDateToISO date,
    dayOfMonth := date.day,
    isCurrentMonth := date.month == currentMonth,
    isToday := todayFlag,
    isFuture := future,
    status := calculateDayStatus tasks future todayFlag,
    tasks := tasks,
    completedCount := (tasks.filter (fun t => t.isCompleted)).length,
    totalCount := tasks.length,
    weekNumber := getWeekNumber date }

/-- CalendarWeek of calendar.types. -/
structure CalendarWeek where
  weekInfo : WeekInfo
  weekIndex : Nat
  days : List CalendarDay
  weeklyGoals : List WeeklyGoalTask
  status : Str
deriving DecidableEq

/-- Grouping of the flat day list into rows of seven (the stepping-by-seven
slice loop of buildCalendarWeeks). -/
def chunk7F : Nat → List CalendarDay → List (List CalendarDay)
  | 0, _ => []
  | _ + 1, [] => []
  | f + 1, l => l.take 7 :: chunk7F f (l.drop 7)

/-- Group a day list into rows of seven. -/
def chunk7 (l : List CalendarDay) : List (List CalendarDay) := chunk7F l.length l

/-- buildCalendarWeeks of calendar.utils: one CalendarWeek per row that
contains a current-month day, anchored at the row's Monday. -/
def buildCalendarWeeks (today : Civil) (days : List CalendarDay) (goals : List Goal)
    (currentMonth currentYear : Int) : List CalendarWeek :=
  let weekRows := chunk7 days
  weekRows.enum.flatMap (fun p =>
    let weekIndex := p.1
    let weekDays := p.2
    if weekDays.length == 0 then []
    else if !(weekDays.any (fun d => d.isCurrentMonth)) then []
    else
      let mondayDay := weekDays.find? (fun d : CalendarDay =>
        match parseISODate d.date with
        | some c => jsGetDay c == 1
        | none => false)
      let referenceDay :=
        match mondayDay with
        | some d => d
        | none =>
          match weekDays.find? (fun d : CalendarDay => d.isCurrentMonth) with
          | some d => d
          | none => weekDays.headD ⟨[], 0, false, false, false, [], [], 0, 0, 0⟩
      let weekInfo :=
        match parseISODate referenceDay.date with
        | some c => getWeekInfo c
        | none => ⟨0, 0, [], []⟩
      let weeklyGoals := getWeeklyGoalTasks goals weekInfo currentYear currentMonth
      [{ weekInfo := weekInfo,
         weekIndex := weekIndex,
         days := weekDays,
         weeklyGoals := weeklyGoals,
         status := calculateWeekStatus today weeklyGoals weekInfo }])

/-- calculateMonthStatus of calendar.utils.  The float ratio comparisons of
the source (ratio equal to one, ratio at least one half) are exact for the
occurring list lengths and are modelled by integer comparisons. -/
def calculateMonthStatus (days : List CalendarDay) : Str :=
  let relevantDays := days.filter (fun d => d.isCurrentMonth && !d.isFuture && d.totalCount > 0)
  if relevantDays.length == 0 then "none".data
  else
    let completeDays := (relevantDays.filter (fun d => d.status == "complete".data)).length
    if completeDays == relevantDays.length then "green".data
    else if 2 * completeDays ≥ relevantDays.length then "orange".data
    else "red".data

/-- CalendarMonth of calendar.types. -/
structure CalendarMonth where
  year : Int
  month : Int
  days : List CalendarDay
  weeks : List CalendarWeek
  monthlyGoals : List MonthlyGoalTask
  status : Str
  completedDays : Nat
  totalDays : Nat
deriving DecidableEq

/-- The previous-month padding block of buildCalendarMonth.  The source
reads the entries at index length - 1 - i for i from firstDayOfWeek - 1 down
to 0; these are the last firstDayOfWeek previous-month days in order, taken
here with drop. -/
def prevPaddingDays (today : Civil) (year month : Int) (goals : List Goal) :
    List CalendarDay :=
  let firstDayOfWeek := getFirstDayOfMonth year month
  if firstDayOfWeek > 0 then
    let prevMonth := if month == 0 then 11 else month - 1
    let prevYear := if month == 0 then year - 1 else year
    let prevMonthDays := getDaysInMonth prevYear prevMonth
    (prevMonthDays.drop (prevMonthDays.length - firstDayOfWeek.toNat)).map
      (fun d => buildCalendarDay today d goals month)
  else []

/-- buildCalendarMonth of calendar.utils, with the ambient clock explicit. -/
def buildCalendarMonth (today : Civil) (year month : Int) (goals : List Goal) :
    CalendarMonth :=
  let paddingDays := prevPaddingDays today year month goals
  let currentMonthDays :=
    (getDaysInMonth year month).map (fun d => buildCalendarDay today d goals month)
  let totalDaysSoFar := paddingDays.length + currentMonthDays.length
  let remainingDays := if totalDaysSoFar % 7 == 0 then 0 else 7 - totalDaysSoFar % 7
  let nextPaddingDays :=
    if remainingDays > 0 then
      let nextMonth := if month == 11 then 0 else month + 1
      let nextYear := if month == 11 then year + 1 else year
      ((getDaysInMonth nextYear nextMonth).take remainingDays).map
        (fun d => buildCalendarDay today d goals month)
    else []
  let allDays := paddingDays ++ currentMonthDays ++ nextPaddingDays
  let weeks := buildCalendarWeeks today allDays goals month year
  let monthlyGoals := getMonthlyGoalTasks goals year month
  let status := calculateMonthStatus allDays
  let completedDays :=
    (currentMonthDays.filter (fun d => d.status == "complete".data && !d.isFuture)).length
  let totalDaysWithTasks :=
    (currentMonthDays.filter (fun d => d.totalCount > 0 && !d.isFuture)).length
  { year := year, month := month, days := allDays, weeks := weeks,
    monthlyGoals := monthlyGoals, status := status,
    completedDays := completedDays, totalDays := totalDaysWithTasks }

/-! ## The store mutation for monthly progress (app.store) -/

/-- JS object spread update map[k] = v on an integer-valued map. -/
def jsSetIntMap : List (Str × Int) → Str → Int → List (Str × Int)
  | [], k, v => [(k, v)]
  | (k0, v0) :: t, k, v => if k0 == k then (k0, v) :: t else (k0, v0) :: jsSetIntMap t k v

/-- updateMonthlyProgress of the app store: clamp the new count at zero and
write it back into the goal's monthlyProgress map (a spread of an undefined
map is the empty object). -/
def updateMonthlyProgress (goals : List Goal) (goalId monthKey : Str) (delta : Int) :
    List Goal :=
  goals.map (fun goal =>
    if !(goal.id == goalId) then goal
    else
      let currentProgress :=
        (((goal.monthlyProgress.getD []).find? (fun p => p.1 == monthKey)).map
          (fun p => p.2)).getD 0
      let newProgress := max 0 (currentProgress + delta)
      { goal with
        monthlyProgress := some (jsSetIntMap (goal.monthlyProgress.getD []) monthKey newProgress) })

/-- A sequence of updateMonthlyProgress store calls. -/
def applyMonthlyUpdates (goals : List Goal) (ops : List (Str × Str × Int)) : List Goal :=
  ops.foldl (fun gs op => updateMonthlyProgress gs op.1 op.2.1 op.2.2) goals


/-! ## Generic list facts used by the status proofs -/

theorem filterLenLt {α : Type} (l : List α) (p : α → Bool)
    (h : ∃ a ∈ l, ¬ p a) : (l.filter p).length < l.length := by
  induction l with
  | nil => rcases h with ⟨a, ha, _⟩; cases ha
  | cons x xs ih =>
    rcases h with ⟨a, ha, hna⟩
    rcases List.mem_cons.mp ha with rfl | hmem
    · have hx : p a = false := by simpa using hna
      simp only [List.filter, hx, List.length_cons]
      exact Nat.lt_succ_of_le (List.length_filter_le _ _)
    · by_cases hx : p x
      · simp only [List.filter, hx, List.length_cons]
        exact Nat.succ_lt_succ (ih ⟨a, hmem, hna⟩)
      · have hx2 : p x = false := by simpa using hx
        simp only [List.filter, hx2, List.length_cons]
        exact Nat.lt_succ_of_lt (ih ⟨a, hmem, hna⟩)

theorem filterLenPos {α : Type} (l : List α) (p : α → Bool)
    (h : ∃ a ∈ l, p a) : 0 < (l.filter p).length := by
  rcases h with ⟨a, ha, hp⟩
  have : a ∈ l.filter p := List.mem_filter.mpr ⟨ha, hp⟩
  exact List.length_pos.mpr (List.ne_nil_of_mem this)

/-- C6: calculateDayStatus classifies every task list as the spec says: an
empty list or a future date gives none; a non-future date with all tasks
completed gives complete; today with nothing completed gives none and today
with some but not all completed gives partial; a past date with some but not
all completed gives partial; a past date with none of its tasks completed
gives incomplete. -/
theorem c6_calculateDayStatus_classification (tasks : List DayTask) (isFut isCur : Bool) :
    (tasks = [] → calculateDayStatus tasks isFut isCur = "none".data) ∧
    (isFut = true → calculateDayStatus tasks isFut isCur = "none".data) ∧
    (tasks ≠ [] → isFut = false → (∀ t ∈ tasks, t.isCompleted = true) →
      calculateDayStatus tasks isFut isCur = "complete".data) ∧
    (isFut = false → isCur = true → (∀ t ∈ tasks, t.isCompleted = false) →
      calculateDayStatus tasks isFut isCur = "none".data) ∧
    (isFut = false → isCur = true → (∃ t ∈ tasks, t.isCompleted = true) →
      (∃ t ∈ tasks, t.isCompleted = false) →
      calculateDayStatus tasks isFut isCur = "partial".data) ∧
    (isFut = false → isCur = false → (∃ t ∈ tasks, t.isCompleted = true) →
      (∃ t ∈ tasks, t.isCompleted = false) →
      calculateDayStatus tasks isFut isCur = "partial".data) ∧
    (isFut = false → isCur = false → tasks ≠ [] → (∀ t ∈ tasks, t.isCompleted = false) →
      calculateDayStatus tasks isFut isCur = "incomplete".data) := by
  refine ⟨?_, ?_, ?_, ?_, ?_, ?_, ?_⟩
  · intro h; subst h; simp [calculateDayStatus]
  · intro h; subst h; simp [calculateDayStatus]
  · intro hne hf hall
    have hfl : tasks.filter (fun t => t.isCompleted) = tasks :=
      List.filter_eq_self.mpr (fun a ha => by simpa using hall a ha)
    have hlen : tasks.length ≠ 0 := fun h => hne (List.length_eq_zero.mp h)
    simp [calculateDayStatus, hf, hfl, hlen]
  · intro hf hc hall
    have hfl : tasks.filter (fun t => t.isCompleted) = [] :=
      List.filter_eq_nil_iff.mpr (fun a ha => by simpa using hall a ha)
    by_cases hne : tasks.length = 0
    · simp [calculateDayStatus, hne]
    · have hne2 : ¬ (0 = tasks.length) := fun h => hne h.symm
      simp [calculateDayStatus, hf, hc, hfl, hne, hne2]
  · intro hf hc hsome hnot
    have hlt := filterLenLt tasks (fun t => t.isCompleted)
      (by rcases hnot with ⟨a, ha, hna⟩; exact ⟨a, ha, by simp [hna]⟩)
    have hpos := filterLenPos tasks (fun t => t.isCompleted)
      (by rcases hsome with ⟨a, ha, hpa⟩; exact ⟨a, ha, by simp [hpa]⟩)
    have hne : tasks.length ≠ 0 := by omega
    have hl2 : (tasks.filter (fun t => t.isCompleted)).length ≠ tasks.length := by omega
    have hp2 : (tasks.filter (fun t => t.isCompleted)).length > 0 := hpos
    simp [calculateDayStatus, hf, hc, hne, hl2, hp2]
  · intro hf hc hsome hnot
    have hlt := filterLenLt tasks (fun t => t.isCompleted)
      (by rcases hnot with ⟨a, ha, hna⟩; exact ⟨a, ha, by simp [hna]⟩)
    have hpos := filterLenPos tasks (fun t => t.isCompleted)
      (by rcases hsome with ⟨a, ha, hpa⟩; exact ⟨a, ha, by simp [hpa]⟩)
    have hne : tasks.length ≠ 0 := by omega
    have hl2 : (tasks.filter (fun t => t.isCompleted)).length ≠ tasks.length := by omega
    simp [calculateDayStatus, hf, hc, hne, hl2, hpos]
  · intro hf hc hne hall
    have hfl : tasks.filter (fun t => t.isCompleted) = [] :=
      List.filter_eq_nil_iff.mpr (fun a ha => by simpa using hall a ha)
    have hlen : tasks.length ≠ 0 := fun h => hne (List.length_eq_zero.mp h)
    have hlen2 : ¬ (0 = tasks.length) := fun h => hlen h.symm
    simp [calculateDayStatus, hf, hc, hfl, hlen, hlen2]


theorem strListHasIff (l : List Str) (x : Str) : strListHas l x = true ↔ x ∈ l := by
  simp only [strListHas, List.any_eq_true, beq_iff_eq]
  exact ⟨fun ⟨y, hy, he⟩ => he ▸ hy, fun h => ⟨x, h, rfl⟩⟩

theorem nodupSubsetLen (l c : List Str) (h : l.Nodup) (hs : l ⊆ c) :
    l.length ≤ c.length := by
  classical
  calc l.length = l.toFinset.card := (List.toFinset_card_of_nodup h).symm
  _ ≤ c.toFinset.card :=
      Finset.card_le_card (fun x hx => List.mem_toFinset.mpr (hs (List.mem_toFinset.mp hx)))
  _ ≤ c.length := c.toFinset_card_le

theorem weeklyCompletedNoneEq (goal : Goal) (wi : WeekInfo)
    (hmemf : strListHas goal.completions wi.startDate = false)
    (hst : goal.subtasks = none) :
    isWeeklyGoalCompletedForWeek goal wi = false := by
  unfold isWeeklyGoalCompletedForWeek
  rw [hst, if_neg (by simp [hmemf])]

theorem weeklyCompletedSomeEq (goal : Goal) (wi : WeekInfo) (sts : List Subtask)
    (hmemf : strListHas goal.completions wi.startDate = false)
    (hst : goal.subtasks = some sts) :
    isWeeklyGoalCompletedForWeek goal wi =
      (if sts.length > 0 then
        (if (mapLookupD goal.weeklySubtaskCompletions wi.startDate).length < sts.length then
          false
         else
          sts.all (fun st =>
            strListHas (mapLookupD goal.weeklySubtaskCompletions wi.startDate) st.id))
       else false) := by
  unfold isWeeklyGoalCompletedForWeek
  rw [hst, if_neg (by simp [hmemf])]

/-- C5: a weekly goal is completed for a week exactly when its completions
set contains the week's Monday key, or it has at least one subtask and every
subtask id is recorded in the week's entry of weeklySubtaskCompletions
(subtask ids are unique within a goal, per the data model). -/
theorem c5_weekly_completion_iff (goal : Goal) (weekInfo : WeekInfo)
    (_htype : goal.type = "weekly".data)
    (hnodup : ((goal.subtasks.getD []).map (fun st => st.id)).Nodup) :
    isWeeklyGoalCompletedForWeek goal weekInfo = true ↔
      (weekInfo.startDate ∈ goal.completions ∨
       ((goal.subtasks.getD []) ≠ [] ∧
        ∀ st ∈ goal.subtasks.getD [],
          st.id ∈ mapLookupD goal.weeklySubtaskCompletions weekInfo.startDate)) := by
  by_cases hmem : strListHas goal.completions weekInfo.startDate = true
  · constructor
    · intro _; exact Or.inl ((strListHasIff _ _).mp hmem)
    · intro _
      unfold isWeeklyGoalCompletedForWeek
      rw [if_pos (by simpa using hmem)]
  · have hmemf : strListHas goal.completions weekInfo.startDate = false :=
      eq_false_of_ne_true hmem
    have hmem2 : weekInfo.startDate ∉ goal.completions :=
      fun h => hmem ((strListHasIff _ _).mpr h)
    cases hst : goal.subtasks with
    | none => simp [weeklyCompletedNoneEq goal weekInfo hmemf hst, hst, hmem2]
    | some sts =>
      rw [weeklyCompletedSomeEq goal weekInfo sts hmemf hst]
      rw [hst] at hnodup
      simp only [Option.getD_some] at hnodup ⊢
      set cs := mapLookupD goal.weeklySubtaskCompletions weekInfo.startDate with hcs
      by_cases hlen : sts = []
      · subst hlen; simp [hmem2]
      · have hlen2 : sts.length > 0 := List.length_pos.mpr hlen
        rw [if_pos hlen2]
        by_cases hsz : cs.length < sts.length
        · rw [if_pos hsz]
          simp only [Bool.false_eq_true, false_iff]
          rintro (h | ⟨-, hall⟩)
          · exact hmem2 h
          · have hsub : (sts.map (fun st => st.id)) ⊆ cs := by
              intro x hx
              rcases List.mem_map.mp hx with ⟨st, hstm, rfl⟩
              exact hall st hstm
            have := nodupSubsetLen _ _ hnodup hsub
            rw [List.length_map] at this
            omega
        · rw [if_neg hsz, List.all_eq_true]
          constructor
          · intro hall
            exact Or.inr ⟨hlen, fun st hstm => (strListHasIff _ _).mp (hall st hstm)⟩
          · rintro (h | ⟨-, hall⟩)
            · exact absurd h hmem2
            · exact fun st hstm => (strListHasIff _ _).mpr (hall st hstm)

/-- A weekly sample goal with subtasks a and b, empty completions, and both
subtasks recorded for the week of Monday 2026-01-05. -/
def gWeeklySample : Goal :=
  { id := "w".data, title := [], description := [], type := "weekly".data,
    status := "active".data, startDate := "2026-01-01".data, endDate := "2026-12-31".data,
    recurrence := none, priority := "medium".data, completions := [],
    subtasks := some [⟨"a".data, "A".data, false⟩, ⟨"b".data, "B".data, false⟩],
    tags := [], category := [], filePath := [], monthlyProgress := none,
    dailySubtaskCompletions := none,
    weeklySubtaskCompletions := some [("2026-01-05".data, ["a".data, "b".data])] }

/-- The same goal with only subtask a recorded for the week. -/
def gWeeklySampleA : Goal :=
  { gWeeklySample with
    weeklySubtaskCompletions := some [("2026-01-05".data, ["a".data])] }

/-- Witness for C5: with subtasks a and b and both recorded for the week,
the goal is completed although completions is empty; with only a recorded it
is not. -/
theorem c5_witness :
    isWeeklyGoalCompletedForWeek gWeeklySample (getWeekInfo ⟨2026, 0, 7⟩) = true ∧
    isWeeklyGoalCompletedForWeek gWeeklySampleA (getWeekInfo ⟨2026, 0, 7⟩) = false := by
  constructor
  · exact (c5_weekly_completion_iff gWeeklySample (getWeekInfo ⟨2026, 0, 7⟩)
      (by decide) (by decide)).mpr (Or.inr ⟨by decide, by decide⟩)
  · have h := c5_weekly_completion_iff gWeeklySampleA (getWeekInfo ⟨2026, 0, 7⟩)
      (by decide) (by decide)
    by_cases hb : isWeeklyGoalCompletedForWeek gWeeklySampleA (getWeekInfo ⟨2026, 0, 7⟩) = true
    · exact absurd (h.mp hb) (by decide)
    · simpa using hb

/-- C7: every task derived for a monthly goal reports the stored count for
the month key (0 when the key or map is absent), target and minimum counts
defaulting to 1 when the recurrence or the field is absent, and completion
exactly when the count reaches the minimum. -/
theorem c7_monthly_task_fields (goals : List Goal) (year month : Int) :
    ∀ t ∈ getMonthlyGoalTasks goals year month,
      t.currentCount = getMonthlyGoalProgress t.goal year month ∧
      getMonthlyGoalProgress t.goal year month =
        ((((t.goal.monthlyProgress.getD []).find?
            (fun p => p.1 == monthKeyStr year month)).map (fun p => p.2)).getD 0) ∧
      t.targetCount = (t.goal.recurrence.bind (fun r => r.targetCount)).getD 1 ∧
      t.minimumCount = (t.goal.recurrence.bind (fun r => r.minimumCount)).getD 1 ∧
      (t.isCompleted = true ↔ t.minimumCount ≤ t.currentCount) := by
  intro t ht
  simp only [getMonthlyGoalTasks, List.mem_map] at ht
  rcases ht with ⟨g, hg, rfl⟩
  refine ⟨rfl, ?_, rfl, rfl, by simp⟩
  cases hmp : g.monthlyProgress <;> simp [getMonthlyGoalProgress, hmp]

/-- A monthly sample goal with target 4, minimum 2 and a stored count of 2
for January 2026. -/
def gMonthlySample : Goal :=
  { id := "m".data, title := [], description := [], type := "monthly".data,
    status := "active".data, startDate := "2026-01-01".data, endDate := "2026-12-31".data,
    recurrence := some ⟨"monthly".data, none, none, some 4, some 2⟩,
    priority := "medium".data, completions := [], subtasks := none,
    tags := [], category := [], filePath := [],
    monthlyProgress := some [("2026-01".data, 2)],
    dailySubtaskCompletions := none, weeklySubtaskCompletions := none }

/-- The task getMonthlyGoalTasks derives from the monthly sample goal. -/
def gMonthlySampleTask : MonthlyGoalTask :=
  { goalId := "m".data, goal := gMonthlySample, currentCount := 2, targetCount := 4,
    minimumCount := 2, isCompleted := true, monthKey := "2026-01".data }

/-- Witness for C7: the sample task with count 2 and minimum 2 is reported
completed, and at count 1 the same goal is not completed. -/
theorem c7_witness :
    gMonthlySampleTask.currentCount = getMonthlyGoalProgress gMonthlySampleTask.goal 2026 0 ∧
    (gMonthlySampleTask.isCompleted = true ↔
      gMonthlySampleTask.minimumCount ≤ gMonthlySampleTask.currentCount) ∧
    (getMonthlyGoalTasks
      [{ gMonthlySample with monthlyProgress := some [("2026-01".data, 1)] }] 2026 0).all
      (fun t => !t.isCompleted) = true := by
  have h := c7_monthly_task_fields [gMonthlySample] 2026 0 gMonthlySampleTask (by decide)
  exact ⟨h.1, h.2.2.2.2, by decide⟩

/-- Every count stored in a goal's monthlyProgress map is nonnegative. -/
abbrev goalMonthlyNonneg (g : Goal) : Prop := ∀ p ∈ g.monthlyProgress.getD [], 0 ≤ p.2

/-- Every goal of the store satisfies the monthly nonnegativity invariant. -/
abbrev allMonthlyNonneg (goals : List Goal) : Prop := ∀ g ∈ goals, goalMonthlyNonneg g

theorem jsSetIntMapNonneg (m : List (Str × Int)) (k : Str) (v : Int)
    (hm : ∀ p ∈ m, 0 ≤ p.2) (hv : 0 ≤ v) : ∀ p ∈ jsSetIntMap m k v, 0 ≤ p.2 := by
  induction m with
  | nil => intro p hp; simp [jsSetIntMap] at hp; subst hp; exact hv
  | cons q t ih =>
    intro p hp
    simp only [jsSetIntMap] at hp
    by_cases hk : q.1 == k
    · rw [if_pos hk] at hp
      rcases List.mem_cons.mp hp with rfl | hpt
      · exact hv
      · exact hm p (List.mem_cons_of_mem _ hpt)
    · rw [if_neg hk] at hp
      rcases List.mem_cons.mp hp with rfl | hpt
      · exact hm q (List.mem_cons_self _ _)
      · exact ih (fun r hr => hm r (List.mem_cons_of_mem _ hr)) p hpt

theorem updateMonthlyPreservesNonneg (goals : List Goal) (goalId monthKey : Str)
    (delta : Int) (h : allMonthlyNonneg goals) :
    allMonthlyNonneg (updateMonthlyProgress goals goalId monthKey delta) := by
  intro g hg
  simp only [updateMonthlyProgress, List.mem_map] at hg
  rcases hg with ⟨g0, hg0, rfl⟩
  by_cases hid : g0.id == goalId
  · simp only [hid, Bool.not_true, Bool.false_eq_true, if_false]
    intro p hp
    have hp2 : p ∈ jsSetIntMap (g0.monthlyProgress.getD []) monthKey
        (max 0 ((((g0.monthlyProgress.getD []).find? (fun q => q.1 == monthKey)).map
          (fun q => q.2)).getD 0 + delta)) := by simpa using hp
    refine jsSetIntMapNonneg _ _ _ (fun r hr => h g0 hg0 r hr) ?_ p hp2
    exact le_max_left _ _
  · simp only [hid, Bool.not_false, if_true]
    exact h g0 hg0

/-- C8: after any sequence of updateMonthlyProgress store calls, starting
from any store state whose stored monthly counts are all nonnegative, every
count stored in every goal's monthlyProgress map is still nonnegative - a
decrement that would drive a count below zero stores zero instead. -/
theorem c8_monthly_nonneg (goals : List Goal) (ops : List (Str × Str × Int))
    (h : allMonthlyNonneg goals) : allMonthlyNonneg (applyMonthlyUpdates goals ops) := by
  induction ops generalizing goals with
  | nil => exact h
  | cons op rest ih =>
    exact ih _ (updateMonthlyPreservesNonneg goals op.1 op.2.1 op.2.2 h)

/-- Witness for C8: decrementing the sample goal's count of 2 by 5 leaves a
nonnegative (clamped-to-zero) count. -/
theorem c8_witness :
    allMonthlyNonneg
      (applyMonthlyUpdates [gMonthlySample] [("m".data, "2026-01".data, -5)]) ∧
    (applyMonthlyUpdates [gMonthlySample] [("m".data, "2026-01".data, -5)]).map
      (fun g => g.monthlyProgress) = [some [("2026-01".data, 0)]] := by
  exact ⟨c8_monthly_nonneg _ _ (by decide), by decide⟩

/-- A minimal sample goal used to build concrete day tasks. -/
def sampleGoal : Goal :=
  { id := "sample".data, title := [], description := [], type := "daily".data,
    status := "active".data, startDate := "2026-01-01".data, endDate := "2026-12-31".data,
    recurrence := none, priority := "medium".data, completions := [], subtasks := none,
    tags := [], category := [], filePath := [], monthlyProgress := none,
    dailySubtaskCompletions := none, weeklySubtaskCompletions := none }

/-- A concrete day task with the given completion flag. -/
def sampleTask (b : Bool) : DayTask :=
  { goalId := "sample".data, goal := sampleGoal, isCompleted := b, isSubtask := true,
    subtaskId := none, subtaskTitle := none }

/-- Witness for C6 at the spec's concrete scenarios: three tasks on today
with zero, one and three completions, a past day with zero and three
completions, and a future day. -/
theorem c6_witness :
    calculateDayStatus [sampleTask false, sampleTask false, sampleTask false] false true
      = "none".data ∧
    calculateDayStatus [sampleTask true, sampleTask false, sampleTask false] false true
      = "partial".data ∧
    calculateDayStatus [sampleTask true, sampleTask true, sampleTask true] false false
      = "complete".data ∧
    calculateDayStatus [sampleTask false, sampleTask false, sampleTask false] false false
      = "incomplete".data ∧
    calculateDayStatus [sampleTask true, sampleTask true, sampleTask true] true false
      = "none".data := by
  refine ⟨?_, ?_, ?_, ?_, ?_⟩
  · exact (c6_calculateDayStatus_classification _ false true).2.2.2.1 rfl rfl (by decide)
  · exact (c6_calculateDayStatus_classification _ false true).2.2.2.2.1 rfl rfl
      ⟨sampleTask true, List.Mem.head _, rfl⟩
      ⟨sampleTask false, List.Mem.tail _ (List.Mem.head _), rfl⟩
  · exact (c6_calculateDayStatus_classification _ false false).2.2.1 (by decide) rfl (by decide)
  · exact (c6_calculateDayStatus_classification _ false false).2.2.2.2.2.2 rfl rfl
      (by decide) (by decide)
  · exact (c6_calculateDayStatus_classification _ true false).2.1 rfl

theorem dailyInactiveOfPausedArchived (g : Goal)
    (hs : g.status = "paused".data ∨ g.status = "archived".data) (d : Civil) :
    isDailyGoalActiveOnDate g d = false := by
  unfold isDailyGoalActiveOnDate
  rcases hs with h | h <;> simp [h]

theorem weeklyInactiveOfPausedArchived (g : Goal)
    (hs : g.status = "paused".data ∨ g.status = "archived".data) (wi : WeekInfo) :
    isWeeklyGoalActiveForWeek g wi = false := by
  unfold isWeeklyGoalActiveForWeek
  rcases hs with h | h <;> simp [h]

theorem monthlyInactiveOfPausedArchived (g : Goal)
    (hs : g.status = "paused".data ∨ g.status = "archived".data) (y m : Int) :
    isMonthlyGoalActiveForMonth g y m = false := by
  unfold isMonthlyGoalActiveForMonth
  rcases hs with h | h <;> simp [h]

theorem tasksComeFromActiveGoals (goals : List Goal) (d : Civil) :
    ∀ t ∈ getTasksForDay goals d, isDailyGoalActiveOnDate t.goal d = true := by
  intro t ht
  simp only [getTasksForDay, List.mem_flatMap] at ht
  rcases ht with ⟨goal, hgoal, hmem⟩
  by_cases hact : isDailyGoalActiveOnDate goal d = true
  · have hg : t.goal = goal := by
      simp only [hact, Bool.not_true, Bool.false_eq_true, if_false] at hmem
      cases hsub : goal.subtasks with
      | none => rw [hsub] at hmem; cases hmem
      | some sts =>
        rw [hsub] at hmem
        by_cases hl : sts.length > 0
        · simp only [hl, if_pos] at hmem
          rcases List.mem_map.mp hmem with ⟨st, _, rfl⟩
          rfl
        · simp only [hl, if_neg] at hmem; cases hmem
    rw [hg]; exact hact
  · have hactf : isDailyGoalActiveOnDate goal d = false := eq_false_of_ne_true hact
    simp [hactf] at hmem

/-- A daily in-range goal whose status is completed. -/
def gCompletedStatus : Goal :=
  { sampleGoal with
    status := "completed".data,
    subtasks := some [⟨"a".data, "A".data, false⟩] }

/-- C2 counterexample: a goal with status completed - which is not active -
is still reported active by isDailyGoalActiveOnDate on an in-range date and
still contributes a task to getTasksForDay, so the claim that every
non-active status makes the activity predicates false is wrong: only paused
and archived are excluded. -/
theorem c2_counterexample :
    gCompletedStatus.status ≠ "active".data ∧
    isDailyGoalActiveOnDate gCompletedStatus ⟨2026, 0, 5⟩ = true ∧
    (getTasksForDay [gCompletedStatus] ⟨2026, 0, 5⟩).length = 1 :=
  ⟨by decide, by decide, by decide⟩

/-- C2 (amended): goals whose status is paused or archived are excluded from
all three activity predicates for every date, week and month, and every task
getTasksForDay emits comes from a goal that passes the daily activity check,
hence never from a paused or archived goal.  (Status completed is NOT
excluded; see the counterexample.) -/
theorem c2_paused_archived_excluded (g : Goal)
    (hs : g.status = "paused".data ∨ g.status = "archived".data) :
    (∀ d, isDailyGoalActiveOnDate g d = false) ∧
    (∀ wi, isWeeklyGoalActiveForWeek g wi = false) ∧
    (∀ y m, isMonthlyGoalActiveForMonth g y m = false) ∧
    (∀ goals d, ∀ t ∈ getTasksForDay goals d,
      t.goal.status ≠ "paused".data ∧ t.goal.status ≠ "archived".data) := by
  refine ⟨fun d => dailyInactiveOfPausedArchived g hs d,
          fun wi => weeklyInactiveOfPausedArchived g hs wi,
          fun y m => monthlyInactiveOfPausedArchived g hs y m,
          fun goals d t ht => ⟨?_, ?_⟩⟩
  · intro he
    have hact := tasksComeFromActiveGoals goals d t ht
    rw [dailyInactiveOfPausedArchived t.goal (Or.inl he) d] at hact
    cases hact
  · intro he
    have hact := tasksComeFromActiveGoals goals d t ht
    rw [dailyInactiveOfPausedArchived t.goal (Or.inr he) d] at hact
    cases hact

/-- Witness for C2 (amended): a paused daily goal is inactive on an in-range
date and an archived weekly goal is inactive for an overlapping week. -/
theorem c2_witness :
    isDailyGoalActiveOnDate { sampleGoal with status := "paused".data } ⟨2026, 0, 5⟩
      = false ∧
    isWeeklyGoalActiveForWeek
      { sampleGoal with status := "archived".data, type := "weekly".data }
      (getWeekInfo ⟨2026, 0, 7⟩) = false :=
  ⟨(c2_paused_archived_excluded _ (Or.inl rfl)).1 _,
   (c2_paused_archived_excluded _ (Or.inr rfl)).2.1 _⟩

/-- C4: a daily goal is never active strictly before its start date or
strictly after its end date; on an in-range date with active status, a
present non-empty daysOfWeek list makes activity exactly membership of the
date's weekday, while an absent or empty list makes the goal active
unconditionally. -/
theorem c4_daily_activity (g : Goal) (d : Civil) (hty : g.type = "daily".data) :
    (∀ s, parseISODate g.startDate = some s → civilToDays d < civilToDays s →
      isDailyGoalActiveOnDate g d = false) ∧
    (∀ e, parseISODate g.endDate = some e → civilToDays e < civilToDays d →
      isDailyGoalActiveOnDate g d = false) ∧
    (isDateInRange d (parseISODate g.startDate) (parseISODate g.endDate) = true →
     g.status = "active".data →
     ((∀ r, g.recurrence = some r → ∀ l, r.daysOfWeek = some l → l ≠ [] →
        (isDailyGoalActiveOnDate g d = true ↔ getDayOfWeek d ∈ l)) ∧
      ((g.recurrence = none ∨
        (∃ r, g.recurrence = some r ∧ (r.daysOfWeek = none ∨ r.daysOfWeek = some []))) →
        isDailyGoalActiveOnDate g d = true))) := by
  refine ⟨?_, ?_, ?_⟩
  · intro s hps hlt
    have hra : isDateInRange d (parseISODate g.startDate) (parseISODate g.endDate) = false := by
      rw [hps]
      cases he : parseISODate g.endDate with
      | none => rfl
      | some e0 =>
        simp only [isDateInRange, civilLe, Bool.and_eq_false_iff, decide_eq_false_iff_not]
        left; omega
    simp [isDailyGoalActiveOnDate, hty, hra]
  · intro e hpe hlt
    have hra : isDateInRange d (parseISODate g.startDate) (parseISODate g.endDate) = false := by
      rw [hpe]
      cases hsd : parseISODate g.startDate with
      | none => rfl
      | some s0 =>
        simp only [isDateInRange, civilLe, Bool.and_eq_false_iff, decide_eq_false_iff_not]
        right; omega
    simp [isDailyGoalActiveOnDate, hty, hra]
  · intro hr hst
    constructor
    · intro r hrec l hl hlne
      have hlen : l.length > 0 := List.length_pos.mpr hlne
      simp only [isDailyGoalActiveOnDate, hty, hr, hst, hrec, hl]
      simp [hlen, strListHasIff]
    · rintro (hrec | ⟨r, hrec, hdow⟩)
      · simp [isDailyGoalActiveOnDate, hty, hr, hst, hrec]
      · rcases hdow with hdow | hdow <;>
          simp [isDailyGoalActiveOnDate, hty, hr, hst, hrec, hdow]

/-- A daily sample goal recurring on Mondays and Tuesdays in 2026. -/
def gDailyDow : Goal :=
  { sampleGoal with
    recurrence := some ⟨"daily".data, some ["mon".data, "tue".data], none, none, none⟩ }

/-- Witness for C4: the goal is inactive the day before its start date,
active on a Monday, inactive on a Wednesday, and active on the same
Wednesday once the recurrence is removed. -/
theorem c4_witness :
    isDailyGoalActiveOnDate gDailyDow ⟨2025, 11, 31⟩ = false ∧
    isDailyGoalActiveOnDate gDailyDow ⟨2026, 0, 5⟩ = true ∧
    isDailyGoalActiveOnDate gDailyDow ⟨2026, 0, 7⟩ = false ∧
    isDailyGoalActiveOnDate { gDailyDow with recurrence := none } ⟨2026, 0, 7⟩ = true := by
  refine ⟨?_, ?_, ?_, ?_⟩
  · exact (c4_daily_activity gDailyDow ⟨2025, 11, 31⟩ rfl).1 ⟨2026, 0, 1⟩
      (by decide) (by decide)
  · exact (((c4_daily_activity gDailyDow ⟨2026, 0, 5⟩ rfl).2.2 (by decide) rfl).1
      _ rfl _ rfl (by decide)).mpr (by decide)
  · have h := ((c4_daily_activity gDailyDow ⟨2026, 0, 7⟩ rfl).2.2 (by decide) rfl).1
      _ rfl _ rfl (by decide)
    by_cases hb : isDailyGoalActiveOnDate gDailyDow ⟨2026, 0, 7⟩ = true
    · exact absurd (h.mp hb) (by decide)
    · simpa using hb
  · exact ((c4_daily_activity { gDailyDow with recurrence := none } ⟨2026, 0, 7⟩ rfl).2.2
      (by decide) rfl).2 (Or.inl rfl)

theorem objPropsF_rest_le (f : Nat) : ∀ (ls : List Str) (obj : List (Str × Value)),
    (objPropsF f ls obj).2.length ≤ ls.length := by
  induction f with
  | zero => intro ls obj; simp [objPropsF]
  | succ f ih =>
    intro ls obj
    cases ls with
    | nil => simp [objPropsF]
    | cons l rest =>
      simp only [objPropsF]
      split
      · simp
      · split <;> exact Nat.le_succ_of_le (ih rest _)

theorem arrayItemsF_rest_le (f : Nat) : ∀ (ls : List Str) (items : List Value),
    (arrayItemsF f ls items).2.length ≤ ls.length := by
  induction f with
  | zero => intro ls items; simp [arrayItemsF]
  | succ f ih =>
    intro ls items
    cases ls with
    | nil => simp [arrayItemsF]
    | cons l rest =>
      simp only [arrayItemsF]
      split
      · simp
      · split
        · refine Nat.le_succ_of_le (Nat.le_trans (ih _ _) ?_)
          exact objPropsF_rest_le rest.length rest _
        · exact Nat.le_succ_of_le (ih rest _)

theorem mapPropsF_rest_le (f : Nat) : ∀ (ls : List Str) (obj : List (Str × Value)),
    (mapPropsF f ls obj).2.length ≤ ls.length := by
  induction f with
  | zero => intro ls obj; simp [mapPropsF]
  | succ f ih =>
    intro ls obj
    cases ls with
    | nil => simp [mapPropsF]
    | cons l rest =>
      simp only [mapPropsF]
      split
      · simp
      · exact Nat.le_succ_of_le (ih rest _)

theorem pfLoopF_fuel_aux (k : Nat) : ∀ (lines : List Str) (n m : Nat)
    (acc : List (Str × Value)), lines.length ≤ k → lines.length < n → lines.length < m →
    pfLoopF n lines acc = pfLoopF m lines acc := by
  induction k with
  | zero =>
    intro lines n m acc hk hn hm
    have hnil : lines = [] := List.length_eq_zero.mp (Nat.le_zero.mp hk)
    subst hnil
    cases n with
    | zero => omega
    | succ n =>
      cases m with
      | zero => omega
      | succ m => rfl
  | succ k ih =>
    intro lines n m acc hk hn hm
    cases lines with
    | nil =>
      cases n with
      | zero => omega
      | succ n =>
        cases m with
        | zero => omega
        | succ m => rfl
    | cons line rest =>
      cases n with
      | zero => omega
      | succ n =>
        cases m with
        | zero => omega
        | succ m =>
          simp only [List.length_cons] at hk hn hm
          cases rest with
          | nil =>
            simp only [pfLoopF]
            split
            · exact ih [] n m acc (by omega) (by omega) (by omega)
            · split
              · exact ih [] n m acc (by omega) (by omega) (by omega)
              · split
                · exact ih [] n m _ (by omega) (by omega) (by omega)
                · split
                  · exact ih [] n m _ (by omega) (by omega) (by omega)
                  · exact ih [] n m _ (by omega) (by omega) (by omega)
          | cons nl tl =>
            simp only [pfLoopF]
            split
            · exact ih (nl :: tl) n m acc (by omega) (by omega) (by omega)
            · split
              · exact ih (nl :: tl) n m acc (by omega) (by omega) (by omega)
              · split
                · exact ih (nl :: tl) n m _ (by omega) (by omega) (by omega)
                · split
                  · split
                    · have hle := arrayItemsF_rest_le (nl :: tl).length (nl :: tl) []
                      exact ih _ n m _ (by omega) (by omega) (by omega)
                    · split
                      · have hle := mapPropsF_rest_le (nl :: tl).length (nl :: tl) []
                        exact ih _ n m _ (by omega) (by omega) (by omega)
                      · exact ih (nl :: tl) n m _ (by omega) (by omega) (by omega)
                  · exact ih (nl :: tl) n m _ (by omega) (by omega) (by omega)

/-- C10: parseFrontmatter terminates on every input.  Every branch of the
outer line-cursor loop consumes at least one line per iteration, so fuel
equal to the number of lines plus one already computes the loop's limit:
any extra fuel leaves both the loop result and the parseFrontmatter result
unchanged, and parsing any finite text reaches the end of the line list and
returns a record. -/
theorem c10_parse_terminates :
    (∀ (lines : List Str) (acc : List (Str × Value)) (k : Nat),
      pfLoopF (lines.length + 1 + k) lines acc = pfLoopF (lines.length + 1) lines acc) ∧
    (∀ (content : Str) (k : Nat),
      parseFrontmatter content =
        match extractFM content with
        | none => []
        | some fmText =>
          pfLoopF ((splitOnChar '\n' fmText).length + 1 + k) (splitOnChar '\n' fmText) []) := by
  have hfuel : ∀ (lines : List Str) (acc : List (Str × Value)) (k : Nat),
      pfLoopF (lines.length + 1 + k) lines acc = pfLoopF (lines.length + 1) lines acc :=
    fun lines acc k =>
      pfLoopF_fuel_aux lines.length lines (lines.length + 1 + k) (lines.length + 1) acc
        (Nat.le_refl _) (by omega) (by omega)
  refine ⟨hfuel, fun content k => ?_⟩
  unfold parseFrontmatter
  cases extractFM content with
  | none => rfl
  | some fmText => exact (hfuel (splitOnChar '\n' fmText) [] k).symm

/-- C3 (the spec states the intended behaviour; the code misses it): on a
key line with the exact value [] followed by indented dash lines,
parseFrontmatter takes the inline-array branch first - producing a
one-element array holding the empty string - and then skips the dash lines,
instead of parsing them as a block list; the parser's own (unreachable)
check for the value [] inside the empty-value branch shows the block-list
continuation was intended.  After a truly empty value the same dash lines do
parse as a block list. -/
theorem c3_value_bracket_pair_not_block :
    parseFrontmatter "---\nitems: []\n  - a\n  - b\n---\n".data
      = [("items".data, Value.arr [Value.str []])] ∧
    parseFrontmatter "---\nitems:\n  - a\n  - b\n---\n".data
      = [("items".data, Value.arr [Value.str "a".data, Value.str "b".data])] :=
  ⟨rfl, rfl⟩

theorem monthLen_bounds (y m : Int) (h0 : 0 ≤ m) (h1 : m ≤ 11) :
    28 ≤ monthLen y m ∧ monthLen y m ≤ 31 := by
  interval_cases m <;> simp only [monthLen] <;> norm_num <;> (constructor <;> split <;> norm_num)

theorem jsMkDate_in_range (y m : Int) (h0 : 0 ≤ m) (h1 : m ≤ 11) :
    jsMkDate y m 1 = ⟨jsYearArg y, m, 1⟩ := by
  unfold jsMkDate
  have hf : m.fdiv 12 = 0 := by interval_cases m <;> decide
  have he : m % 12 = m := by interval_cases m <;> decide
  rw [hf, he, add_zero]
  have hb := monthLen_bounds (jsYearArg y) m h0 h1
  unfold normDays
  have hfuel : ((1 : Int).natAbs + 2) = 3 := rfl
  rw [hfuel]
  unfold normDaysGo
  dsimp only
  rw [if_neg (by norm_num), if_neg (by push_neg; omega)]

theorem addOneDay_lt (y m d : Int) (h0 : 0 ≤ m) (h1 : m ≤ 11) (hd1 : 1 ≤ d)
    (hd : d < monthLen y m) : addOneDay ⟨y, m, d⟩ = ⟨y, m, d + 1⟩ := by
  unfold addOneDay setDayOfMonth normDays
  have hb := monthLen_bounds y m h0 h1
  have hfuel : ∃ f, (d + 1).natAbs + 2 = f + 1 := ⟨(d + 1).natAbs + 1, rfl⟩
  rcases hfuel with ⟨f, hf⟩
  rw [hf]
  unfold normDaysGo
  dsimp only
  rw [if_neg (by push_neg; omega), if_neg (by push_neg; omega)]

theorem addOneDay_end (y m : Int) (h0 : 0 ≤ m) (h1 : m ≤ 11) :
    addOneDay ⟨y, m, monthLen y m⟩ =
      (if m = 11 then (⟨y + 1, 0, 1⟩ : Civil) else ⟨y, m + 1, 1⟩) := by
  have hb := monthLen_bounds y m h0 h1
  unfold addOneDay setDayOfMonth normDays
  have hfuel : ∃ f, (monthLen y m + 1).natAbs + 2 = f + 2 := ⟨(monthLen y m + 1).natAbs, rfl⟩
  rcases hfuel with ⟨f, hf⟩
  rw [hf]
  show normDaysGo (f + 1 + 1) _ = _
  unfold normDaysGo
  dsimp only
  rw [if_neg (by push_neg; omega), if_pos (by omega)]
  by_cases hm : m = 11
  · rw [if_pos (by simp [hm]), if_pos hm]
    have h31 : monthLen y m + 1 - monthLen y m = 1 := by omega
    rw [h31]
    unfold normDaysGo
    dsimp only
    have hb2 := monthLen_bounds (y + 1) 0 (by norm_num) (by norm_num)
    rw [if_neg (by push_neg; omega), if_neg (by push_neg; omega)]
  · rw [if_neg (by simp [hm]), if_neg hm]
    have h31 : monthLen y m + 1 - monthLen y m = 1 := by omega
    rw [h31]
    unfold normDaysGo
    dsimp only
    have hb2 := monthLen_bounds y (m + 1) (by omega) (by omega)
    rw [if_neg (by push_neg; omega), if_neg (by push_neg; omega)]

theorem daysInMonthGo_char (y m : Int) (h0 : 0 ≤ m) (h1 : m ≤ 11) :
    ∀ (cnt : Nat) (d : Int) (f : Nat), 1 ≤ d → d + cnt = monthLen y m → cnt + 2 ≤ f →
    daysInMonthGo f ⟨y, m, d⟩ m =
      (List.range (cnt + 1)).map (fun j => ⟨y, m, d + (j : Int)⟩) := by
  intro cnt
  induction cnt with
  | zero =>
    intro d f hd1 hdL hf
    match f, hf with
    | f + 2, _ =>
      unfold daysInMonthGo
      rw [if_pos (by simp)]
      have hend : addOneDay ⟨y, m, d⟩ =
          (if m = 11 then (⟨y + 1, 0, 1⟩ : Civil) else ⟨y, m + 1, 1⟩) := by
        have : d = monthLen y m := by omega
        rw [this]; exact addOneDay_end y m h0 h1
      rw [hend]
      by_cases hm : m = 11
      · rw [if_pos hm]
        unfold daysInMonthGo
        rw [if_neg (by simp [hm])]
        simp [List.range_succ]
      · rw [if_neg hm]
        unfold daysInMonthGo
        rw [if_neg (by simp)]
        simp [List.range_succ]
  | succ cnt ih =>
    intro d f hd1 hdL hf
    match f, hf with
    | f + 1, hf =>
      unfold daysInMonthGo
      rw [if_pos (by simp)]
      rw [addOneDay_lt y m d h0 h1 hd1 (by omega)]
      rw [ih (d + 1) f (by omega) (by omega) (by omega)]
      conv_rhs => rw [List.range_succ_eq_map]
      simp only [List.map_cons, List.map_map]
      congr 1
      · simp
      · refine List.map_congr_left (fun a _ => ?_)
        simp only [Function.comp_apply, Civil.mk.injEq, true_and]
        push_cast
        ring

theorem getDaysInMonth_eq (y m : Int) (h0 : 0 ≤ m) (h1 : m ≤ 11) :
    getDaysInMonth y m =
      (List.range (monthLen (jsYearArg y) m).toNat).map
        (fun j : Nat => (⟨jsYearArg y, m, 1 + (j : Int)⟩ : Civil)) := by
  unfold getDaysInMonth
  rw [jsMkDate_in_range y m h0 h1]
  have hb := monthLen_bounds (jsYearArg y) m h0 h1
  rw [daysInMonthGo_char (jsYearArg y) m h0 h1 ((monthLen (jsYearArg y) m).toNat - 1) 1 40
    le_rfl (by omega) (by omega)]
  have h : (monthLen (jsYearArg y) m).toNat - 1 + 1 = (monthLen (jsYearArg y) m).toNat := by
    omega
  rw [h]

theorem getDaysInMonth_length (y m : Int) (h0 : 0 ≤ m) (h1 : m ≤ 11) :
    (getDaysInMonth y m).length = (monthLen (jsYearArg y) m).toNat := by
  rw [getDaysInMonth_eq y m h0 h1, List.length_map, List.length_range]

theorem getDaysInMonth_month (y m : Int) (h0 : 0 ≤ m) (h1 : m ≤ 11) :
    ∀ c ∈ getDaysInMonth y m, c.month = m := by
  rw [getDaysInMonth_eq y m h0 h1]
  intro c hc
  rcases List.mem_map.mp hc with ⟨j, _, rfl⟩
  rfl

theorem getFirstDayOfMonth_bounds (y m : Int) :
    0 ≤ getFirstDayOfMonth y m ∧ getFirstDayOfMonth y m ≤ 6 := by
  unfold getFirstDayOfMonth jsGetDay
  set x := civilToDays (jsMkDate y m 1) + 4 with hx
  have h1 : 0 ≤ x % 7 := Int.emod_nonneg x (by norm_num)
  have h2 : x % 7 < 7 := Int.emod_lt_of_pos x (by norm_num)
  by_cases hd : x % 7 = 0
  · rw [if_pos (by simpa using hd)]
    norm_num
  · rw [if_neg (by simpa using hd)]
    omega

theorem prevMonth_bounds (month : Int) (h0 : 0 ≤ month) (h1 : month ≤ 11) :
    0 ≤ (if month == 0 then 11 else month - 1) ∧
    (if month == 0 then 11 else month - 1) ≤ 11 ∧
    (if month == 0 then 11 else month - 1) ≠ month := by
  by_cases hm : month = 0
  · subst hm; norm_num
  · rw [if_neg (by simpa using hm)]
    omega

theorem prevPaddingDays_length (today : Civil) (year month : Int) (goals : List Goal)
    (h0 : 0 ≤ month) (h1 : month ≤ 11) :
    (prevPaddingDays today year month goals).length = (getFirstDayOfMonth year month).toNat := by
  have hfb := getFirstDayOfMonth_bounds year month
  have hpm := prevMonth_bounds month h0 h1
  unfold prevPaddingDays
  by_cases hf : getFirstDayOfMonth year month > 0
  · rw [if_pos hf, List.length_map, List.length_drop]
    have hlen : (getDaysInMonth (if month == 0 then year - 1 else year)
        (if month == 0 then 11 else month - 1)).length =
        (monthLen (jsYearArg (if month == 0 then year - 1 else year))
          (if month == 0 then 11 else month - 1)).toNat :=
      getDaysInMonth_length _ _ hpm.1 hpm.2.1
    have hmb := monthLen_bounds (jsYearArg (if month == 0 then year - 1 else year))
      (if month == 0 then 11 else month - 1) hpm.1 hpm.2.1
    omega
  · rw [if_neg hf]
    simp
    omega

theorem prevPaddingDays_notCurrent (today : Civil) (year month : Int) (goals : List Goal)
    (h0 : 0 ≤ month) (h1 : month ≤ 11) :
    ∀ d ∈ prevPaddingDays today year month goals, d.isCurrentMonth = false := by
  have hpm := prevMonth_bounds month h0 h1
  unfold prevPaddingDays
  intro d hd
  by_cases hf : getFirstDayOfMonth year month > 0
  · rw [if_pos hf] at hd
    rcases List.mem_map.mp hd with ⟨c, hc, rfl⟩
    have hcm : c.month = (if month == 0 then 11 else month - 1) :=
      getDaysInMonth_month _ _ hpm.1 hpm.2.1 c (List.drop_subset _ _ hc)
    show (c.month == month) = false
    simp [hcm]
    omega
  · rw [if_neg hf] at hd
    cases hd

theorem nextMonth_bounds (month : Int) (h0 : 0 ≤ month) (h1 : month ≤ 11) :
    0 ≤ (if month == 11 then 0 else month + 1) ∧
    (if month == 11 then 0 else month + 1) ≤ 11 ∧
    (if month == 11 then 0 else month + 1) ≠ month := by
  by_cases hm : month = 11
  · subst hm; norm_num
  · rw [if_neg (by simpa using hm)]
    omega

/-- C9: the calendar grid of a month is a Monday-based prefix of trailing
previous-month days (exactly two of them when the month starts on a
Wednesday), then every day of the month in order, then next-month days
padding the final row; the total day count is a multiple of seven and every
padding day is marked as not in the current month. -/
theorem c9_calendar_grid (today : Civil) (year month : Int) (goals : List Goal)
    (h0 : 0 ≤ month) (h1 : month ≤ 11) :
    (buildCalendarMonth today year month goals).days.length % 7 = 0 ∧
    (∃ next : List CalendarDay,
      (buildCalendarMonth today year month goals).days =
        prevPaddingDays today year month goals
        ++ (getDaysInMonth year month).map (fun d => buildCalendarDay today d goals month)
        ++ next ∧
      next.length < 7 ∧ (∀ d ∈ next, d.isCurrentMonth = false)) ∧
    (prevPaddingDays today year month goals).length = (getFirstDayOfMonth year month).toNat ∧
    (jsGetDay (jsMkDate year month 1) = 3 →
      (prevPaddingDays today year month goals).length = 2) ∧
    (∀ d ∈ prevPaddingDays today year month goals, d.isCurrentMonth = false) ∧
    (∀ d ∈ (getDaysInMonth year month).map (fun d => buildCalendarDay today d goals month),
      d.isCurrentMonth = true) ∧
    getDaysInMonth year month =
      (List.range (monthLen (jsYearArg year) month).toNat).map
        (fun j : Nat => (⟨jsYearArg year, month, 1 + (j : Int)⟩ : Civil)) := by
  have hpadlen := prevPaddingDays_length today year month goals h0 h1
  have hpadnc := prevPaddingDays_notCurrent today year month goals h0 h1
  have hnmb := nextMonth_bounds month h0 h1
  set pad := prevPaddingDays today year month goals with hpadd
  set mid := (getDaysInMonth year month).map (fun d => buildCalendarDay today d goals month)
    with hmidd
  set rem : Nat :=
    if (pad.length + mid.length) % 7 == 0 then 0 else 7 - (pad.length + mid.length) % 7
    with hrem
  set nxt : List CalendarDay :=
    (if rem > 0 then
      ((getDaysInMonth (if month == 11 then year + 1 else year)
          (if month == 11 then 0 else month + 1)).take rem).map
        (fun d => buildCalendarDay today d goals month)
     else []) with hnxt
  have hdays : (buildCalendarMonth today year month goals).days = pad ++ mid ++ nxt := rfl
  clear_value pad mid rem nxt
  have hnextdim := getDaysInMonth_length (if month == 11 then year + 1 else year)
    (if month == 11 then 0 else month + 1) hnmb.1 hnmb.2.1
  have hnextml := monthLen_bounds (jsYearArg (if month == 11 then year + 1 else year))
    (if month == 11 then 0 else month + 1) hnmb.1 hnmb.2.1
  have hrem6 : rem ≤ 6 := by
    rw [hrem]
    by_cases hz : (pad.length + mid.length) % 7 = 0
    · rw [if_pos (by simpa using hz)]; omega
    · rw [if_neg (by simpa using hz)]
      have := Nat.mod_lt (pad.length + mid.length) (by norm_num : 0 < 7)
      omega
  have hnxtlen : nxt.length = rem := by
    rw [hnxt]
    by_cases hp : rem > 0
    · rw [if_pos hp, List.length_map, List.length_take]
      omega
    · rw [if_neg hp]
      have h0r : rem = 0 := by omega
      simp [h0r]
  refine ⟨?_, ⟨nxt, hdays, ?_, ?_⟩, hpadlen, ?_, hpadnc, ?_, getDaysInMonth_eq year month h0 h1⟩
  · rw [hdays]
    simp only [List.length_append]
    rw [hnxtlen, hrem]
    by_cases hz : (pad.length + mid.length) % 7 = 0
    · rw [if_pos (by simpa using hz)]; omega
    · rw [if_neg (by simpa using hz)]
      have := Nat.mod_lt (pad.length + mid.length) (by norm_num : 0 < 7)
      omega
  · omega
  · rw [hnxt]
    intro d hd
    by_cases hp : rem > 0
    · rw [if_pos hp] at hd
      rcases List.mem_map.mp hd with ⟨c, hc, rfl⟩
      have hcm : c.month = (if month == 11 then 0 else month + 1) :=
        getDaysInMonth_month _ _ hnmb.1 hnmb.2.1 c (List.take_subset _ _ hc)
      show (c.month == month) = false
      simp [hcm]
      omega
    · rw [if_neg hp] at hd
      cases hd
  · intro hwed
    rw [hpadlen]
    unfold getFirstDayOfMonth
    rw [hwed, if_neg (by decide)]
    rfl
  · intro d hd
    rw [hmidd] at hd
    rcases List.mem_map.mp hd with ⟨c, hc, rfl⟩
    have hcm : c.month = month := getDaysInMonth_month year month h0 h1 c hc
    show (c.month == month) = true
    simp [hcm]

/-- Witness for C9 at April 2026, a month that starts on a Wednesday: the
grid's day count is a multiple of seven and there are exactly two
previous-month padding days. -/
theorem c9_witness :
    (buildCalendarMonth ⟨2026, 0, 10⟩ 2026 3 []).days.length % 7 = 0 ∧
    (prevPaddingDays ⟨2026, 0, 10⟩ 2026 3 []).length = 2 := by
  have h := c9_calendar_grid ⟨2026, 0, 10⟩ 2026 3 [] (by norm_num) (by norm_num)
  exact ⟨h.1, h.2.2.2.1 (by decide)⟩


/-! ## Round-trip support: character classes and trimming -/

theorem isWsChar_cases (c : Char) (h : isWsChar c = true) :
    c = ' ' ∨ c = '\t' ∨ c = '\n' ∨ c = '\r' ∨ c = '\x0b' ∨ c = '\x0c' := by
  simp only [isWsChar, Bool.or_eq_true, beq_iff_eq] at h
  tauto

theorem wordChar_not_ws (c : Char) (h : isWordChar c = true) : isWsChar c = false := by
  by_contra hw
  have hw2 : isWsChar c = true := by
    cases hws : isWsChar c
    · exact absurd hws hw
    · rfl
  rcases isWsChar_cases c hw2 with rfl | rfl | rfl | rfl | rfl | rfl <;> exact absurd h (by decide)

theorem keyChar_not_ws (c : Char) (h : isKeyChar c = true) : isWsChar c = false := by
  simp only [isKeyChar, Bool.or_eq_true, beq_iff_eq] at h
  rcases h with (h | rfl) | rfl
  · exact wordChar_not_ws c h
  · decide
  · decide

theorem wordChar_key (c : Char) (h : isWordChar c = true) : isKeyChar c = true := by
  simp [isKeyChar, h]

theorem wordChar_ne (c : Char) (h : isWordChar c = true) :
    c ≠ ':' ∧ c ≠ ',' ∧ c ≠ '\n' ∧ c ≠ '-' ∧ c ≠ '[' ∧ c ≠ ']' ∧ c ≠ ' ' := by
  refine ⟨?_, ?_, ?_, ?_, ?_, ?_, ?_⟩ <;> intro heq <;> subst heq <;> revert h <;> decide

theorem dropWhile_eq_self_of {p : Char → Bool} (s : Str) (h : s = [] ∨ p (s.headD ' ') = false) :
    s.dropWhile p = s := by
  cases s with
  | nil => rfl
  | cons c rest =>
    rcases h with h | h
    · cases h
    · simp only [List.headD_cons] at h
      simp [List.dropWhile, h]

theorem dropWhile_append_str (p : Char → Bool) (x y : Str) :
    (x ++ y).dropWhile p =
      if (x.dropWhile p).isEmpty then y.dropWhile p else x.dropWhile p ++ y := by
  induction x with
  | nil => simp
  | cons c rest ih =>
    by_cases hc : p c
    · simp only [List.cons_append, List.dropWhile, hc]
      exact ih
    · have hc2 : p c = false := eq_false_of_ne_true hc
      simp [List.dropWhile, hc2]

theorem takeWhile_key_split (p : Char → Bool) (key : Str) (c : Char) (u : Str)
    (hk : ∀ x ∈ key, p x = true) (hc : p c = false) :
    (key ++ c :: u).takeWhile p = key ∧ (key ++ c :: u).dropWhile p = c :: u := by
  induction key with
  | nil => simp [List.takeWhile, List.dropWhile, hc]
  | cons k rest ih =>
    have hk1 : p k = true := hk k (List.mem_cons_self _ _)
    have ih2 := ih (fun x hx => hk x (List.mem_cons_of_mem _ hx))
    simp [List.takeWhile, List.dropWhile, hk1, ih2.1, ih2.2]

/-- Trimming from the right only. -/
def trimRight (s : Str) : Str := (s.reverse.dropWhile isWsChar).reverse

theorem trim_eq_left_trimRight (s : Str) (h : s = [] ∨ isWsChar (s.headD ' ') = false) :
    trim s = trimRight s := by
  unfold trim trimRight
  rw [dropWhile_eq_self_of s h]

theorem trimRight_eq_self_of (s : Str) (h : s = [] ∨ isWsChar (s.reverse.headD ' ') = false) :
    trimRight s = s := by
  unfold trimRight
  rw [dropWhile_eq_self_of s.reverse ?_, List.reverse_reverse]
  rcases h with h | h
  · subst h; left; rfl
  · right; exact h

theorem trim_eq_self_of (s : Str) (h1 : s = [] ∨ isWsChar (s.headD ' ') = false)
    (h2 : s = [] ∨ isWsChar (s.reverse.headD ' ') = false) : trim s = s := by
  rw [trim_eq_left_trimRight s h1]
  exact trimRight_eq_self_of s h2

theorem trim_cons_ws (c : Char) (s : Str) (hc : isWsChar c = true) :
    trim (c :: s) = trim s := by
  unfold trim
  simp [List.dropWhile, hc]

theorem trimRight_concat_nonws (a : Str) (c : Char) (b : Str) (hc : isWsChar c = false) :
    ∃ u, trimRight (a ++ c :: b) = a ++ c :: u := by
  unfold trimRight
  rw [List.reverse_append, List.reverse_cons, List.append_assoc,
    dropWhile_append_str]
  by_cases hb : (b.reverse.dropWhile isWsChar).isEmpty
  · rw [if_pos hb]
    simp only [List.singleton_append, List.dropWhile, hc]
    refine ⟨[], ?_⟩
    simp
  · rw [if_neg hb]
    refine ⟨(b.reverse.dropWhile isWsChar).reverse, ?_⟩
    simp

/-! ## Round-trip support: decimal digit strings -/

/-- The value of a least-significant-first digit list. -/
def valRev (l : Str) : Int := l.foldr (fun c a => a * 10 + (digitVal c : Int)) 0

theorem digitVal_digitCh (m : Nat) (h : m < 10) :
    digitVal (digitCh m) = m ∧ (digitCh m).isDigit = true := by
  interval_cases m <;> exact ⟨by decide, by decide⟩

theorem takeWhile_all {p : Char → Bool} (s : Str) (h : ∀ c ∈ s, p c = true) :
    s.takeWhile p = s ∧ s.dropWhile p = [] := by
  induction s with
  | nil => exact ⟨rfl, rfl⟩
  | cons c rest ih =>
    have hc := h c (List.mem_cons_self _ _)
    have ih2 := ih (fun x hx => h x (List.mem_cons_of_mem _ hx))
    simp [List.takeWhile, List.dropWhile, hc, ih2.1, ih2.2]

theorem natDigitsRevF_spec (f : Nat) : ∀ n, n < f →
    valRev (natDigitsRevF f n) = n ∧ natDigitsRevF f n ≠ [] ∧
    ∀ c ∈ natDigitsRevF f n, c.isDigit = true := by
  induction f with
  | zero => intro n h; omega
  | succ f ih =>
    intro n h
    by_cases hn : n < 10
    · simp only [natDigitsRevF, if_pos hn]
      have hd := digitVal_digitCh n hn
      refine ⟨?_, by simp, ?_⟩
      · simp [valRev, hd.1]
      · intro c hc
        rcases List.mem_singleton.mp hc with rfl
        exact hd.2
    · simp only [natDigitsRevF, if_neg hn]
      have hdiv : n / 10 < f := by omega
      have ihh := ih (n / 10) hdiv
      have hd := digitVal_digitCh (n % 10) (by omega)
      refine ⟨?_, by simp, ?_⟩
      · have h1 := ihh.1
        simp only [valRev, List.foldr_cons] at h1 ⊢
        rw [h1, hd.1]
        omega
      · intro c hc
        rcases List.mem_cons.mp hc with rfl | hmem
        · exact hd.2
        · exact ihh.2.2 c hmem

theorem natToStr_spec (n : Nat) :
    natToStr n ≠ [] ∧ (∀ c ∈ natToStr n, c.isDigit = true) ∧
    decDigitsVal (natToStr n) = (n : Int) := by
  have h := natDigitsRevF_spec (n + 1) n (by omega)
  refine ⟨by simpa [natToStr] using h.2.1, ?_, ?_⟩
  · intro c hc
    exact h.2.2 c (List.mem_reverse.mp (by simpa [natToStr] using hc))
  · show decDigitsVal ((natDigitsRevF (n + 1) n).reverse) = Int.ofNat n
    unfold decDigitsVal
    rw [List.foldl_reverse]
    exact h.1

theorem digit_not_ws (c : Char) (h : c.isDigit = true) : isWsChar c = false := by
  by_contra hw
  have hw2 : isWsChar c = true := by
    cases hws : isWsChar c
    · exact absurd hws hw
    · rfl
  rcases isWsChar_cases c hw2 with rfl | rfl | rfl | rfl | rfl | rfl <;> exact absurd h (by decide)

theorem digit_word (c : Char) (h : c.isDigit = true) : isWordChar c = true := by
  simp [isWordChar, h]

theorem ne_str_of_pred {s t : Str} (P : Char → Bool) (hall : ∀ c ∈ s, P c = true)
    (c0 : Char) (hc0 : c0 ∈ t) (hP : P c0 = false) : s ≠ t := by
  intro heq
  subst heq
  rw [hall c0 hc0] at hP
  cases hP

theorem mem_head_reverse (s : Str) (hne : s ≠ []) : s.reverse.headD ' ' ∈ s := by
  cases hrev : s.reverse with
  | nil => exact absurd (by simpa using hrev) hne
  | cons c r =>
    have : c ∈ s.reverse := by rw [hrev]; exact List.mem_cons_self _ _
    simpa using List.mem_reverse.mp this

theorem trim_digits (s : Str) (hne : s ≠ []) (hd : ∀ c ∈ s, c.isDigit = true) :
    trim s = s := by
  refine trim_eq_self_of s (Or.inr ?_) (Or.inr ?_)
  · cases s with
    | nil => exact absurd rfl hne
    | cons c rest => exact digit_not_ws c (hd c (List.mem_cons_self _ _))
  · exact digit_not_ws _ (hd _ (mem_head_reverse s hne))

theorem jsUnsignedDecOk_digits (s : Str) (hne : s ≠ []) (hd : ∀ c ∈ s, c.isDigit = true) :
    jsUnsignedDecOk s = true := by
  unfold jsUnsignedDecOk
  have hinf : (s == "Infinity".data) = false := by
    refine beq_eq_false_iff_ne.mpr ?_
    exact ne_str_of_pred Char.isDigit hd 'I' (by decide) (by decide)
  rw [hinf]
  have htw := takeWhile_all s hd
  rw [htw.2]
  simp only [Bool.false_or]
  rw [htw.1]
  simp [hne, jsExpOk]

theorem jsSignedDecOk_digits (s : Str) (hne : s ≠ []) (hd : ∀ c ∈ s, c.isDigit = true) :
    jsSignedDecOk s = true := by
  cases s with
  | nil => exact absurd rfl hne
  | cons c rest =>
    have hc := hd c (List.mem_cons_self _ _)
    have hplus : (c == '+') = false := by
      cases hcc : c == '+'
      · rfl
      · exact absurd (by rw [beq_iff_eq.mp hcc] at hc; exact hc) (by decide)
    have hminus : (c == '-') = false := by
      cases hcc : c == '-'
      · rfl
      · exact absurd (by rw [beq_iff_eq.mp hcc] at hc; exact hc) (by decide)
    simp only [jsSignedDecOk, hplus, hminus, Bool.or_self, Bool.false_eq_true, if_false]
    exact jsUnsignedDecOk_digits (c :: rest) (by simp) hd


theorem digit_ne_ch (c x : Char) (h : c.isDigit = true) (hx : x.isDigit = false) :
    (c == x) = false := by
  cases hcc : c == x
  · rfl
  · have hce := beq_iff_eq.mp hcc
    subst hce
    rw [h] at hx
    cases hx

theorem isEmpty_false_of_ne_nil {s : Str} (hne : s ≠ []) : s.isEmpty = false := by
  cases hemp : s.isEmpty
  · rfl
  · exact absurd (List.isEmpty_eq_true.mp hemp) hne

theorem jsNumericOk_digits (s : Str) (hne : s ≠ []) (hd : ∀ c ∈ s, c.isDigit = true) :
    jsNumericOk s = true := by
  have hsd := jsSignedDecOk_digits s hne hd
  unfold jsNumericOk
  rw [trim_digits s hne hd]
  dsimp only []
  rw [isEmpty_false_of_ne_nil hne]
  simp only [Bool.false_or]
  split
  · next c rest =>
    have hc : c.isDigit = true := hd c (List.mem_cons_of_mem _ (List.mem_cons_self _ _))
    rw [digit_ne_ch c 'x' hc (by decide), digit_ne_ch c 'X' hc (by decide),
        digit_ne_ch c 'o' hc (by decide), digit_ne_ch c 'O' hc (by decide),
        digit_ne_ch c 'b' hc (by decide), digit_ne_ch c 'B' hc (by decide)]
    simp only [Bool.or_self, Bool.false_eq_true, if_false]
    exact hsd
  · exact hsd

theorem trim_dash_digits (s : Str) (hne : s ≠ []) (hd : ∀ c ∈ s, c.isDigit = true) :
    trim ('-' :: s) = '-' :: s := by
  refine trim_eq_self_of ('-' :: s) (Or.inr (by rw [List.headD_cons]; decide)) (Or.inr ?_)
  cases hrev : s.reverse with
  | nil => exact absurd (by simpa using hrev) hne
  | cons c r =>
    have hcs : c ∈ s := List.mem_reverse.mp (by rw [hrev]; exact List.mem_cons_self _ _)
    have hr2 : ('-' :: s).reverse = c :: (r ++ ['-']) := by
      rw [List.reverse_cons, hrev]; rfl
    rw [hr2]
    exact digit_not_ws c (hd c hcs)

theorem jsNumericOk_neg_digits (s : Str) (hne : s ≠ []) (hd : ∀ c ∈ s, c.isDigit = true) :
    jsNumericOk ('-' :: s) = true := by
  unfold jsNumericOk
  rw [trim_dash_digits s hne hd]
  simp only [List.isEmpty_cons, Bool.false_or]
  split
  · next c rest heq =>
    exact absurd heq (by simp)
  · simp only [jsSignedDecOk]
    norm_num
    exact jsUnsignedDecOk_digits s hne hd

theorem jsIntVal_natToStr (n : Nat) : jsIntVal (natToStr n) = (n : Int) := by
  have hs := natToStr_spec n
  unfold jsIntVal
  rw [trim_digits _ hs.1 hs.2.1]
  dsimp only []
  split
  · next heq => exact absurd heq hs.1
  · next rest heq =>
    have : ('-' : Char).isDigit = true := by
      refine hs.2.1 '-' ?_
      rw [heq]
      exact List.mem_cons_self _ _
    exact absurd this (by decide)
  · next rest heq =>
    have : ('+' : Char).isDigit = true := by
      refine hs.2.1 '+' ?_
      rw [heq]
      exact List.mem_cons_self _ _
    exact absurd this (by decide)
  · rw [if_pos (List.all_eq_true.mpr hs.2.1)]
    exact hs.2.2

theorem jsIntVal_negNatToStr (n : Nat) : jsIntVal ('-' :: natToStr n) = -(n : Int) := by
  have hs := natToStr_spec n
  unfold jsIntVal
  rw [trim_dash_digits _ hs.1 hs.2.1]
  dsimp only []
  split
  · next heq => exact absurd heq (by simp)
  · next rest heq =>
    injection heq with hch hre
    subst hre
    rw [if_pos]
    · rw [hs.2.2]
    · simp [isEmpty_false_of_ne_nil hs.1, List.all_eq_true.mpr hs.2.1]
  · next rest heq =>
    injection heq with hch hre
    exact absurd hch (by decide)
  · next t hnil hdash hplus =>
    exact absurd rfl (hdash (natToStr n))


theorem parseValue_natToStr (n : Nat) : parseValue (natToStr n) = .num (n : Int) := by
  have hs := natToStr_spec n
  have hP : ∀ c ∈ natToStr n, c.isDigit = true := hs.2.1
  unfold parseValue
  rw [beq_eq_false_iff_ne.mpr (ne_str_of_pred _ hP 't' (by decide) (by decide)),
      beq_eq_false_iff_ne.mpr (ne_str_of_pred _ hP 'a' (by decide) (by decide)),
      beq_eq_false_iff_ne.mpr (ne_str_of_pred _ hP 'u' (by decide) (by decide)),
      beq_eq_false_iff_ne.mpr (ne_str_of_pred _ hP '~' (by decide) (by decide)),
      isEmpty_false_of_ne_nil hs.1, jsNumericOk_digits _ hs.1 hs.2.1, jsIntVal_natToStr]
  simp

theorem parseValue_intToStr (i : Int) : parseValue (intToStr i) = .num i := by
  by_cases hneg : i < 0
  · unfold intToStr
    rw [if_pos hneg]
    have hs := natToStr_spec i.natAbs
    have hP : ∀ c ∈ '-' :: natToStr i.natAbs, (c == '-' || c.isDigit) = true := by
      intro c hc
      rcases List.mem_cons.mp hc with rfl | hmem
      · rfl
      · simp [hs.2.1 c hmem]
    unfold parseValue
    rw [beq_eq_false_iff_ne.mpr (ne_str_of_pred _ hP 't' (by decide) (by decide)),
        beq_eq_false_iff_ne.mpr (ne_str_of_pred _ hP 'a' (by decide) (by decide)),
        beq_eq_false_iff_ne.mpr (ne_str_of_pred _ hP 'u' (by decide) (by decide)),
        beq_eq_false_iff_ne.mpr (ne_str_of_pred _ hP '~' (by decide) (by decide)),
        jsNumericOk_neg_digits _ hs.1 hs.2.1, jsIntVal_negNatToStr]
    simp only [List.isEmpty_cons, Bool.false_eq_true, if_false, Bool.or_self, if_true,
      Value.num.injEq]
    omega
  · unfold intToStr
    rw [if_neg hneg, parseValue_natToStr]
    have h2 : ((i.natAbs : Nat) : Int) = i := by omega
    rw [h2]


/-! ## Round-trip support: object operations and key-value line matching -/

theorem jsSet_fresh (l : List (Str × Value)) (k : Str) (v : Value)
    (h : jsGet l k = none) : jsSet l k v = l ++ [(k, v)] := by
  induction l with
  | nil => rfl
  | cons p t ih =>
    obtain ⟨k0, v0⟩ := p
    by_cases hk : (k0 == k) = true
    · rw [jsGet, if_pos hk] at h
      cases h
    · have hk2 : (k0 == k) = false := eq_false_of_ne_true hk
      rw [jsGet, if_neg (by rw [hk2]; simp)] at h
      rw [jsSet, if_neg (by rw [hk2]; simp), ih h]
      rfl

theorem jsGet_append_left (l1 l2 : List (Str × Value)) (k : Str) (v : Value)
    (h : jsGet l1 k = some v) : jsGet (l1 ++ l2) k = some v := by
  induction l1 with
  | nil => cases h
  | cons p t ih =>
    obtain ⟨k0, v0⟩ := p
    by_cases hk : (k0 == k) = true
    · rw [jsGet, if_pos hk] at h
      rw [List.cons_append, jsGet, if_pos hk]
      exact h
    · have hk2 : (k0 == k) = false := eq_false_of_ne_true hk
      rw [jsGet, if_neg (by rw [hk2]; simp)] at h
      rw [List.cons_append, jsGet, if_neg (by rw [hk2]; simp)]
      exact ih h

theorem jsGet_append_right (l1 l2 : List (Str × Value)) (k : Str)
    (h : jsGet l1 k = none) : jsGet (l1 ++ l2) k = jsGet l2 k := by
  induction l1 with
  | nil => rfl
  | cons p t ih =>
    obtain ⟨k0, v0⟩ := p
    by_cases hk : (k0 == k) = true
    · rw [jsGet, if_pos hk] at h
      cases h
    · have hk2 : (k0 == k) = false := eq_false_of_ne_true hk
      rw [jsGet, if_neg (by rw [hk2]; simp)] at h
      rw [List.cons_append, jsGet, if_neg (by rw [hk2]; simp)]
      exact ih h

/-- A frontmatter map key: nonempty, made of key characters, starting with a
word character (so that a map line is neither dash-led nor blank-led). -/
def SafeKeyB (s : Str) : Bool := !s.isEmpty && s.all isKeyChar && isWordChar (s.headD ' ')

/-- A structured-field string value the parser hands back unchanged. -/
def parseKeepsStr (v : Str) : Bool :=
  match parseValue v with
  | .str w => w == v
  | _ => false

/-- A safe scalar string value for ids, titles and frequencies: a nonempty
key-character string that parseValue keeps as a string. -/
def SafeValB (s : Str) : Bool := SafeKeyB s && parseKeepsStr s

theorem parseKeepsStr_eq (v : Str) (h : parseKeepsStr v = true) : parseValue v = .str v := by
  unfold parseKeepsStr at h
  split at h
  · next w heq => rw [heq, Value.str.injEq]; exact beq_iff_eq.mp h
  · cases h

theorem SafeKeyB_facts (s : Str) (h : SafeKeyB s = true) :
    s ≠ [] ∧ (∀ c ∈ s, isKeyChar c = true) ∧ isWordChar (s.headD ' ') = true := by
  unfold SafeKeyB at h
  rw [Bool.and_eq_true, Bool.and_eq_true] at h
  refine ⟨?_, List.all_eq_true.mp h.1.2, h.2⟩
  cases s with
  | nil => simp at h
  | cons c t => simp

theorem SafeKey_head_not_ws (s : Str) (h : SafeKeyB s = true) :
    isWsChar (s.headD ' ') = false :=
  wordChar_not_ws _ (SafeKeyB_facts s h).2.2

theorem SafeKey_last_not_ws (s : Str) (h : SafeKeyB s = true) :
    isWsChar (s.reverse.headD ' ') = false :=
  keyChar_not_ws _ ((SafeKeyB_facts s h).2.1 _ (mem_head_reverse s (SafeKeyB_facts s h).1))

theorem trim_ws_indent (ind X : Str) (hind : ∀ c ∈ ind, isWsChar c = true) :
    trim (ind ++ X) = trim X := by
  induction ind with
  | nil => rfl
  | cons c t ih =>
    rw [List.cons_append, trim_cons_ws c _ (hind c (List.mem_cons_self _ _))]
    exact ih (fun x hx => hind x (List.mem_cons_of_mem _ hx))

theorem reverse_headD_append (p v : Str) (hv : v ≠ []) :
    (p ++ v).reverse.headD ' ' = v.reverse.headD ' ' := by
  rw [List.reverse_append]
  cases hrev : v.reverse with
  | nil => exact absurd (by simpa using hrev) hv
  | cons c r => rfl

theorem matchKeyVal_keyline (k u : Str) (hk : SafeKeyB k = true) :
    matchKeyVal (k ++ ':' :: u) = some (k, u.dropWhile isWsChar) := by
  have hf := SafeKeyB_facts k hk
  have hsplit := takeWhile_key_split isKeyChar k ':' u hf.2.1 (by decide)
  unfold matchKeyVal
  rw [hsplit.1, hsplit.2]
  dsimp only []
  rw [isEmpty_false_of_ne_nil hf.1]
  rfl


/-! ## Round-trip support: the outer parse loop over serialized lines -/

/-- The next line (if any) is not indented by four spaces: the object
property loop stops here. -/
def stops4 : List Str → Prop
  | [] => True
  | a :: _ => strStarts a "    ".data = false

/-- The next line (if any) is not a dash item after trimming: the block
array loop stops here. -/
def stopsDash : List Str → Prop
  | [] => True
  | a :: _ => strStarts (trim a) "- ".data = false

/-- The next line (if any) is not two-space indented: the block mapping
loop stops here. -/
def stops2 : List Str → Prop
  | [] => True
  | a :: _ => strStarts a "  ".data = false

/-- The next line (if any) neither continues a block array nor a block
mapping: a top-level key line with an empty value stays a one-line entry. -/
def topStop (ls : List Str) : Prop := stops2 ls ∧ stopsDash ls

theorem strStarts_false_of_head (c : Char) (t : Str) (d : Char) (u : Str)
    (h : (c == d) = false) : strStarts (c :: t) (d :: u) = false := by
  show (c == d && strStarts t u) = false
  rw [h]
  rfl

theorem trim_keyline_ex (k u0 : Str) (hk : SafeKeyB k = true) :
    ∃ u, trim (k ++ ':' :: u0) = k ++ ':' :: u := by
  obtain ⟨c, t, hk2⟩ : ∃ c t, k = c :: t := by
    cases k with
    | nil => simp [SafeKeyB] at hk
    | cons c t => exact ⟨c, t, rfl⟩
  have hhead : isWsChar ((k ++ ':' :: u0).headD ' ') = false := by
    have h1 := SafeKey_head_not_ws k hk
    rw [hk2] at h1 ⊢
    simpa using h1
  rw [trim_eq_left_trimRight _ (Or.inr hhead)]
  unfold trimRight
  rw [List.reverse_append, List.reverse_cons, List.append_assoc, List.singleton_append,
    dropWhile_append_str isWsChar u0.reverse (':' :: k.reverse)]
  by_cases hcase : (u0.reverse.dropWhile isWsChar).isEmpty = true
  · rw [if_pos hcase]
    refine ⟨[], ?_⟩
    rw [dropWhile_eq_self_of (':' :: k.reverse) (Or.inr (by rw [List.headD_cons]; decide))]
    simp
  · rw [if_neg hcase]
    refine ⟨(u0.reverse.dropWhile isWsChar).reverse, ?_⟩
    rw [List.reverse_append, List.reverse_cons, List.reverse_reverse]
    simp

theorem pfLoopF_nil (f : Nat) (acc : List (Str × Value)) : pfLoopF f [] acc = acc := by
  cases f <;> rfl

theorem keyline_topstop (k u : Str) (hk : SafeKeyB k = true) :
    strStarts (k ++ ':' :: u) "  ".data = false ∧
    strStarts (trim (k ++ ':' :: u)) "- ".data = false ∧
    strStarts (trim (k ++ ':' :: u)) "-".data = false := by
  obtain ⟨c, t, hk2⟩ : ∃ c t, k = c :: t := by
    cases k with
    | nil => simp [SafeKeyB] at hk
    | cons c t => exact ⟨c, t, rfl⟩
  have hw : isWordChar c = true := by
    have := (SafeKeyB_facts k hk).2.2
    rw [hk2] at this
    simpa using this
  have hne := wordChar_ne c hw
  obtain ⟨u2, htrim⟩ := trim_keyline_ex k u hk
  subst hk2
  refine ⟨?_, ?_, ?_⟩
  · exact strStarts_false_of_head c _ ' ' _ (beq_eq_false_iff_ne.mpr hne.2.2.2.2.2.2)
  · rw [htrim]
    exact strStarts_false_of_head c _ '-' _ (beq_eq_false_iff_ne.mpr hne.2.2.2.1)
  · rw [htrim]
    exact strStarts_false_of_head c _ '-' _ (beq_eq_false_iff_ne.mpr hne.2.2.2.1)

/-- The value a top-level key line contributes: inline arrays, the empty
block fallback, or a parsed scalar. -/
def topVal (k v : Str) : Value :=
  let u := (trim (k ++ ':' :: v)).drop (k.length + 1)
  let v2 := u.dropWhile isWsChar
  if strStarts v2 "[".data && strEnds v2 "]".data then parseInlineArr v2
  else if v2.isEmpty || v2 == "[]".data then .arr []
  else parseValue v2

theorem topVal_eq (k v u : Str) (htrim : trim (k ++ ':' :: v) = k ++ ':' :: u) :
    topVal k v =
      (if (strStarts (u.dropWhile isWsChar) "[".data
          && strEnds (u.dropWhile isWsChar) "]".data) = true
       then parseInlineArr (u.dropWhile isWsChar)
       else if ((u.dropWhile isWsChar).isEmpty || u.dropWhile isWsChar == "[]".data) = true
       then .arr []
       else parseValue (u.dropWhile isWsChar)) := by
  unfold topVal
  rw [htrim]
  have hsplit : (k ++ ':' :: u : Str) = (k ++ [':']) ++ u := by simp
  rw [hsplit, show k.length + 1 = (k ++ [':'] : Str).length by simp, List.drop_left]

theorem topScalarStep (f : Nat) (k v : Str) (rest : List Str) (acc : List (Str × Value))
    (hk : SafeKeyB k = true) (hstop : topStop rest) :
    pfLoopF (f + 1) ((k ++ ':' :: v) :: rest) acc = pfLoopF f rest (jsSet acc k (topVal k v)) := by
  obtain ⟨u, htrim⟩ := trim_keyline_ex k v hk
  rw [topVal_eq k v u htrim]
  have hne : k ++ ':' :: u ≠ [] := by
    obtain ⟨c, t, hk2⟩ : ∃ c t, k = c :: t := by
      cases k with
      | nil => simp [SafeKeyB] at hk
      | cons c t => exact ⟨c, t, rfl⟩
    rw [hk2]
    simp
  rcases rest with _ | ⟨nl, tl⟩
  · simp only [pfLoopF]
    rw [htrim, isEmpty_false_of_ne_nil hne, matchKeyVal_keyline k u hk]
    simp only [Bool.false_eq_true, if_false]
    by_cases hinl : (strStarts (u.dropWhile isWsChar) "[".data
        && strEnds (u.dropWhile isWsChar) "]".data) = true
    · simp [hinl]
    · by_cases hemp : ((u.dropWhile isWsChar).isEmpty
          || u.dropWhile isWsChar == "[]".data) = true
      · simp [hinl, hemp]
      · simp [hinl, hemp]
  · obtain ⟨h2, hdash⟩ := hstop
    have h2b : strStarts nl "  ".data = false := h2
    have hdb : strStarts (trim nl) "- ".data = false := hdash
    simp only [pfLoopF]
    rw [htrim, isEmpty_false_of_ne_nil hne, matchKeyVal_keyline k u hk]
    simp only [Bool.false_eq_true, if_false]
    by_cases hinl : (strStarts (u.dropWhile isWsChar) "[".data
        && strEnds (u.dropWhile isWsChar) "]".data) = true
    · simp [hinl]
    · by_cases hemp : ((u.dropWhile isWsChar).isEmpty
          || u.dropWhile isWsChar == "[]".data) = true
      · simp [hinl, hemp, h2b, hdb]
      · simp [hinl, hemp]
theorem SafeValB_key (s : Str) (h : SafeValB s = true) : SafeKeyB s = true :=
  (Bool.and_eq_true _ _ |>.mp h).1

theorem SafeValB_parse (s : Str) (h : SafeValB s = true) : parseValue s = .str s :=
  parseKeepsStr_eq s (Bool.and_eq_true _ _ |>.mp h).2

theorem objPropsF_stop (after : List Str) (hstop : stops4 after) (f : Nat)
    (obj : List (Str × Value)) : objPropsF f after obj = (obj, after) := by
  cases f with
  | zero => rfl
  | succ f =>
    cases after with
    | nil => rfl
    | cons a t =>
      have ha : strStarts a "    ".data = false := hstop
      rw [objPropsF, if_pos (by rw [ha]; simp)]

theorem arrayItemsF_stop (after : List Str) (hstop : stopsDash after) (f : Nat)
    (items : List Value) : arrayItemsF f after items = (items, after) := by
  cases f with
  | zero => rfl
  | succ f =>
    cases after with
    | nil => rfl
    | cons a t =>
      have ha : strStarts (trim a) "- ".data = false := hstop
      rw [arrayItemsF]
      dsimp only []
      rw [if_pos (by rw [ha]; simp)]

theorem mapPropsF_stop (after : List Str) (hstop : stops2 after) (f : Nat)
    (obj : List (Str × Value)) : mapPropsF f after obj = (obj, after) := by
  cases f with
  | zero => rfl
  | succ f =>
    cases after with
    | nil => rfl
    | cons a t =>
      have ha : strStarts a "  ".data = false := hstop
      rw [mapPropsF, if_pos (by rw [ha]; simp)]

theorem trim_indent_line (ind pre v : Str) (hind : ∀ c ∈ ind, isWsChar c = true)
    (hpre : pre ≠ []) (hprehead : isWsChar (pre.headD ' ') = false)
    (hv : v ≠ []) (hvlast : isWsChar (v.reverse.headD ' ') = false) :
    trim (ind ++ (pre ++ v)) = pre ++ v := by
  rw [trim_ws_indent ind _ hind]
  refine trim_eq_self_of _ (Or.inr ?_) (Or.inr ?_)
  · cases pre with
    | nil => exact absurd rfl hpre
    | cons c t => simpa using hprehead
  · rw [reverse_headD_append pre v hv]
    exact hvlast

theorem matchWordKeyVal_title (v : Str) (hv : isWsChar (v.headD ' ') = false) :
    matchWordKeyVal ("title: ".data ++ v) = some ("title".data, v) := by
  have h : matchWordKeyVal ("title: ".data ++ v) = some ("title".data, v.dropWhile isWsChar) := rfl
  rw [h, dropWhile_eq_self_of v (Or.inr hv)]

theorem matchWordKeyVal_completed (v : Str) (hv : isWsChar (v.headD ' ') = false) :
    matchWordKeyVal ("completed: ".data ++ v) = some ("completed".data, v) := by
  have h : matchWordKeyVal ("completed: ".data ++ v)
      = some ("completed".data, v.dropWhile isWsChar) := rfl
  rw [h, dropWhile_eq_self_of v (Or.inr hv)]

theorem matchDashKeyVal_id (v : Str) (hv : isWsChar (v.headD ' ') = false) :
    matchDashKeyVal ("- id: ".data ++ v) = some ("id".data, v) := by
  have h : matchDashKeyVal ("- id: ".data ++ v) = some ("id".data, v.dropWhile isWsChar) := rfl
  rw [h, dropWhile_eq_self_of v (Or.inr hv)]

theorem objPropsF_subtask (f : Nat) (tl cb : Str) (after : List Str)
    (obj : List (Str × Value)) (ht : SafeValB tl = true)
    (hcb : cb = "true".data ∨ cb = "false".data) (hstop : stops4 after) :
    objPropsF (f + 2) (("    title: ".data ++ tl) :: ("    completed: ".data ++ cb) :: after) obj
      = (jsSet (jsSet obj "title".data (.str tl)) "completed".data (parseValue cb), after) := by
  have htk := SafeValB_key tl ht
  have htf := SafeKeyB_facts tl htk
  have htrim1 : trim ("    title: ".data ++ tl) = "title: ".data ++ tl := by
    have := trim_indent_line "    ".data "title: ".data tl (by decide) (by decide) (by decide)
      htf.1 (SafeKey_last_not_ws tl htk)
    simpa using this
  have hstart1 : strStarts ("    title: ".data ++ tl) "    ".data = true := rfl
  have hdash1 : strStarts (trim ("    title: ".data ++ tl)) "-".data = false := by
    rw [htrim1]
    exact strStarts_false_of_head 't' _ '-' _ (by decide)
  rw [objPropsF, if_neg (by rw [hstart1, hdash1]; simp)]
  rw [htrim1, matchWordKeyVal_title tl (SafeKey_head_not_ws tl htk)]
  dsimp only []
  rw [SafeValB_parse tl ht]
  rcases hcb with rfl | rfl
  · have htrim2 : trim ("    completed: ".data ++ "true".data) = "completed: ".data ++ "true".data := by
      decide
    rw [objPropsF, if_neg (by rw [htrim2]; decide)]
    rw [htrim2, matchWordKeyVal_completed "true".data (by decide)]
    dsimp only []
    exact objPropsF_stop after hstop f _
  · have htrim2 : trim ("    completed: ".data ++ "false".data) = "completed: ".data ++ "false".data := by
      decide
    rw [objPropsF, if_neg (by rw [htrim2]; decide)]
    rw [htrim2, matchWordKeyVal_completed "false".data (by decide)]
    dsimp only []
    exact objPropsF_stop after hstop f _


/-- The parsed object value of one serialized subtask. -/
def subVal (st : Subtask) : Value :=
  .obj [("id".data, .str st.id), ("title".data, .str st.title),
        ("completed".data, .bool st.completed)]

theorem stops4_subtaskBlock (sts : List Subtask) (after : List Str)
    (h : stops4 after) : stops4 (sts.flatMap subtaskLines ++ after) := by
  cases sts with
  | nil => simpa using h
  | cons st rest => exact rfl

theorem arrayItemsF_subtasks : ∀ (sts : List Subtask) (f : Nat) (after : List Str)
    (items : List Value),
    (∀ st ∈ sts, SafeValB st.id = true ∧ SafeValB st.title = true) →
    sts.length ≤ f → stops4 after → stopsDash after →
    arrayItemsF f (sts.flatMap subtaskLines ++ after) items = (items ++ sts.map subVal, after) := by
  intro sts
  induction sts with
  | nil =>
    intro f after items hsafe hf h4 hd
    simp only [List.flatMap_nil, List.nil_append, List.map_nil, List.append_nil]
    exact arrayItemsF_stop after hd f items
  | cons st sts ih =>
    intro f after items hsafe hf h4 hd
    cases f with
    | zero => simp at hf
    | succ f =>
      have hsid := (hsafe st (List.mem_cons_self _ _)).1
      have hsidk := SafeValB_key _ hsid
      have hsidf := SafeKeyB_facts _ hsidk
      have htit := (hsafe st (List.mem_cons_self _ _)).2
      have hflat : (st :: sts).flatMap subtaskLines ++ after
          = ("  - id: ".data ++ st.id) :: ("    title: ".data ++ st.title)
            :: ("    completed: ".data ++ (if st.completed then "true".data else "false".data))
            :: (sts.flatMap subtaskLines ++ after) := by
        simp [subtaskLines]
      rw [hflat]
      have htrim1 : trim ("  - id: ".data ++ st.id) = "- id: ".data ++ st.id := by
        have := trim_indent_line "  ".data "- id: ".data st.id (by decide) (by decide) (by decide)
          hsidf.1 (SafeKey_last_not_ws _ hsidk)
        simpa using this
      rw [arrayItemsF]
      dsimp only []
      rw [htrim1]
      rw [if_neg (by rw [show strStarts ("- id: ".data ++ st.id) "- ".data = true from rfl]; simp)]
      rw [matchDashKeyVal_id st.id (SafeKey_head_not_ws _ hsidk)]
      dsimp only []
      have hlen : (("    title: ".data ++ st.title)
          :: ("    completed: ".data ++ (if st.completed then "true".data else "false".data))
          :: (sts.flatMap subtaskLines ++ after)).length
          = (sts.flatMap subtaskLines ++ after).length + 2 := by
        simp
      rw [hlen, SafeValB_parse _ hsid]
      have hobj := objPropsF_subtask (sts.flatMap subtaskLines ++ after).length st.title
        (if st.completed then "true".data else "false".data)
        (sts.flatMap subtaskLines ++ after)
        (jsSet [] "id".data (.str st.id)) htit
        (by cases st.completed <;> simp)
        (stops4_subtaskBlock sts after h4)
      rw [hobj]
      dsimp only []
      have hsub : jsSet (jsSet (jsSet [] "id".data (Value.str st.id)) "title".data
          (Value.str st.title)) "completed".data
          (parseValue (if st.completed then "true".data else "false".data)) =
          [("id".data, Value.str st.id), ("title".data, Value.str st.title),
           ("completed".data, Value.bool st.completed)] := by
        cases st.completed <;> rfl
      rw [hsub]
      rw [ih f after (items ++ [Value.obj [("id".data, Value.str st.id),
            ("title".data, Value.str st.title), ("completed".data, Value.bool st.completed)]])
          (fun st2 hst2 => hsafe st2 (List.mem_cons_of_mem _ hst2))
          (by simp at hf; omega) h4 hd]
      simp [subVal]


/-! ## Round-trip support: line splitting and frontmatter extraction -/

/-- Newline-free strings: the serializer's per-line contents. -/
def noNlB (s : Str) : Bool := s.all (fun c => !(c == '\n'))

/-- Serialized frontmatter lines: newline-free and not dash-led (so the
closing marker search cannot fire early). -/
def goodLine (l : Str) : Bool := noNlB l && !(strStarts l "-".data)

theorem strStarts_nil (s : Str) : strStarts s [] = true := by
  cases s <;> rfl

theorem strStarts_append_self (p x : Str) : strStarts (p ++ x) p = true := by
  induction p with
  | nil => cases x <;> rfl
  | cons c t ih => simp [strStarts, ih]

theorem splitOnChar_sepfree (sep : Char) (a : Str) (h : ∀ c ∈ a, (c == sep) = false) :
    splitOnChar sep a = [a] := by
  induction a with
  | nil => rfl
  | cons c t ih =>
    have hc := h c (List.mem_cons_self _ _)
    have ih2 := ih (fun x hx => h x (List.mem_cons_of_mem _ hx))
    simp [splitOnChar, hc, ih2]

theorem splitOnChar_append (sep : Char) (a b : Str) (h : ∀ c ∈ a, (c == sep) = false) :
    splitOnChar sep (a ++ sep :: b) = a :: splitOnChar sep b := by
  induction a with
  | nil => simp [splitOnChar]
  | cons c t ih =>
    have hc := h c (List.mem_cons_self _ _)
    have ih2 := ih (fun x hx => h x (List.mem_cons_of_mem _ hx))
    simp [splitOnChar, hc, ih2]

theorem splitJoin (lines : List Str) (h : ∀ l ∈ lines, noNlB l = true) (hne : lines ≠ []) :
    splitOnChar '\n' (joinSep "\n".data lines) = lines := by
  induction lines with
  | nil => exact absurd rfl hne
  | cons a rest ih =>
    cases rest with
    | nil =>
      show splitOnChar '\n' a = [a]
      refine splitOnChar_sepfree '\n' a ?_
      have ha := h a (List.mem_cons_self _ _)
      intro c hc
      have := List.all_eq_true.mp ha c hc
      simpa using this
    | cons l2 rest2 =>
      have hjoin : joinSep "\n".data (a :: l2 :: rest2) = a ++ '\n' :: joinSep "\n".data (l2 :: rest2) := by
        show a ++ "\n".data ++ joinSep "\n".data (l2 :: rest2) = _
        simp
      rw [hjoin, splitOnChar_append]
      · rw [ih (fun l hl => h l (List.mem_cons_of_mem _ hl)) (by simp)]
      · have ha := h a (List.mem_cons_self _ _)
        intro c hc
        have := List.all_eq_true.mp ha c hc
        simpa using this

theorem findMarker_skipLine (l b : Str) (h : noNlB l = true) :
    findMarker (l ++ b) = (findMarker b).map (· + l.length) := by
  induction l with
  | nil =>
    cases hb : findMarker b <;> simp [hb]
  | cons c t ih =>
    have hc : (c == '\n') = false := by
      have := List.all_eq_true.mp h c (List.mem_cons_self _ _)
      simpa using this
    have ht : noNlB t = true := by
      refine List.all_eq_true.mpr (fun x hx => List.all_eq_true.mp h x (List.mem_cons_of_mem _ hx))
    have hss : strStarts (c :: (t ++ b)) "\n---".data = false := by
      simp [strStarts, hc]
    show findMarker (c :: (t ++ b)) = _
    rw [findMarker]
    simp only [hss, Bool.false_eq_true, if_false]
    rw [ih ht]
    cases findMarker b <;> simp <;> omega

theorem findMarker_marker (b : Str) :
    findMarker ('\n' :: '-' :: '-' :: '-' :: b) = some 0 := by
  rw [findMarker]
  simp [strStarts]

theorem joinSep_cons_shape (l2 : Str) (rest : List Str) (x : Str) :
    joinSep "\n".data (l2 :: rest) ++ '\n' :: x
      = l2 ++ (match rest with
               | [] => '\n' :: x
               | l3 :: rest3 => '\n' :: (joinSep "\n".data (l3 :: rest3) ++ '\n' :: x)) := by
  cases rest with
  | nil => rfl
  | cons l3 rest3 =>
    show (l2 ++ "\n".data ++ joinSep "\n".data (l3 :: rest3)) ++ '\n' :: x = _
    simp

theorem joinSep_head_not_dash (l2 : Str) (rest : List Str) (x : Str)
    (h2 : strStarts l2 "-".data = false) :
    strStarts (joinSep "\n".data (l2 :: rest) ++ '\n' :: x) "---".data = false := by
  rw [joinSep_cons_shape]
  cases l2 with
  | nil =>
    cases rest with
    | nil => rfl
    | cons l3 rest3 => rfl
  | cons c t =>
    have hc : (c == '-') = false := by
      cases hcc : c == '-'
      · rfl
      · exfalso
        have hst : strStarts (c :: t) "-".data = true := by
          show (c == '-' && strStarts t []) = true
          rw [hcc, strStarts_nil]
          rfl
        rw [hst] at h2
        cases h2
    simp [strStarts, hc]

theorem findMarker_join (lines : List Str) (hg : ∀ l ∈ lines, goodLine l = true)
    (hne : lines ≠ []) (b : Str) :
    findMarker (joinSep "\n".data lines ++ '\n' :: '-' :: '-' :: '-' :: b)
      = some (joinSep "\n".data lines).length := by
  induction lines with
  | nil => exact absurd rfl hne
  | cons a rest ih =>
    have ha := hg a (List.mem_cons_self _ _)
    have hanl : noNlB a = true := (Bool.and_eq_true _ _ |>.mp ha).1
    cases rest with
    | nil =>
      show findMarker (a ++ '\n' :: '-' :: '-' :: '-' :: b) = some a.length
      rw [findMarker_skipLine a _ hanl, findMarker_marker]
      simp
    | cons l2 rest2 =>
      have hjoin : joinSep "\n".data (a :: l2 :: rest2) = a ++ '\n' :: joinSep "\n".data (l2 :: rest2) := by
        show a ++ "\n".data ++ joinSep "\n".data (l2 :: rest2) = _
        simp
      rw [hjoin]
      have hl2 := hg l2 (List.mem_cons_of_mem _ (List.mem_cons_self _ _))
      have hl2d : strStarts l2 "-".data = false := by
        have := (Bool.and_eq_true _ _ |>.mp hl2).2
        cases hss : strStarts l2 "-".data
        · rfl
        · rw [hss] at this; simpa using this
      have hnd := joinSep_head_not_dash l2 rest2 ('-' :: '-' :: '-' :: b) hl2d
      have hmid : findMarker ('\n' :: (joinSep "\n".data (l2 :: rest2) ++ '\n' :: '-' :: '-' :: '-' :: b))
          = some ((joinSep "\n".data (l2 :: rest2)).length + 1) := by
        rw [findMarker]
        have hss : strStarts ('\n' :: (joinSep "\n".data (l2 :: rest2) ++ '\n' :: '-' :: '-' :: '-' :: b)) "\n---".data = false := by
          show (('\n' : Char) == '\n' && strStarts _ "---".data) = false
          rw [hnd]
          simp
        simp only [hss, Bool.false_eq_true, if_false]
        rw [ih (fun l hl => hg l (List.mem_cons_of_mem _ hl)) (by simp)]
        rfl
      have hassoc : a ++ '\n' :: joinSep "\n".data (l2 :: rest2) ++ '\n' :: '-' :: '-' :: '-' :: b
          = a ++ ('\n' :: (joinSep "\n".data (l2 :: rest2) ++ '\n' :: '-' :: '-' :: '-' :: b)) := by
        simp
      rw [hassoc, findMarker_skipLine a _ hanl, hmid]
      simp only [Option.map_some]
      congr 1
      simp [List.length_append]
      omega

theorem extractFM_roundtrip (lines : List Str) (hg : ∀ l ∈ lines, goodLine l = true)
    (hne : lines ≠ []) (b : Str) :
    extractFM ('-' :: '-' :: '-' :: '\n' :: (joinSep "\n".data lines ++ '\n' :: '-' :: '-' :: '-' :: '\n' :: b))
      = some (joinSep "\n".data lines) := by
  unfold extractFM
  rw [if_pos (by simp [strStarts])]
  have hdrop : ('-' :: '-' :: '-' :: '\n' :: (joinSep "\n".data lines ++ '\n' :: '-' :: '-' :: '-' :: '\n' :: b)).drop 4
      = joinSep "\n".data lines ++ '\n' :: '-' :: '-' :: '-' :: '\n' :: b := rfl
  rw [hdrop, findMarker_join lines hg hne ('\n' :: b)]
  simp only []
  congr 1
  exact List.take_left _ _

theorem parseFrontmatter_shape (lines : List Str) (hg : ∀ l ∈ lines, goodLine l = true)
    (hne : lines ≠ []) (b : Str) :
    parseFrontmatter ('-' :: '-' :: '-' :: '\n' :: (joinSep "\n".data lines ++ '\n' :: '-' :: '-' :: '-' :: '\n' :: b))
      = pfLoopF (lines.length + 1) lines [] := by
  unfold parseFrontmatter
  rw [extractFM_roundtrip lines hg hne b]
  have hjl : ∀ l ∈ lines, noNlB l = true :=
    fun l hl => (Bool.and_eq_true _ _ |>.mp (hg l hl)).1
  simp only [splitJoin lines hjl hne]


/-! ## Round-trip support: inline arrays and the block mapping loop -/

theorem keyChar_ne (c : Char) (h : isKeyChar c = true) :
    c ≠ ',' ∧ c ≠ '\n' ∧ c ≠ ':' ∧ c ≠ '[' ∧ c ≠ ']' := by
  simp only [isKeyChar, isWordChar, Bool.or_eq_true, beq_iff_eq] at h
  rcases h with (((h | h) | rfl) | rfl) | rfl
  · refine ⟨?_, ?_, ?_, ?_, ?_⟩ <;> intro heq <;> subst heq <;> revert h <;> decide
  · refine ⟨?_, ?_, ?_, ?_, ?_⟩ <;> intro heq <;> subst heq <;> revert h <;> decide
  · exact ⟨by decide, by decide, by decide, by decide, by decide⟩
  · exact ⟨by decide, by decide, by decide, by decide, by decide⟩
  · exact ⟨by decide, by decide, by decide, by decide, by decide⟩

theorem splitOnChar_ne_nil (sep : Char) (s : Str) : splitOnChar sep s ≠ [] := by
  cases s with
  | nil => simp [splitOnChar]
  | cons c rest =>
    by_cases hc : (c == sep) = true
    · simp [splitOnChar, hc]
    · rw [splitOnChar, if_neg (by rw [eq_false_of_ne_true hc]; simp)]
      cases splitOnChar sep rest <;> simp

theorem trim_safeKey (s : Str) (h : SafeKeyB s = true) : trim s = s :=
  trim_eq_self_of s (Or.inr (SafeKey_head_not_ws s h)) (Or.inr (SafeKey_last_not_ws s h))

theorem splitTrim_join : ∀ (ids : List Str), ids ≠ [] →
    (∀ i ∈ ids, SafeKeyB i = true) →
    (splitOnChar ',' (joinSep ", ".data ids)).map trim = ids := by
  intro ids
  induction ids with
  | nil => intro h; exact absurd rfl h
  | cons a rest ih =>
    intro _ hsafe
    have hak := hsafe a (List.mem_cons_self _ _)
    have hafree : ∀ c ∈ a, (c == ',') = false := by
      intro c hc
      exact beq_eq_false_iff_ne.mpr (keyChar_ne c ((SafeKeyB_facts a hak).2.1 c hc)).1
    cases rest with
    | nil =>
      show (splitOnChar ',' a).map trim = [a]
      rw [splitOnChar_sepfree ',' a hafree]
      simp [trim_safeKey a hak]
    | cons b rest2 =>
      have hjoin : joinSep ", ".data (a :: b :: rest2)
          = a ++ ',' :: ' ' :: joinSep ", ".data (b :: rest2) := by
        show a ++ ", ".data ++ joinSep ", ".data (b :: rest2) = _
        simp
      rw [hjoin, splitOnChar_append ',' a _ hafree]
      obtain ⟨r, rs, hsplit⟩ : ∃ r rs, splitOnChar ',' (joinSep ", ".data (b :: rest2)) = r :: rs := by
        cases hs : splitOnChar ',' (joinSep ", ".data (b :: rest2)) with
        | nil => exact absurd hs (splitOnChar_ne_nil _ _)
        | cons r rs => exact ⟨r, rs, rfl⟩
      have hsp2 : splitOnChar ',' (' ' :: joinSep ", ".data (b :: rest2)) = (' ' :: r) :: rs := by
        rw [splitOnChar, if_neg (by decide), hsplit]
      rw [hsp2]
      have hih := ih (by simp) (fun i hi => hsafe i (List.mem_cons_of_mem _ hi))
      rw [hsplit] at hih
      simp only [List.map_cons] at hih ⊢
      rw [trim_safeKey a hak, trim_cons_ws ' ' r (by decide)]
      rw [List.cons.injEq] at hih
      rw [hih.1, hih.2]

theorem parseInlineArr_inlineArr (ids : List Str) (hne : ids ≠ [])
    (hsafe : ∀ i ∈ ids, SafeKeyB i = true) :
    parseInlineArr (inlineArr ids) = .arr (ids.map Value.str) := by
  unfold parseInlineArr inlineArr dropOuter
  have hshape : ("[".data ++ joinSep ", ".data ids ++ "]".data : Str)
      = '[' :: (joinSep ", ".data ids ++ [']']) := by simp
  rw [hshape]
  have hdrop : (('[' :: (joinSep ", ".data ids ++ [']']) : Str).drop 1).dropLast
      = joinSep ", ".data ids := by
    rw [List.drop_one, List.tail_cons, List.dropLast_concat]
  rw [hdrop]
  rw [show (fun s => Value.str (trim s)) = Value.str ∘ trim from rfl, ← List.map_map]
  rw [splitTrim_join ids hne hsafe]


/-- The value the block-mapping loop parses from one rendered entry value. -/
def mapParse (pv : Str) : Value :=
  if strStarts pv "[".data && strEnds pv "]".data then parseInlineArr pv else parseValue pv

/-- Safety of one rendered block-mapping entry: a safe key and a nonempty
whitespace-stable value string that parses to the intended value. -/
def entryOk (e : Str × Str × Value) : Prop :=
  SafeKeyB e.1 = true ∧ e.2.1 ≠ [] ∧ isWsChar (e.2.1.headD ' ') = false ∧
  isWsChar (e.2.1.reverse.headD ' ') = false ∧ mapParse e.2.1 = e.2.2

theorem mapPropsF_run : ∀ (entries : List (Str × Str × Value)) (f : Nat) (after : List Str)
    (obj : List (Str × Value)),
    (∀ e ∈ entries, entryOk e) →
    (entries.map (fun e => e.1)).Nodup →
    (∀ e ∈ entries, jsGet obj e.1 = none) →
    entries.length ≤ f → stops2 after →
    mapPropsF f (entries.map (fun e => "  ".data ++ (e.1 ++ ':' :: ' ' :: e.2.1)) ++ after) obj
      = (obj ++ entries.map (fun e => (e.1, e.2.2)), after) := by
  intro entries
  induction entries with
  | nil =>
    intro f after obj hok hnd hfresh hf h2
    simp only [List.map_nil, List.nil_append, List.append_nil]
    exact mapPropsF_stop after h2 f obj
  | cons e rest ih =>
    intro f after obj hok hnd hfresh hf h2
    cases f with
    | zero => simp at hf
    | succ f =>
      obtain ⟨hek, hene, hehead, helast, heparse⟩ := hok e (List.mem_cons_self _ _)
      obtain ⟨c, t, hk2⟩ : ∃ c t, e.1 = c :: t := by
        cases hke : e.1 with
        | nil => rw [hke] at hek; simp [SafeKeyB] at hek
        | cons c t => exact ⟨c, t, rfl⟩
      have hwc : isWordChar c = true := by
        have := (SafeKeyB_facts _ hek).2.2
        rw [hk2] at this
        simpa using this
      have htrim : trim ("  ".data ++ (e.1 ++ ':' :: ' ' :: e.2.1)) = e.1 ++ ':' :: ' ' :: e.2.1 := by
        refine trim_indent_line "  ".data e.1 (':' :: ' ' :: e.2.1) (by decide)
          (SafeKeyB_facts _ hek).1 (SafeKey_head_not_ws _ hek) (by simp) ?_
        rw [show (':' :: ' ' :: e.2.1 : Str) = [':', ' '] ++ e.2.1 from rfl,
          reverse_headD_append [':', ' '] e.2.1 hene]
        exact helast
      have hstart : strStarts ("  ".data ++ (e.1 ++ ':' :: ' ' :: e.2.1)) "  ".data = true :=
        strStarts_append_self "  ".data _
      have hdash : strStarts (trim ("  ".data ++ (e.1 ++ ':' :: ' ' :: e.2.1))) "-".data = false := by
        rw [htrim, hk2]
        exact strStarts_false_of_head c _ '-' _
          (beq_eq_false_iff_ne.mpr (wordChar_ne c hwc).2.2.2.1)
      rw [List.map_cons, List.cons_append, mapPropsF]
      rw [if_neg (by rw [hstart, hdash]; simp)]
      rw [htrim]
      have hmkv : matchKeyVal (e.1 ++ ':' :: ' ' :: e.2.1) = some (e.1, e.2.1) := by
        rw [matchKeyVal_keyline e.1 (' ' :: e.2.1) hek]
        have : (' ' :: e.2.1).dropWhile isWsChar = e.2.1 := by
          rw [show (' ' :: e.2.1).dropWhile isWsChar = e.2.1.dropWhile isWsChar from rfl]
          exact dropWhile_eq_self_of e.2.1 (Or.inr hehead)
        rw [this]
      rw [hmkv]
      dsimp only []
      have hobj2 : (if (strStarts e.2.1 "[".data && strEnds e.2.1 "]".data) = true
          then jsSet obj e.1 (parseInlineArr e.2.1)
          else jsSet obj e.1 (parseValue e.2.1)) = obj ++ [(e.1, e.2.2)] := by
        rw [← heparse]
        unfold mapParse
        by_cases hc : (strStarts e.2.1 "[".data && strEnds e.2.1 "]".data) = true
        · rw [if_pos hc, if_pos hc]
          exact jsSet_fresh obj e.1 _ (hfresh e (List.mem_cons_self _ _))
        · rw [if_neg hc, if_neg hc]
          exact jsSet_fresh obj e.1 _ (hfresh e (List.mem_cons_self _ _))
      rw [hobj2]
      have hndr : (rest.map (fun e => e.1)).Nodup := (List.nodup_cons.mp hnd).2
      have hnotin : e.1 ∉ rest.map (fun e => e.1) := (List.nodup_cons.mp hnd).1
      have hfresh2 : ∀ e2 ∈ rest, jsGet (obj ++ [(e.1, e.2.2)]) e2.1 = none := by
        intro e2 he2
        rw [jsGet_append_right _ _ _ (hfresh e2 (List.mem_cons_of_mem _ he2))]
        have hne12 : (e.1 == e2.1) = false := by
          refine beq_eq_false_iff_ne.mpr ?_
          intro heq
          exact hnotin (heq ▸ List.mem_map_of_mem (fun e => e.1) he2)
        rw [jsGet, if_neg (by rw [hne12]; simp)]
        rfl
      rw [ih f after (obj ++ [(e.1, e.2.2)])
        (fun e2 he2 => hok e2 (List.mem_cons_of_mem _ he2)) hndr hfresh2
        (by simp at hf; omega) h2]
      simp


/-! ## Round-trip support: top-level block header steps -/

theorem subtaskLines_flat_len (sts : List Subtask) :
    (sts.flatMap subtaskLines).length = 3 * sts.length := by
  induction sts with
  | nil => rfl
  | cons st rest ih =>
    simp only [List.flatMap_cons, List.length_append, ih, subtaskLines, List.length_cons,
      List.length_nil]
    omega

theorem topSubtasksStep (f : Nat) (sts : List Subtask) (after : List Str)
    (acc : List (Str × Value)) (hne : sts ≠ [])
    (hsafe : ∀ st ∈ sts, SafeValB st.id = true ∧ SafeValB st.title = true)
    (h4 : stops4 after) (hd : stopsDash after) :
    pfLoopF (f + 1) ("subtasks:".data :: (sts.flatMap subtaskLines ++ after)) acc
      = pfLoopF f after (jsSet acc "subtasks".data (.arr (sts.map subVal))) := by
  obtain ⟨st, sts2, hsts⟩ : ∃ st sts2, sts = st :: sts2 := by
    cases sts with
    | nil => exact absurd rfl hne
    | cons st sts2 => exact ⟨st, sts2, rfl⟩
  have hsidk := SafeValB_key _ (hsafe st (by rw [hsts]; exact List.mem_cons_self _ _)).1
  have hsidf := SafeKeyB_facts _ hsidk
  have hflat : sts.flatMap subtaskLines ++ after
      = ("  - id: ".data ++ st.id) :: (("    title: ".data ++ st.title)
        :: ("    completed: ".data ++ (if st.completed then "true".data else "false".data))
        :: (sts2.flatMap subtaskLines ++ after)) := by
    rw [hsts]
    simp [subtaskLines]
  have htrim1 : trim ("  - id: ".data ++ st.id) = "- id: ".data ++ st.id := by
    have := trim_indent_line "  ".data "- id: ".data st.id (by decide) (by decide) (by decide)
      hsidf.1 (SafeKey_last_not_ws _ hsidk)
    simpa using this
  simp only [pfLoopF]
  rw [show trim "subtasks:".data = "subtasks:".data by decide]
  rw [show ("subtasks:".data : Str).isEmpty = false by decide]
  rw [show matchKeyVal "subtasks:".data = some ("subtasks".data, []) by decide]
  simp only [Bool.false_eq_true, if_false]
  rw [hflat]
  rw [if_neg (by decide), if_pos (by decide)]
  try dsimp only []
  rw [if_pos (by rw [htrim1]; rfl)]
  try dsimp only []
  have hflen := subtaskLines_flat_len sts2
  have hstslen : sts.length = sts2.length + 1 := by rw [hsts]; rfl
  have harr := arrayItemsF_subtasks sts
    ((("  - id: ".data ++ st.id) :: ("    title: ".data ++ st.title)
      :: ("    completed: ".data ++ (if st.completed then "true".data else "false".data))
      :: (sts2.flatMap subtaskLines ++ after))).length after []
    hsafe
    (by simp only [List.length_cons, List.length_append, hflen, hstslen]; omega) h4 hd
  rw [hflat] at harr
  rw [harr]
  simp

theorem topMapStep (f : Nat) (key : Str) (entries : List (Str × Str × Value))
    (after : List Str) (acc : List (Str × Value)) (hkey : SafeKeyB key = true)
    (hne : entries ≠ []) (hok : ∀ e ∈ entries, entryOk e)
    (hnd : (entries.map (fun e => e.1)).Nodup) (h2 : stops2 after) :
    pfLoopF (f + 1) ((key ++ [':'])
        :: (entries.map (fun e => "  ".data ++ (e.1 ++ ':' :: ' ' :: e.2.1)) ++ after)) acc
      = pfLoopF f after (jsSet acc key (.obj (entries.map (fun e => (e.1, e.2.2))))) := by
  obtain ⟨e, es, hes⟩ : ∃ e es, entries = e :: es := by
    cases entries with
    | nil => exact absurd rfl hne
    | cons e es => exact ⟨e, es, rfl⟩
  obtain ⟨hek, hene, hehead, helast, heparse⟩ := hok e (by rw [hes]; exact List.mem_cons_self _ _)
  obtain ⟨c, t, hk2⟩ : ∃ c t, e.1 = c :: t := by
    cases hke : e.1 with
    | nil => rw [hke] at hek; simp [SafeKeyB] at hek
    | cons c t => exact ⟨c, t, rfl⟩
  have hwc : isWordChar c = true := by
    have := (SafeKeyB_facts _ hek).2.2
    rw [hk2] at this
    simpa using this
  have htrim0 : trim (key ++ [':']) = key ++ [':'] := by
    refine trim_eq_self_of _ (Or.inr ?_) (Or.inr ?_)
    · obtain ⟨ck, tk, hck⟩ : ∃ ck tk, key = ck :: tk := by
        cases hke : key with
        | nil => rw [hke] at hkey; simp [SafeKeyB] at hkey
        | cons ck tk => exact ⟨ck, tk, rfl⟩
      have := SafeKey_head_not_ws key hkey
      rw [hck] at this ⊢
      simpa using this
    · rw [reverse_headD_append key [':'] (by simp)]
      decide
  have htrim1 : trim ("  ".data ++ (e.1 ++ ':' :: ' ' :: e.2.1)) = e.1 ++ ':' :: ' ' :: e.2.1 := by
    refine trim_indent_line "  ".data e.1 (':' :: ' ' :: e.2.1) (by decide)
      (SafeKeyB_facts _ hek).1 (SafeKey_head_not_ws _ hek) (by simp) ?_
    rw [show (':' :: ' ' :: e.2.1 : Str) = [':', ' '] ++ e.2.1 from rfl,
      reverse_headD_append [':', ' '] e.2.1 hene]
    exact helast
  have hkeyne : key ++ [':'] ≠ [] := by
    intro hx
    exact absurd (List.append_eq_nil.mp hx).2 (by simp)
  simp only [pfLoopF]
  rw [htrim0, isEmpty_false_of_ne_nil hkeyne]
  rw [show (key ++ [':'] : Str) = key ++ ':' :: [] from rfl, matchKeyVal_keyline key [] hkey]
  simp only [Bool.false_eq_true, if_false]
  rw [hes]
  simp only [List.map_cons, List.cons_append]
  rw [if_neg (by decide), if_pos (by decide)]
  try dsimp only []
  try simp only [List.nil_append]
  have hdash1c : strStarts (trim (' ' :: ' ' :: (e.1 ++ ':' :: ' ' :: e.2.1))) ['-', ' '] = false := by
    have h0 : trim (' ' :: ' ' :: (e.1 ++ ':' :: ' ' :: e.2.1)) = e.1 ++ ':' :: ' ' :: e.2.1 := htrim1
    rw [h0, hk2]
    exact strStarts_false_of_head c _ '-' _
      (beq_eq_false_iff_ne.mpr (wordChar_ne c hwc).2.2.2.1)
  have hdash2c : strStarts (trim (' ' :: ' ' :: (e.1 ++ ':' :: ' ' :: e.2.1))) ['-'] = false := by
    have h0 : trim (' ' :: ' ' :: (e.1 ++ ':' :: ' ' :: e.2.1)) = e.1 ++ ':' :: ' ' :: e.2.1 := htrim1
    rw [h0, hk2]
    exact strStarts_false_of_head c _ '-' _
      (beq_eq_false_iff_ne.mpr (wordChar_ne c hwc).2.2.2.1)
  have hstart2 : strStarts (' ' :: ' ' :: (e.1 ++ ':' :: ' ' :: e.2.1)) [' ', ' '] = true := by
    show (' ' == ' ' && (' ' == ' ' && strStarts (e.1 ++ ':' :: ' ' :: e.2.1) [])) = true
    rw [strStarts_nil]
    rfl
  rw [if_neg (by rw [hdash1c]; simp)]
  rw [if_pos (by rw [hstart2, hdash2c]; rfl)]
  try dsimp only []
  try simp only [List.nil_append]
  have hrun := mapPropsF_run entries
    ((' ' :: ' ' :: (e.1 ++ ':' :: ' ' :: e.2.1))
      :: (es.map (fun e => "  ".data ++ (e.1 ++ ':' :: ' ' :: e.2.1)) ++ after)).length
    after [] hok hnd (fun e2 he2 => rfl)
    (by rw [hes]
        simp only [List.length_cons, List.length_append, List.length_map]
        omega) h2
  rw [hes] at hrun
  simp only [List.map_cons, List.cons_append, List.nil_append] at hrun
  try simp only [List.map_cons, List.cons_append, List.nil_append]
  rw [hrun]
  try simp


/-! ## Round-trip support: the serialized block entries and their safety -/

theorem headD_mem (s : Str) (h : s ≠ []) : s.headD ' ' ∈ s := by
  cases s with
  | nil => exact absurd rfl h
  | cons c t => exact List.mem_cons_self _ _

theorem intToStr_facts (i : Int) : intToStr i ≠ [] ∧
    isWsChar ((intToStr i).headD ' ') = false ∧
    isWsChar ((intToStr i).reverse.headD ' ') = false ∧
    strStarts (intToStr i) "[".data = false := by
  have hn := natToStr_spec i.natAbs
  by_cases h : i < 0
  · rw [intToStr, if_pos h]
    refine ⟨by simp, by rw [List.headD_cons]; decide, ?_, ?_⟩
    · cases hrev : (natToStr i.natAbs).reverse with
      | nil => exact absurd (by simpa using hrev) hn.1
      | cons c r =>
        have hcs : c ∈ natToStr i.natAbs :=
          List.mem_reverse.mp (by rw [hrev]; exact List.mem_cons_self _ _)
        have : ('-' :: natToStr i.natAbs).reverse = c :: (r ++ ['-']) := by
          rw [List.reverse_cons, hrev]; rfl
        rw [this, List.headD_cons]
        exact digit_not_ws c (hn.2.1 c hcs)
    · exact strStarts_false_of_head '-' _ '[' _ (by decide)
  · rw [intToStr, if_neg h]
    have hd := hn.2.1 _ (headD_mem _ hn.1)
    have hdr := hn.2.1 _ (mem_head_reverse _ hn.1)
    refine ⟨hn.1, digit_not_ws _ hd, digit_not_ws _ hdr, ?_⟩
    cases hns : natToStr i.natAbs with
    | nil => exact absurd hns hn.1
    | cons c t =>
      have hc : c.isDigit = true := hn.2.1 c (by rw [hns]; exact List.mem_cons_self _ _)
      exact strStarts_false_of_head c _ '[' _ (digit_ne_ch c '[' hc (by decide))

theorem mapParse_num (n : Int) : mapParse (intToStr n) = .num n := by
  unfold mapParse
  rw [if_neg (by rw [(intToStr_facts n).2.2.2]; simp)]
  exact parseValue_intToStr n

theorem inlineArr_shape (ids : List Str) :
    inlineArr ids = '[' :: (joinSep ", ".data ids ++ [']']) := by
  show "[".data ++ joinSep ", ".data ids ++ "]".data = _
  simp

theorem inlineArr_facts (ids : List Str) : inlineArr ids ≠ [] ∧
    isWsChar ((inlineArr ids).headD ' ') = false ∧
    isWsChar ((inlineArr ids).reverse.headD ' ') = false ∧
    (strStarts (inlineArr ids) "[".data && strEnds (inlineArr ids) "]".data) = true := by
  rw [inlineArr_shape]
  refine ⟨by simp, by rw [List.headD_cons]; decide, ?_, ?_⟩
  · rw [List.reverse_cons, List.reverse_append]
    show isWsChar ']' = false
    decide
  · refine (Bool.and_eq_true _ _).mpr ⟨?_, ?_⟩
    · show ('[' == '[' && strStarts (joinSep ", ".data ids ++ [']']) []) = true
      rw [strStarts_nil]
      rfl
    · show strStarts ('[' :: (joinSep ", ".data ids ++ [']'])).reverse [']'] = true
      rw [List.reverse_cons, List.reverse_append]
      rw [show ([']'] : Str).reverse = [']'] from rfl]
      show (']' == ']' && strStarts ((joinSep ", ".data ids).reverse ++ ['[']) []) = true
      rw [strStarts_nil]
      rfl

theorem mapParse_inline (ids : List Str) (hne : ids ≠ [])
    (hsafe : ∀ i ∈ ids, SafeKeyB i = true) :
    mapParse (inlineArr ids) = .arr (ids.map Value.str) := by
  unfold mapParse
  rw [if_pos (inlineArr_facts ids).2.2.2]
  exact parseInlineArr_inlineArr ids hne hsafe

theorem entryOk_num (k : Str) (n : Int) (hk : SafeKeyB k = true) :
    entryOk (k, intToStr n, .num n) := by
  have hf := intToStr_facts n
  exact ⟨hk, hf.1, hf.2.1, hf.2.2.1, mapParse_num n⟩

theorem entryOk_inline (k : Str) (ids : List Str) (hk : SafeKeyB k = true)
    (hne : ids ≠ []) (hsafe : ∀ i ∈ ids, SafeKeyB i = true) :
    entryOk (k, inlineArr ids, .arr (ids.map Value.str)) := by
  have hf := inlineArr_facts ids
  exact ⟨hk, hf.1, hf.2.1, hf.2.2.1, mapParse_inline ids hne hsafe⟩

theorem entryOk_str (k v : Str) (hk : SafeKeyB k = true) (hv : SafeValB v = true) :
    entryOk (k, v, .str v) := by
  have hvk := SafeValB_key v hv
  have hvf := SafeKeyB_facts v hvk
  obtain ⟨c, t, hv2⟩ : ∃ c t, v = c :: t := by
    cases hvv : v with
    | nil => rw [hvv] at hvk; simp [SafeKeyB] at hvk
    | cons c t => exact ⟨c, t, rfl⟩
  refine ⟨hk, hvf.1, SafeKey_head_not_ws v hvk, SafeKey_last_not_ws v hvk, ?_⟩
  unfold mapParse
  rw [if_neg, SafeValB_parse v hv]
  rw [hv2]
  have hcw : isWordChar c = true := by
    have := hvf.2.2
    rw [hv2] at this
    simpa using this
  rw [strStarts_false_of_head c _ '[' _ (beq_eq_false_iff_ne.mpr (wordChar_ne c hcw).2.2.2.2.1)]
  simp

/-- The rendered entries of a daily/weekly subtask-completion map. -/
def cmEntries (m : List (Str × List Str)) : List (Str × Str × Value) :=
  m.map (fun p => (p.1, inlineArr p.2, .arr (p.2.map Value.str)))

/-- The rendered entries of a monthlyProgress map. -/
def moEntries (m : List (Str × Int)) : List (Str × Str × Value) :=
  m.map (fun p => (p.1, intToStr p.2, .num p.2))

/-- The rendered entries of a recurrence block, in serializer order. -/
def recEntries (r : Recurrence) : List (Str × Str × Value) :=
  ("frequency".data, r.frequency, .str r.frequency)
  :: ((match r.targetCount with
      | some n => [("targetCount".data, intToStr n, .num n)]
      | none => [])
  ++ (match r.minimumCount with
      | some n => [("minimumCount".data, intToStr n, .num n)]
      | none => [])
  ++ (match r.dayOfMonth with
      | some n => [("dayOfMonth".data, intToStr n, .num n)]
      | none => [])
  ++ (match r.daysOfWeek with
      | some l => if l.length > 0 then [("daysOfWeek".data, inlineArr l, .arr (l.map Value.str))] else []
      | none => []))

theorem completionMapLines_eq (m : List (Str × List Str)) (h : ∀ p ∈ m, p.2 ≠ []) :
    completionMapLines m
      = (cmEntries m).map (fun e => "  ".data ++ (e.1 ++ ':' :: ' ' :: e.2.1)) := by
  induction m with
  | nil => rfl
  | cons p rest ih =>
    have hp : p.2.length > 0 := List.length_pos.mpr (h p (List.mem_cons_self _ _))
    show (if p.2.length > 0 then ["  ".data ++ p.1 ++ ": ".data ++ inlineArr p.2] else [])
        ++ completionMapLines rest = _
    rw [if_pos hp, ih (fun q hq => h q (List.mem_cons_of_mem _ hq))]
    show ("  ".data ++ p.1 ++ ": ".data ++ inlineArr p.2)
        :: (cmEntries rest).map (fun e => "  ".data ++ (e.1 ++ ':' :: ' ' :: e.2.1)) = _
    unfold cmEntries
    simp

theorem monthlyLines_eq (m : List (Str × Int)) :
    monthlyLines m = (moEntries m).map (fun e => "  ".data ++ (e.1 ++ ':' :: ' ' :: e.2.1)) := by
  unfold monthlyLines moEntries
  rw [List.map_map]
  refine List.map_congr_left ?_
  intro p hp
  simp

theorem recurrenceLines_eq (r : Recurrence) :
    recurrenceLines r
      = "recurrence:".data
        :: (recEntries r).map (fun e => "  ".data ++ (e.1 ++ ':' :: ' ' :: e.2.1)) := by
  rcases r with ⟨fr, dow, dom, tc, mc⟩
  rcases tc with _ | n1 <;> rcases mc with _ | n2 <;> rcases dom with _ | n3 <;>
    rcases dow with _ | l <;>
    (try by_cases hl : l.length > 0) <;>
    simp [recurrenceLines, recEntries, *]


theorem cmEntries_ok (m : List (Str × List Str))
    (h : ∀ p ∈ m, SafeKeyB p.1 = true ∧ p.2 ≠ [] ∧ ∀ i ∈ p.2, SafeKeyB i = true) :
    ∀ e ∈ cmEntries m, entryOk e := by
  intro e he
  obtain ⟨p, hp, hpe⟩ := List.mem_map.mp he
  obtain ⟨h1, h2, h3⟩ := h p hp
  rw [← hpe]
  exact entryOk_inline p.1 p.2 h1 h2 h3

theorem cmEntries_keys (m : List (Str × List Str)) :
    (cmEntries m).map (fun e => e.1) = m.map Prod.fst := by
  simp [cmEntries]

theorem moEntries_ok (m : List (Str × Int)) (h : ∀ p ∈ m, SafeKeyB p.1 = true) :
    ∀ e ∈ moEntries m, entryOk e := by
  intro e he
  obtain ⟨p, hp, hpe⟩ := List.mem_map.mp he
  rw [← hpe]
  exact entryOk_num p.1 p.2 (h p hp)

theorem moEntries_keys (m : List (Str × Int)) :
    (moEntries m).map (fun e => e.1) = m.map Prod.fst := by
  simp [moEntries]

theorem recEntries_ok (r : Recurrence) (hfr : SafeValB r.frequency = true)
    (hdow : ∀ l, r.daysOfWeek = some l → l ≠ [] ∧ ∀ i ∈ l, SafeKeyB i = true) :
    ∀ e ∈ recEntries r, entryOk e := by
  intro e he
  unfold recEntries at he
  rcases List.mem_cons.mp he with rfl | he2
  · exact entryOk_str "frequency".data r.frequency (by decide) hfr
  · simp only [List.mem_append] at he2
    rcases he2 with ((h1 | h1) | h1) | h1
    · cases hv : r.targetCount with
      | none => rw [hv] at h1; exact absurd h1 (by simp)
      | some n =>
        rw [hv] at h1
        rcases List.mem_singleton.mp h1 with rfl
        exact entryOk_num _ n (by decide)
    · cases hv : r.minimumCount with
      | none => rw [hv] at h1; exact absurd h1 (by simp)
      | some n =>
        rw [hv] at h1
        rcases List.mem_singleton.mp h1 with rfl
        exact entryOk_num _ n (by decide)
    · cases hv : r.dayOfMonth with
      | none => rw [hv] at h1; exact absurd h1 (by simp)
      | some n =>
        rw [hv] at h1
        rcases List.mem_singleton.mp h1 with rfl
        exact entryOk_num _ n (by decide)
    · cases hv : r.daysOfWeek with
      | none => rw [hv] at h1; exact absurd h1 (by simp)
      | some l =>
        rw [hv] at h1
        have h1b : e ∈ (if l.length > 0
            then [("daysOfWeek".data, inlineArr l, Value.arr (l.map Value.str))] else []) := h1
        by_cases hl : l.length > 0
        · rw [if_pos hl] at h1b
          rcases List.mem_singleton.mp h1b with rfl
          obtain ⟨hlne, hls⟩ := hdow l hv
          exact entryOk_inline _ l (by decide) hlne hls
        · rw [if_neg hl] at h1b
          cases h1b

theorem recEntries_nodup (r : Recurrence) :
    ((recEntries r).map (fun e => e.1)).Nodup := by
  rcases r with ⟨fr, dow, dom, tc, mc⟩
  rcases tc with _ | n1 <;> rcases mc with _ | n2 <;> rcases dom with _ | n3 <;>
    rcases dow with _ | l <;> (try by_cases hl : l.length > 0) <;>
    simp only [recEntries] <;> (try rw [if_pos hl]) <;> (try rw [if_neg hl]) <;>
    simp only [List.map_cons, List.map_append, List.map_nil, List.nil_append,
      List.append_nil] <;> (try dsimp only []) <;> decide

theorem recEntries_ne_nil (r : Recurrence) : recEntries r ≠ [] := by
  unfold recEntries
  simp


theorem stops2_of_head (a : Str) (L : List Str) (h : strStarts a "  ".data = false) :
    stops2 (a :: L) := h

theorem stops4_of_head (a : Str) (L : List Str) (h : strStarts a "    ".data = false) :
    stops4 (a :: L) := h

theorem stopsDash_of_head (a : Str) (L : List Str) (h : strStarts (trim a) "- ".data = false) :
    stopsDash (a :: L) := h

theorem pfLoopF_serializeLines (g : Goal) (f : Nat)
    (sts : List Subtask) (dm wm : List (Str × List Str)) (mm : List (Str × Int))
    (r : Recurrence)
    (hsts : g.subtasks = some sts) (hstsne : sts ≠ [])
    (hsafe : ∀ st ∈ sts, SafeValB st.id = true ∧ SafeValB st.title = true)
    (hdm : g.dailySubtaskCompletions = some dm) (hdmne : dm ≠ [])
    (hdmok : ∀ p ∈ dm, SafeKeyB p.1 = true ∧ p.2 ≠ [] ∧ ∀ i ∈ p.2, SafeKeyB i = true)
    (hdmnd : (dm.map Prod.fst).Nodup)
    (hwm : g.weeklySubtaskCompletions = some wm) (hwmne : wm ≠ [])
    (hwmok : ∀ p ∈ wm, SafeKeyB p.1 = true ∧ p.2 ≠ [] ∧ ∀ i ∈ p.2, SafeKeyB i = true)
    (hwmnd : (wm.map Prod.fst).Nodup)
    (hmm : g.monthlyProgress = some mm) (hmmne : mm ≠ [])
    (hmmok : ∀ p ∈ mm, SafeKeyB p.1 = true) (hmmnd : (mm.map Prod.fst).Nodup)
    (hr : g.recurrence = some r) (hfr : SafeValB r.frequency = true)
    (hdow : ∀ l, r.daysOfWeek = some l → l ≠ [] ∧ ∀ i ∈ l, SafeKeyB i = true) :
    ∃ w1 w2 w3 w4 w5 w6 w12,
    pfLoopF (f + 12) (serializeLines g) []
      = [("type".data, w1), ("status".data, w2), ("startDate".data, w3),
         ("endDate".data, w4), ("priority".data, w5), ("completions".data, w6),
         ("subtasks".data, .arr (sts.map subVal)),
         ("dailySubtaskCompletions".data, .obj ((cmEntries dm).map (fun e => (e.1, e.2.2)))),
         ("weeklySubtaskCompletions".data, .obj ((cmEntries wm).map (fun e => (e.1, e.2.2)))),
         ("monthlyProgress".data, .obj ((moEntries mm).map (fun e => (e.1, e.2.2)))),
         ("recurrence".data, .obj ((recEntries r).map (fun e => (e.1, e.2.2)))),
         ("tags".data, w12)] := by
  have htags : (if g.tags.length > 0 then "tags: ".data ++ inlineArr g.tags
      else "tags: []".data)
      = "tags".data ++ ':' :: (if g.tags.length > 0 then ' ' :: inlineArr g.tags
        else [' ', '[', ']']) := by
    by_cases hc : g.tags.length > 0
    · rw [if_pos hc, if_pos hc]
      rfl
    · rw [if_neg hc, if_neg hc]
      rfl
  unfold serializeLines
  rw [hsts, hdm, hwm, hmm, hr]
  dsimp only []
  rw [if_pos (List.length_pos.mpr hstsne), if_pos (List.length_pos.mpr hdmne),
    if_pos (List.length_pos.mpr hwmne), if_pos (List.length_pos.mpr hmmne)]
  rw [completionMapLines_eq dm (fun p hp => (hdmok p hp).2.1),
    completionMapLines_eq wm (fun p hp => (hwmok p hp).2.1),
    monthlyLines_eq mm, recurrenceLines_eq r, htags]
  simp only [List.append_assoc, List.cons_append, List.nil_append]
  rw [show (fun e : Str × Str × Value => ' ' :: ' ' :: (e.1 ++ ':' :: ' ' :: e.2.1))
      = (fun e : Str × Str × Value => "  ".data ++ (e.1 ++ ':' :: ' ' :: e.2.1)) from rfl]
  have hst2 := keyline_topstop "status".data (' ' :: g.status) (by decide)
  have hstop2 : ∀ L : List Str,
      topStop (('s' :: 't' :: 'a' :: 't' :: 'u' :: 's' :: ':' :: ' ' :: g.status) :: L) :=
    fun L => ⟨hst2.1, hst2.2.1⟩
  have hst3 := keyline_topstop "startDate".data (' ' :: g.startDate) (by decide)
  have hstop3 : ∀ L : List Str,
      topStop (('s' :: 't' :: 'a' :: 'r' :: 't' :: 'D' :: 'a' :: 't' :: 'e' :: ':' :: ' ' :: g.startDate) :: L) :=
    fun L => ⟨hst3.1, hst3.2.1⟩
  have hst4 := keyline_topstop "endDate".data (' ' :: g.endDate) (by decide)
  have hstop4 : ∀ L : List Str,
      topStop (('e' :: 'n' :: 'd' :: 'D' :: 'a' :: 't' :: 'e' :: ':' :: ' ' :: g.endDate) :: L) :=
    fun L => ⟨hst4.1, hst4.2.1⟩
  have hst5 := keyline_topstop "priority".data (' ' :: g.priority) (by decide)
  have hstop5 : ∀ L : List Str,
      topStop (('p' :: 'r' :: 'i' :: 'o' :: 'r' :: 'i' :: 't' :: 'y' :: ':' :: ' ' :: g.priority) :: L) :=
    fun L => ⟨hst5.1, hst5.2.1⟩
  have hst6 := keyline_topstop "completions".data (' ' :: inlineArr g.completions) (by decide)
  have hstop6 : ∀ L : List Str,
      topStop (('c' :: 'o' :: 'm' :: 'p' :: 'l' :: 'e' :: 't' :: 'i' :: 'o' :: 'n' :: 's' :: ':' :: ' ' :: inlineArr g.completions) :: L) :=
    fun L => ⟨hst6.1, hst6.2.1⟩
  have hstop7 : ∀ L : List Str, topStop ((['s', 'u', 'b', 't', 'a', 's', 'k', 's', ':'] : Str) :: L) :=
    fun L => ⟨stops2_of_head _ _ (by decide), stopsDash_of_head _ _ (by decide)⟩
  rw [show (f + 12 : Nat) = (f + 11) + 1 from rfl,
    show ('t' :: 'y' :: 'p' :: 'e' :: ':' :: ' ' :: g.type : Str)
      = "type".data ++ ':' :: ' ' :: g.type from rfl,
    topScalarStep (f + 11) "type".data (' ' :: g.type) _ [] (by decide) (hstop2 _)]
  rw [show (f + 11 : Nat) = (f + 10) + 1 from rfl,
    show ('s' :: 't' :: 'a' :: 't' :: 'u' :: 's' :: ':' :: ' ' :: g.status : Str)
      = "status".data ++ ':' :: ' ' :: g.status from rfl,
    topScalarStep (f + 10) "status".data (' ' :: g.status) _ _ (by decide) (hstop3 _)]
  rw [show (f + 10 : Nat) = (f + 9) + 1 from rfl,
    show ('s' :: 't' :: 'a' :: 'r' :: 't' :: 'D' :: 'a' :: 't' :: 'e' :: ':' :: ' ' :: g.startDate : Str)
      = "startDate".data ++ ':' :: ' ' :: g.startDate from rfl,
    topScalarStep (f + 9) "startDate".data (' ' :: g.startDate) _ _ (by decide) (hstop4 _)]
  rw [show (f + 9 : Nat) = (f + 8) + 1 from rfl,
    show ('e' :: 'n' :: 'd' :: 'D' :: 'a' :: 't' :: 'e' :: ':' :: ' ' :: g.endDate : Str)
      = "endDate".data ++ ':' :: ' ' :: g.endDate from rfl,
    topScalarStep (f + 8) "endDate".data (' ' :: g.endDate) _ _ (by decide) (hstop5 _)]
  rw [show (f + 8 : Nat) = (f + 7) + 1 from rfl,
    show ('p' :: 'r' :: 'i' :: 'o' :: 'r' :: 'i' :: 't' :: 'y' :: ':' :: ' ' :: g.priority : Str)
      = "priority".data ++ ':' :: ' ' :: g.priority from rfl,
    topScalarStep (f + 7) "priority".data (' ' :: g.priority) _ _ (by decide) (hstop6 _)]
  rw [show (f + 7 : Nat) = (f + 6) + 1 from rfl,
    show ('c' :: 'o' :: 'm' :: 'p' :: 'l' :: 'e' :: 't' :: 'i' :: 'o' :: 'n' :: 's' :: ':' :: ' ' :: inlineArr g.completions : Str)
      = "completions".data ++ ':' :: ' ' :: inlineArr g.completions from rfl,
    topScalarStep (f + 6) "completions".data (' ' :: inlineArr g.completions) _ _ (by decide) (hstop7 _)]
  rw [show (f + 6 : Nat) = (f + 5) + 1 from rfl,
    show ((['s', 'u', 'b', 't', 'a', 's', 'k', 's', ':'] : Str)) = "subtasks:".data from rfl,
    topSubtasksStep (f + 5) sts _ _ hstsne hsafe (stops4_of_head _ _ (by decide))
      (stopsDash_of_head _ _ (by decide))]
  rw [show (f + 5 : Nat) = (f + 4) + 1 from rfl,
    show ((['d', 'a', 'i', 'l', 'y', 'S', 'u', 'b', 't', 'a', 's', 'k', 'C', 'o', 'm', 'p', 'l', 'e', 't', 'i', 'o', 'n', 's', ':'] : Str))
      = "dailySubtaskCompletions".data ++ [':'] from rfl,
    topMapStep (f + 4) "dailySubtaskCompletions".data (cmEntries dm) _ _ (by decide)
      (by simp [cmEntries, hdmne]) (cmEntries_ok dm hdmok)
      (by rw [cmEntries_keys]; exact hdmnd) (stops2_of_head _ _ (by decide))]
  rw [show (f + 4 : Nat) = (f + 3) + 1 from rfl,
    show ((['w', 'e', 'e', 'k', 'l', 'y', 'S', 'u', 'b', 't', 'a', 's', 'k', 'C', 'o', 'm', 'p', 'l', 'e', 't', 'i', 'o', 'n', 's', ':'] : Str))
      = "weeklySubtaskCompletions".data ++ [':'] from rfl,
    topMapStep (f + 3) "weeklySubtaskCompletions".data (cmEntries wm) _ _ (by decide)
      (by simp [cmEntries, hwmne]) (cmEntries_ok wm hwmok)
      (by rw [cmEntries_keys]; exact hwmnd) (stops2_of_head _ _ (by decide))]
  rw [show (f + 3 : Nat) = (f + 2) + 1 from rfl,
    show ((['m', 'o', 'n', 't', 'h', 'l', 'y', 'P', 'r', 'o', 'g', 'r', 'e', 's', 's', ':'] : Str))
      = "monthlyProgress".data ++ [':'] from rfl,
    topMapStep (f + 2) "monthlyProgress".data (moEntries mm) _ _ (by decide)
      (by simp [moEntries, hmmne]) (moEntries_ok mm hmmok)
      (by rw [moEntries_keys]; exact hmmnd) (stops2_of_head _ _ (by decide))]
  rw [show (f + 2 : Nat) = (f + 1) + 1 from rfl,
    show ((['r', 'e', 'c', 'u', 'r', 'r', 'e', 'n', 'c', 'e', ':'] : Str))
      = "recurrence".data ++ [':'] from rfl,
    topMapStep (f + 1) "recurrence".data (recEntries r) _ _ (by decide)
      (recEntries_ne_nil r) (recEntries_ok r hfr hdow)
      (recEntries_nodup r)
      (stops2_of_head _ _ (strStarts_false_of_head 't' _ ' ' _ (by decide)))]
  rw [show ('t' :: 'a' :: 'g' :: 's' :: ':' :: (if g.tags.length > 0 then ' ' :: inlineArr g.tags else [' ', '[', ']']) : Str)
      = "tags".data ++ ':' :: (if g.tags.length > 0 then ' ' :: inlineArr g.tags else [' ', '[', ']']) from rfl,
    topScalarStep f "tags".data (if g.tags.length > 0 then ' ' :: inlineArr g.tags else [' ', '[', ']']) [] _
      (by decide) ⟨trivial, trivial⟩]
  rw [pfLoopF_nil]
  exact ⟨_, _, _, _, _, _, _, rfl⟩


/-! ## Round-trip support: reconstruction of the structured fields -/

theorem jsStringOfValue_str (s : Str) : jsStringOfValue (.str s) = s := rfl

theorem jsStringOfValue_comp_str : (jsStringOfValue ∘ Value.str) = id := funext (fun _ => rfl)

theorem subtask_eta (st : Subtask) :
    (⟨st.id, st.title, st.completed⟩ : Subtask) = st := by
  cases st
  rfl

theorem frontmatterToGoal_subtasks (fm : List (Str × Value))
    (content filePath category todayISO : Str) (sts : List Subtask)
    (h : jsGet fm "subtasks".data = some (.arr (sts.map subVal))) :
    (frontmatterToGoal fm content filePath category todayISO).subtasks = some sts := by
  unfold frontmatterToGoal
  dsimp only []
  rw [h]
  simp only [Option.map_some']
  congr 1
  simp only [valueItems]
  rw [List.map_map]
  have hstep : ∀ st ∈ sts, ((fun st =>
      ({ id := jsStringOfOpt (getProp st "id".data),
         title := jsStringOfOpt (getProp st "title".data),
         completed := jsBoolOfOpt (getProp st "completed".data) } : Subtask)) ∘ subVal) st = st := by
    intro st _
    show ({ id := st.id, title := st.title, completed := st.completed } : Subtask) = st
    exact subtask_eta st
  rw [List.map_congr_left hstep]
  simp

theorem frontmatterToGoal_daily (fm : List (Str × Value))
    (content filePath category todayISO : Str) (dm : List (Str × List Str))
    (h : jsGet fm "dailySubtaskCompletions".data
      = some (.obj ((cmEntries dm).map (fun e => (e.1, e.2.2))))) :
    (frontmatterToGoal fm content filePath category todayISO).dailySubtaskCompletions
      = some dm := by
  unfold frontmatterToGoal
  dsimp only []
  rw [h]
  simp only [jsTruthy, if_true]
  congr 1
  simp only [jsEntries, cmEntries, List.map_map]
  refine Eq.trans (List.map_congr_left ?_) (List.map_id dm)
  intro p _
  simp [valueArrToStrs, jsStringOfValue_comp_str, List.map_map]

theorem frontmatterToGoal_weekly (fm : List (Str × Value))
    (content filePath category todayISO : Str) (wm : List (Str × List Str))
    (h : jsGet fm "weeklySubtaskCompletions".data
      = some (.obj ((cmEntries wm).map (fun e => (e.1, e.2.2))))) :
    (frontmatterToGoal fm content filePath category todayISO).weeklySubtaskCompletions
      = some wm := by
  unfold frontmatterToGoal
  dsimp only []
  rw [h]
  simp only [jsTruthy, if_true]
  congr 1
  simp only [jsEntries, cmEntries, List.map_map]
  refine Eq.trans (List.map_congr_left ?_) (List.map_id wm)
  intro p _
  simp [valueArrToStrs, jsStringOfValue_comp_str, List.map_map]

theorem frontmatterToGoal_monthly (fm : List (Str × Value))
    (content filePath category todayISO : Str) (mm : List (Str × Int))
    (h : jsGet fm "monthlyProgress".data
      = some (.obj ((moEntries mm).map (fun e => (e.1, e.2.2))))) :
    (frontmatterToGoal fm content filePath category todayISO).monthlyProgress = some mm := by
  unfold frontmatterToGoal
  dsimp only []
  rw [h]
  simp only [jsTruthy, if_true]
  congr 1
  simp only [jsEntries, moEntries, List.map_map]
  refine Eq.trans (List.map_congr_left ?_) (List.map_id mm)
  intro p _
  simp [jsNumberOfValue, Function.comp]

theorem frontmatterToGoal_recurrence (fm : List (Str × Value))
    (content filePath category todayISO : Str) (r : Recurrence)
    (h : jsGet fm "recurrence".data
      = some (.obj ((recEntries r).map (fun e => (e.1, e.2.2)))))
    (hdowne : ∀ l, r.daysOfWeek = some l → l ≠ []) :
    (frontmatterToGoal fm content filePath category todayISO).recurrence = some r := by
  unfold frontmatterToGoal
  dsimp only []
  rw [h]
  simp only [jsTruthy, if_true]
  rcases r with ⟨fr, dow, dom, tc, mc⟩
  rcases tc with _ | n1 <;> rcases mc with _ | n2 <;> rcases dom with _ | n3 <;>
    rcases dow with _ | l <;> (try by_cases hl : l.length > 0) <;>
    simp only [recEntries] <;> (try rw [if_pos hl]) <;> (try rw [if_neg hl]) <;>
    simp [getProp, jsGet, valueToIntOpt, valueArrToStrs, jsStringOfValue_comp_str,
      List.map_map, List.length_pos, *]
  all_goals exact absurd (List.eq_nil_of_length_eq_zero (by omega)) (hdowne l rfl)


/-! ## Round-trip support: well-formed goals and line sanity -/

/-- A well-formed goal for the amended round-trip claim: newline-free scalar
fields, nonempty subtasks with safe ids and titles, nonempty completion and
progress maps with safe unique keys and nonempty id lists, and a recurrence
whose frequency is safe and whose daysOfWeek, when present, is a nonempty
safe list. -/
def wellFormedGoalB (g : Goal) : Bool :=
  noNlB g.type && noNlB g.status && noNlB g.startDate && noNlB g.endDate &&
  noNlB g.priority && g.completions.all noNlB && g.tags.all noNlB &&
  (match g.subtasks with
   | some sts => !sts.isEmpty && sts.all (fun st => SafeValB st.id && SafeValB st.title)
   | none => false) &&
  (match g.dailySubtaskCompletions with
   | some m => !m.isEmpty && decide ((m.map Prod.fst).Nodup)
       && m.all (fun p => SafeKeyB p.1 && !p.2.isEmpty && p.2.all SafeKeyB)
   | none => false) &&
  (match g.weeklySubtaskCompletions with
   | some m => !m.isEmpty && decide ((m.map Prod.fst).Nodup)
       && m.all (fun p => SafeKeyB p.1 && !p.2.isEmpty && p.2.all SafeKeyB)
   | none => false) &&
  (match g.monthlyProgress with
   | some m => !m.isEmpty && decide ((m.map Prod.fst).Nodup) && m.all (fun p => SafeKeyB p.1)
   | none => false) &&
  (match g.recurrence with
   | some r => SafeValB r.frequency &&
       (match r.daysOfWeek with
        | some l => !l.isEmpty && l.all SafeKeyB
        | none => true)
   | none => false)

theorem noNlB_chars (s : Str) (h : noNlB s = true) : ∀ c ∈ s, (c == '\n') = false := by
  intro c hc
  have := List.all_eq_true.mp h c hc
  simpa using this

theorem isEmpty_false_ne_nil {s : Str} (h : s.isEmpty = false) : s ≠ [] := by
  cases s with
  | nil => cases h
  | cons c t => simp

theorem isEmpty_false_ne_nil2 {α : Type} {s : List α} (h : s.isEmpty = false) : s ≠ [] := by
  cases s with
  | nil => cases h
  | cons c t => simp

theorem ne_nil_of_not_isEmpty {α : Type} {s : List α} (h : (!s.isEmpty) = true) : s ≠ [] := by
  cases s with
  | nil => cases h
  | cons a t => simp

theorem mapentry_ok (p : Str × List Str)
    (h : (SafeKeyB p.1 && !p.2.isEmpty && p.2.all SafeKeyB) = true) :
    SafeKeyB p.1 = true ∧ p.2 ≠ [] ∧ ∀ i ∈ p.2, SafeKeyB i = true := by
  rw [Bool.and_eq_true, Bool.and_eq_true] at h
  exact ⟨h.1.1, ne_nil_of_not_isEmpty h.1.2, List.all_eq_true.mp h.2⟩

theorem wf_parts (g : Goal) (h : wellFormedGoalB g = true) :
    (noNlB g.type = true ∧ noNlB g.status = true ∧ noNlB g.startDate = true ∧
      noNlB g.endDate = true ∧ noNlB g.priority = true ∧
      (∀ s ∈ g.completions, noNlB s = true) ∧ (∀ s ∈ g.tags, noNlB s = true)) ∧
    (∃ sts, g.subtasks = some sts ∧ sts ≠ [] ∧
      ∀ st ∈ sts, SafeValB st.id = true ∧ SafeValB st.title = true) ∧
    (∃ dm, g.dailySubtaskCompletions = some dm ∧ dm ≠ [] ∧ (dm.map Prod.fst).Nodup ∧
      ∀ p ∈ dm, SafeKeyB p.1 = true ∧ p.2 ≠ [] ∧ ∀ i ∈ p.2, SafeKeyB i = true) ∧
    (∃ wm, g.weeklySubtaskCompletions = some wm ∧ wm ≠ [] ∧ (wm.map Prod.fst).Nodup ∧
      ∀ p ∈ wm, SafeKeyB p.1 = true ∧ p.2 ≠ [] ∧ ∀ i ∈ p.2, SafeKeyB i = true) ∧
    (∃ mm, g.monthlyProgress = some mm ∧ mm ≠ [] ∧ (mm.map Prod.fst).Nodup ∧
      ∀ p ∈ mm, SafeKeyB p.1 = true) ∧
    (∃ r, g.recurrence = some r ∧ SafeValB r.frequency = true ∧
      ∀ l, r.daysOfWeek = some l → l ≠ [] ∧ ∀ i ∈ l, SafeKeyB i = true) := by
  unfold wellFormedGoalB at h
  simp only [Bool.and_eq_true] at h
  obtain ⟨⟨⟨⟨⟨⟨⟨⟨⟨⟨⟨h1, h2⟩, h3⟩, h4⟩, h5⟩, h6⟩, h7⟩, h8⟩, h9⟩, h10⟩, h11⟩, h12⟩ := h
  refine ⟨⟨h1, h2, h3, h4, h5, List.all_eq_true.mp h6, List.all_eq_true.mp h7⟩, ?_, ?_, ?_, ?_, ?_⟩
  · cases hv : g.subtasks with
    | none => rw [hv] at h8; cases h8
    | some sts =>
      rw [hv] at h8
      rw [Bool.and_eq_true] at h8
      refine ⟨sts, rfl, ne_nil_of_not_isEmpty h8.1, ?_⟩
      intro st hst
      have := List.all_eq_true.mp h8.2 st hst
      rw [Bool.and_eq_true] at this
      exact this
  · cases hv : g.dailySubtaskCompletions with
    | none => rw [hv] at h9; cases h9
    | some m =>
      rw [hv] at h9
      rw [Bool.and_eq_true, Bool.and_eq_true] at h9
      refine ⟨m, rfl, ne_nil_of_not_isEmpty h9.1.1, of_decide_eq_true h9.1.2, ?_⟩
      intro p hp
      exact mapentry_ok p (List.all_eq_true.mp h9.2 p hp)
  · cases hv : g.weeklySubtaskCompletions with
    | none => rw [hv] at h10; cases h10
    | some m =>
      rw [hv] at h10
      rw [Bool.and_eq_true, Bool.and_eq_true] at h10
      refine ⟨m, rfl, ne_nil_of_not_isEmpty h10.1.1, of_decide_eq_true h10.1.2, ?_⟩
      intro p hp
      exact mapentry_ok p (List.all_eq_true.mp h10.2 p hp)
  · cases hv : g.monthlyProgress with
    | none => rw [hv] at h11; cases h11
    | some m =>
      rw [hv] at h11
      rw [Bool.and_eq_true, Bool.and_eq_true] at h11
      refine ⟨m, rfl, ne_nil_of_not_isEmpty h11.1.1, of_decide_eq_true h11.1.2,
        List.all_eq_true.mp h11.2⟩
  · cases hv : g.recurrence with
    | none => rw [hv] at h12; cases h12
    | some r =>
      rw [hv] at h12
      rw [Bool.and_eq_true] at h12
      refine ⟨r, rfl, h12.1, ?_⟩
      intro l hl
      have h13 := h12.2
      rw [hl, Bool.and_eq_true] at h13
      exact ⟨ne_nil_of_not_isEmpty h13.1, List.all_eq_true.mp h13.2⟩


theorem goodLine_build (l : Str) (h : ∀ c ∈ l, (c == '\n') = false)
    (hd : strStarts l "-".data = false) : goodLine l = true := by
  unfold goodLine noNlB
  rw [List.all_eq_true.mpr (fun c hc => by rw [h c hc]; rfl), hd]
  rfl

theorem noNl_append (a b : Str) (ha : ∀ c ∈ a, (c == '\n') = false)
    (hb : ∀ c ∈ b, (c == '\n') = false) : ∀ c ∈ a ++ b, (c == '\n') = false := by
  intro c hc
  rcases List.mem_append.mp hc with h | h
  · exact ha c h
  · exact hb c h

theorem noNl_keyChars (s : Str) (h : ∀ c ∈ s, isKeyChar c = true) :
    ∀ c ∈ s, (c == '\n') = false :=
  fun c hc => beq_eq_false_iff_ne.mpr (keyChar_ne c (h c hc)).2.1

theorem noNl_intToStr (i : Int) : ∀ c ∈ intToStr i, (c == '\n') = false := by
  intro c hc
  have hn := natToStr_spec i.natAbs
  unfold intToStr at hc
  by_cases h : i < 0
  · rw [if_pos h] at hc
    rcases List.mem_cons.mp hc with rfl | hm
    · decide
    · exact digit_ne_ch c '\n' (hn.2.1 c hm) (by decide)
  · rw [if_neg h] at hc
    exact digit_ne_ch c '\n' (hn.2.1 c hc) (by decide)

theorem mem_joinSep (sep : Str) (l : List Str) (c : Char) (hc : c ∈ joinSep sep l) :
    c ∈ sep ∨ ∃ s ∈ l, c ∈ s := by
  induction l with
  | nil => cases hc
  | cons a rest ih =>
    cases rest with
    | nil => exact Or.inr ⟨a, List.mem_cons_self _ _, hc⟩
    | cons b r2 =>
      have hc2 : c ∈ a ++ sep ++ joinSep sep (b :: r2) := hc
      rcases List.mem_append.mp hc2 with h1 | h1
      · rcases List.mem_append.mp h1 with h2 | h2
        · exact Or.inr ⟨a, List.mem_cons_self _ _, h2⟩
        · exact Or.inl h2
      · rcases ih h1 with h2 | ⟨s, hs, hcs⟩
        · exact Or.inl h2
        · exact Or.inr ⟨s, List.mem_cons_of_mem _ hs, hcs⟩

theorem noNl_inlineArr (l : List Str) (h : ∀ s ∈ l, ∀ c ∈ s, (c == '\n') = false) :
    ∀ c ∈ inlineArr l, (c == '\n') = false := by
  intro c hc
  rw [inlineArr_shape] at hc
  rcases List.mem_cons.mp hc with rfl | hm
  · decide
  · rcases List.mem_append.mp hm with h1 | h1
    · rcases mem_joinSep ", ".data l c h1 with h2 | ⟨s, hs, hcs⟩
      · rcases List.mem_cons.mp h2 with rfl | h3
        · decide
        · rcases List.mem_singleton.mp h3 with rfl
          decide
      · exact h s hs c hcs
    · rcases List.mem_singleton.mp h1 with rfl
      decide

theorem goodLine_subtaskLines (sts : List Subtask)
    (hsafe : ∀ st ∈ sts, SafeValB st.id = true ∧ SafeValB st.title = true) :
    ∀ l ∈ sts.flatMap subtaskLines, goodLine l = true := by
  intro l hl
  rcases List.mem_flatMap.mp hl with ⟨st, hst, hls⟩
  obtain ⟨hid, htl⟩ := hsafe st hst
  have hidk := (SafeKeyB_facts _ (SafeValB_key _ hid)).2.1
  have htlk := (SafeKeyB_facts _ (SafeValB_key _ htl)).2.1
  simp only [subtaskLines, List.mem_cons, List.not_mem_nil, or_false] at hls
  rcases hls with rfl | rfl | rfl
  · exact goodLine_build _ (noNl_append _ _ (by decide) (noNl_keyChars _ hidk))
      (strStarts_false_of_head ' ' _ '-' _ (by decide))
  · exact goodLine_build _ (noNl_append _ _ (by decide) (noNl_keyChars _ htlk))
      (strStarts_false_of_head ' ' _ '-' _ (by decide))
  · cases st.completed <;> decide

theorem goodLine_mapLines (entries : List (Str × Str × Value))
    (hok : ∀ e ∈ entries, SafeKeyB e.1 = true ∧ ∀ c ∈ e.2.1, (c == '\n') = false) :
    ∀ l ∈ entries.map (fun e => "  ".data ++ (e.1 ++ ':' :: ' ' :: e.2.1)),
      goodLine l = true := by
  intro l hl
  rcases List.mem_map.mp hl with ⟨e, he, hle⟩
  obtain ⟨hk, hv⟩ := hok e he
  have hkk := (SafeKeyB_facts _ hk).2.1
  rw [← hle]
  refine goodLine_build _ (noNl_append _ _ (by decide) (noNl_append _ _ (noNl_keyChars _ hkk) ?_))
    (strStarts_false_of_head ' ' _ '-' _ (by decide))
  intro c hc
  rcases List.mem_cons.mp hc with rfl | hc2
  · decide
  · rcases List.mem_cons.mp hc2 with rfl | hc3
    · decide
    · exact hv c hc3

theorem cmEntries_noNl (m : List (Str × List Str))
    (h : ∀ p ∈ m, SafeKeyB p.1 = true ∧ p.2 ≠ [] ∧ ∀ i ∈ p.2, SafeKeyB i = true) :
    ∀ e ∈ cmEntries m, SafeKeyB e.1 = true ∧ ∀ c ∈ e.2.1, (c == '\n') = false := by
  intro e he
  rcases List.mem_map.mp he with ⟨p, hp, hpe⟩
  obtain ⟨h1, _, h3⟩ := h p hp
  rw [← hpe]
  exact ⟨h1, noNl_inlineArr p.2 (fun s hs => noNl_keyChars s ((SafeKeyB_facts s (h3 s hs)).2.1))⟩

theorem moEntries_noNl (m : List (Str × Int)) (h : ∀ p ∈ m, SafeKeyB p.1 = true) :
    ∀ e ∈ moEntries m, SafeKeyB e.1 = true ∧ ∀ c ∈ e.2.1, (c == '\n') = false := by
  intro e he
  rcases List.mem_map.mp he with ⟨p, hp, hpe⟩
  rw [← hpe]
  exact ⟨h p hp, noNl_intToStr p.2⟩

theorem recEntries_noNl (r : Recurrence) (hfr : SafeValB r.frequency = true)
    (hdow : ∀ l, r.daysOfWeek = some l → l ≠ [] ∧ ∀ i ∈ l, SafeKeyB i = true) :
    ∀ e ∈ recEntries r, SafeKeyB e.1 = true ∧ ∀ c ∈ e.2.1, (c == '\n') = false := by
  intro e he
  unfold recEntries at he
  rcases List.mem_cons.mp he with rfl | he2
  · exact ⟨show SafeKeyB "frequency".data = true by decide,
      noNl_keyChars _ (SafeKeyB_facts _ (SafeValB_key _ hfr)).2.1⟩
  · simp only [List.mem_append] at he2
    rcases he2 with ((h1 | h1) | h1) | h1
    · cases hv : r.targetCount with
      | none => rw [hv] at h1; exact absurd h1 (by simp)
      | some n =>
        rw [hv] at h1
        rcases List.mem_singleton.mp h1 with rfl
        exact ⟨show SafeKeyB "targetCount".data = true by decide, noNl_intToStr n⟩
    · cases hv : r.minimumCount with
      | none => rw [hv] at h1; exact absurd h1 (by simp)
      | some n =>
        rw [hv] at h1
        rcases List.mem_singleton.mp h1 with rfl
        exact ⟨show SafeKeyB "minimumCount".data = true by decide, noNl_intToStr n⟩
    · cases hv : r.dayOfMonth with
      | none => rw [hv] at h1; exact absurd h1 (by simp)
      | some n =>
        rw [hv] at h1
        rcases List.mem_singleton.mp h1 with rfl
        exact ⟨show SafeKeyB "dayOfMonth".data = true by decide, noNl_intToStr n⟩
    · cases hv : r.daysOfWeek with
      | none => rw [hv] at h1; exact absurd h1 (by simp)
      | some l =>
        rw [hv] at h1
        have h1b : e ∈ (if l.length > 0
            then [("daysOfWeek".data, inlineArr l, Value.arr (l.map Value.str))] else []) := h1
        by_cases hl : l.length > 0
        · rw [if_pos hl] at h1b
          rcases List.mem_singleton.mp h1b with rfl
          obtain ⟨_, hls⟩ := hdow l hv
          exact ⟨show SafeKeyB "daysOfWeek".data = true by decide, noNl_inlineArr l
            (fun s hs => noNl_keyChars s ((SafeKeyB_facts s (hls s hs)).2.1))⟩
        · rw [if_neg hl] at h1b
          cases h1b

theorem goodLines_serialize (g : Goal)
    (h1 : noNlB g.type = true) (h2 : noNlB g.status = true) (h3 : noNlB g.startDate = true)
    (h4 : noNlB g.endDate = true) (h5 : noNlB g.priority = true)
    (h6 : ∀ s ∈ g.completions, noNlB s = true) (h7 : ∀ s ∈ g.tags, noNlB s = true)
    (hsafe : ∀ sts, g.subtasks = some sts →
      ∀ st ∈ sts, SafeValB st.id = true ∧ SafeValB st.title = true)
    (hdmok : ∀ dm, g.dailySubtaskCompletions = some dm →
      ∀ p ∈ dm, SafeKeyB p.1 = true ∧ p.2 ≠ [] ∧ ∀ i ∈ p.2, SafeKeyB i = true)
    (hwmok : ∀ wm, g.weeklySubtaskCompletions = some wm →
      ∀ p ∈ wm, SafeKeyB p.1 = true ∧ p.2 ≠ [] ∧ ∀ i ∈ p.2, SafeKeyB i = true)
    (hmmok : ∀ mm, g.monthlyProgress = some mm → ∀ p ∈ mm, SafeKeyB p.1 = true)
    (hrok : ∀ r, g.recurrence = some r → SafeValB r.frequency = true ∧
      ∀ l, r.daysOfWeek = some l → l ≠ [] ∧ ∀ i ∈ l, SafeKeyB i = true) :
    ∀ l ∈ serializeLines g, goodLine l = true := by
  unfold serializeLines
  refine List.forall_mem_append.mpr ⟨List.forall_mem_append.mpr ⟨List.forall_mem_append.mpr
    ⟨List.forall_mem_append.mpr ⟨List.forall_mem_append.mpr ⟨List.forall_mem_append.mpr
    ⟨?_, ?_⟩, ?_⟩, ?_⟩, ?_⟩, ?_⟩, ?_⟩
  · intro l hl
    simp only [List.mem_cons, List.not_mem_nil, or_false] at hl
    rcases hl with rfl | rfl | rfl | rfl | rfl | rfl
    · exact goodLine_build _ (noNl_append _ _ (by decide) (noNlB_chars _ h1))
        (strStarts_false_of_head 't' _ '-' _ (by decide))
    · exact goodLine_build _ (noNl_append _ _ (by decide) (noNlB_chars _ h2))
        (strStarts_false_of_head 's' _ '-' _ (by decide))
    · exact goodLine_build _ (noNl_append _ _ (by decide) (noNlB_chars _ h3))
        (strStarts_false_of_head 's' _ '-' _ (by decide))
    · exact goodLine_build _ (noNl_append _ _ (by decide) (noNlB_chars _ h4))
        (strStarts_false_of_head 'e' _ '-' _ (by decide))
    · exact goodLine_build _ (noNl_append _ _ (by decide) (noNlB_chars _ h5))
        (strStarts_false_of_head 'p' _ '-' _ (by decide))
    · exact goodLine_build _ (noNl_append _ _ (by decide)
        (noNl_inlineArr _ (fun s hs => noNlB_chars s (h6 s hs))))
        (strStarts_false_of_head 'c' _ '-' _ (by decide))
  · cases hv : g.subtasks with
    | none => intro l hl; rcases List.mem_singleton.mp hl with rfl; decide
    | some sts =>
      dsimp only []
      by_cases hlen : sts.length > 0
      · rw [if_pos hlen]
        refine List.forall_mem_cons.mpr ⟨by decide, ?_⟩
        exact goodLine_subtaskLines sts (hsafe sts hv)
      · rw [if_neg hlen]
        intro l hl
        rcases List.mem_singleton.mp hl with rfl
        decide
  · cases hv : g.dailySubtaskCompletions with
    | none => intro l hl; rcases List.mem_singleton.mp hl with rfl; decide
    | some dm =>
      dsimp only []
      by_cases hlen : dm.length > 0
      · rw [if_pos hlen, completionMapLines_eq dm (fun p hp => (hdmok dm hv p hp).2.1)]
        refine List.forall_mem_cons.mpr ⟨by decide, ?_⟩
        exact goodLine_mapLines (cmEntries dm) (cmEntries_noNl dm (hdmok dm hv))
      · rw [if_neg hlen]
        intro l hl
        rcases List.mem_singleton.mp hl with rfl
        decide
  · cases hv : g.weeklySubtaskCompletions with
    | none => intro l hl; rcases List.mem_singleton.mp hl with rfl; decide
    | some wm =>
      dsimp only []
      by_cases hlen : wm.length > 0
      · rw [if_pos hlen, completionMapLines_eq wm (fun p hp => (hwmok wm hv p hp).2.1)]
        refine List.forall_mem_cons.mpr ⟨by decide, ?_⟩
        exact goodLine_mapLines (cmEntries wm) (cmEntries_noNl wm (hwmok wm hv))
      · rw [if_neg hlen]
        intro l hl
        rcases List.mem_singleton.mp hl with rfl
        decide
  · cases hv : g.monthlyProgress with
    | none => intro l hl; cases hl
    | some mm =>
      dsimp only []
      by_cases hlen : mm.length > 0
      · rw [if_pos hlen, monthlyLines_eq mm]
        refine List.forall_mem_cons.mpr ⟨by decide, ?_⟩
        exact goodLine_mapLines (moEntries mm) (moEntries_noNl mm (hmmok mm hv))
      · rw [if_neg hlen]
        intro l hl
        cases hl
  · cases hv : g.recurrence with
    | none => intro l hl; cases hl
    | some r =>
      dsimp only []
      rw [recurrenceLines_eq r]
      refine List.forall_mem_cons.mpr ⟨by decide, ?_⟩
      exact goodLine_mapLines (recEntries r)
        (recEntries_noNl r (hrok r hv).1 (hrok r hv).2)
  · intro l hl
    rcases List.mem_singleton.mp hl with rfl
    by_cases hc : g.tags.length > 0
    · rw [if_pos hc]
      exact goodLine_build _ (noNl_append _ _ (by decide)
        (noNl_inlineArr _ (fun s hs => noNlB_chars s (h7 s hs))))
        (strStarts_false_of_head 't' _ '-' _ (by decide))
    · rw [if_neg hc]
      decide


theorem serializeLines_ne_nil (g : Goal) : serializeLines g ≠ [] := by
  unfold serializeLines
  intro h
  simp at h

/-- **C1.** Amended round-trip of the frontmatter codec: for every
well-formed Goal (newline-free scalar fields; nonempty subtasks whose ids
and titles are nonempty key-character strings kept verbatim by parseValue;
nonempty daily/weekly completion maps and monthlyProgress with safe unique
keys and nonempty id lists; a recurrence with a safe frequency and a
nonempty safe daysOfWeek when present), serializing with
serializeFrontmatter, wrapping in the frontmatter markers, parsing back
with parseFrontmatter and mapping through frontmatterToGoal reconstructs
the subtasks, both completion maps, the monthlyProgress map and the
recurrence exactly.  The original claim quantifies over every goal with
nonempty structured fields; it fails without the well-formedness
conditions (see the counterexample), because the serializer drops
completion-map entries whose id list is empty. -/
theorem c1_roundtrip (g : Goal) (body content filePath category todayISO : Str)
    (hwf : wellFormedGoalB g = true) :
    ((frontmatterToGoal
      (parseFrontmatter ('-' :: '-' :: '-' :: '\n'
        :: (serializeFrontmatter g ++ '\n' :: '-' :: '-' :: '-' :: '\n' :: body)))
      content filePath category todayISO).subtasks = g.subtasks) ∧
    ((frontmatterToGoal
      (parseFrontmatter ('-' :: '-' :: '-' :: '\n'
        :: (serializeFrontmatter g ++ '\n' :: '-' :: '-' :: '-' :: '\n' :: body)))
      content filePath category todayISO).dailySubtaskCompletions
        = g.dailySubtaskCompletions) ∧
    ((frontmatterToGoal
      (parseFrontmatter ('-' :: '-' :: '-' :: '\n'
        :: (serializeFrontmatter g ++ '\n' :: '-' :: '-' :: '-' :: '\n' :: body)))
      content filePath category todayISO).weeklySubtaskCompletions
        = g.weeklySubtaskCompletions) ∧
    ((frontmatterToGoal
      (parseFrontmatter ('-' :: '-' :: '-' :: '\n'
        :: (serializeFrontmatter g ++ '\n' :: '-' :: '-' :: '-' :: '\n' :: body)))
      content filePath category todayISO).monthlyProgress = g.monthlyProgress) ∧
    ((frontmatterToGoal
      (parseFrontmatter ('-' :: '-' :: '-' :: '\n'
        :: (serializeFrontmatter g ++ '\n' :: '-' :: '-' :: '-' :: '\n' :: body)))
      content filePath category todayISO).recurrence = g.recurrence) := by
  obtain ⟨⟨hn1, hn2, hn3, hn4, hn5, hn6, hn7⟩, ⟨sts, hsts, hstsne, hsafe⟩,
    ⟨dm, hdm, hdmne, hdmnd, hdmok⟩, ⟨wm, hwm, hwmne, hwmnd, hwmok⟩,
    ⟨mm, hmm, hmmne, hmmnd, hmmok⟩, ⟨r, hr, hfr, hdow⟩⟩ := wf_parts g hwf
  have hgood := goodLines_serialize g hn1 hn2 hn3 hn4 hn5 hn6 hn7
    (fun sts2 hs2 => by
      rw [hsts] at hs2
      cases Option.some.inj hs2
      exact hsafe)
    (fun dm2 hs2 => by
      rw [hdm] at hs2
      cases Option.some.inj hs2
      exact hdmok)
    (fun wm2 hs2 => by
      rw [hwm] at hs2
      cases Option.some.inj hs2
      exact hwmok)
    (fun mm2 hs2 => by
      rw [hmm] at hs2
      cases Option.some.inj hs2
      exact hmmok)
    (fun r2 hs2 => by
      rw [hr] at hs2
      cases Option.some.inj hs2
      exact ⟨hfr, hdow⟩)
  have hpf : parseFrontmatter ('-' :: '-' :: '-' :: '\n'
      :: (serializeFrontmatter g ++ '\n' :: '-' :: '-' :: '-' :: '\n' :: body))
      = pfLoopF ((serializeLines g).length + 1) (serializeLines g) [] :=
    parseFrontmatter_shape (serializeLines g) hgood (serializeLines_ne_nil g) body
  have hfuel : pfLoopF ((serializeLines g).length + 1) (serializeLines g) []
      = pfLoopF ((serializeLines g).length + 12) (serializeLines g) [] :=
    pfLoopF_fuel_aux (serializeLines g).length (serializeLines g)
      ((serializeLines g).length + 1) ((serializeLines g).length + 12) []
      (Nat.le_refl _) (by omega) (by omega)
  obtain ⟨w1, w2, w3, w4, w5, w6, w12, hfm⟩ := pfLoopF_serializeLines g
    (serializeLines g).length sts dm wm mm r hsts hstsne hsafe hdm hdmne hdmok hdmnd
    hwm hwmne hwmok hwmnd hmm hmmne hmmok hmmnd hr hfr hdow
  have hparse := hpf.trans (hfuel.trans hfm)
  refine ⟨?_, ?_, ?_, ?_, ?_⟩
  · rw [hsts]
    exact frontmatterToGoal_subtasks _ content filePath category todayISO sts
      (by rw [hparse]; rfl)
  · rw [hdm]
    exact frontmatterToGoal_daily _ content filePath category todayISO dm
      (by rw [hparse]; rfl)
  · rw [hwm]
    exact frontmatterToGoal_weekly _ content filePath category todayISO wm
      (by rw [hparse]; rfl)
  · rw [hmm]
    exact frontmatterToGoal_monthly _ content filePath category todayISO mm
      (by rw [hparse]; rfl)
  · rw [hr]
    exact frontmatterToGoal_recurrence _ content filePath category todayISO r
      (by rw [hparse]; rfl) (fun l hl => (hdow l hl).1)

/-- A concrete well-formed goal exercising every structured field. -/
def gC1 : Goal :=
  { id := "g1".data, title := "T".data, description := [], type := "daily".data,
    status := "active".data, startDate := "2026-01-01".data, endDate := "2026-12-31".data,
    recurrence := some { frequency := "daily".data, daysOfWeek := some ["mon".data],
                         dayOfMonth := some 5, targetCount := some 3, minimumCount := some 1 },
    priority := "high".data, completions := ["2026-01-02".data],
    subtasks := some [⟨"s1".data, "alpha".data, true⟩, ⟨"s2".data, "beta".data, false⟩],
    tags := ["work".data], category := "cat".data, filePath := "f.md".data,
    monthlyProgress := some [("2026-01".data, 2)],
    dailySubtaskCompletions := some [("2026-01-02".data, ["s1".data])],
    weeklySubtaskCompletions := some [("2026-01-05".data, ["s2".data])] }

theorem c1_witness :
    wellFormedGoalB gC1 = true ∧
    (((frontmatterToGoal
      (parseFrontmatter ('-' :: '-' :: '-' :: '\n'
        :: (serializeFrontmatter gC1 ++ '\n' :: '-' :: '-' :: '-' :: '\n' :: [])))
      [] [] [] []).subtasks = gC1.subtasks) ∧
    ((frontmatterToGoal
      (parseFrontmatter ('-' :: '-' :: '-' :: '\n'
        :: (serializeFrontmatter gC1 ++ '\n' :: '-' :: '-' :: '-' :: '\n' :: [])))
      [] [] [] []).dailySubtaskCompletions = gC1.dailySubtaskCompletions) ∧
    ((frontmatterToGoal
      (parseFrontmatter ('-' :: '-' :: '-' :: '\n'
        :: (serializeFrontmatter gC1 ++ '\n' :: '-' :: '-' :: '-' :: '\n' :: [])))
      [] [] [] []).weeklySubtaskCompletions = gC1.weeklySubtaskCompletions) ∧
    ((frontmatterToGoal
      (parseFrontmatter ('-' :: '-' :: '-' :: '\n'
        :: (serializeFrontmatter gC1 ++ '\n' :: '-' :: '-' :: '-' :: '\n' :: [])))
      [] [] [] []).monthlyProgress = gC1.monthlyProgress) ∧
    ((frontmatterToGoal
      (parseFrontmatter ('-' :: '-' :: '-' :: '\n'
        :: (serializeFrontmatter gC1 ++ '\n' :: '-' :: '-' :: '-' :: '\n' :: [])))
      [] [] [] []).recurrence = gC1.recurrence)) :=
  ⟨by decide, c1_roundtrip gC1 [] [] [] [] [] (by decide)⟩

/-- The same goal with a daily completion-map entry whose id list is empty:
the map is nonempty, so it satisfies the original claim's hypotheses, but
the serializer drops the entry and the round trip loses it. -/
def gBadC1 : Goal :=
  { gC1 with
    dailySubtaskCompletions := some [("2026-01-02".data, [])] }

set_option maxRecDepth 100000 in
theorem c1_counterexample :
    (frontmatterToGoal
      (parseFrontmatter ('-' :: '-' :: '-' :: '\n'
        :: (serializeFrontmatter gBadC1 ++ '\n' :: '-' :: '-' :: '-' :: '\n' :: [])))
      [] [] [] []).dailySubtaskCompletions
      = some [] ∧
    gBadC1.dailySubtaskCompletions = some [("2026-01-02".data, [])] ∧
    gBadC1.subtasks ≠ none ∧ gBadC1.recurrence ≠ none ∧
    gBadC1.monthlyProgress ≠ some [] ∧
    (frontmatterToGoal
      (parseFrontmatter ('-' :: '-' :: '-' :: '\n'
        :: (serializeFrontmatter gBadC1 ++ '\n' :: '-' :: '-' :: '-' :: '\n' :: [])))
      [] [] [] []).dailySubtaskCompletions
      ≠ gBadC1.dailySubtaskCompletions := by
  refine ⟨by decide, by decide, by decide, by decide, by decide, by decide⟩

end GoalTracker
